import Mathlib

/-!
# kpatch (`src/kpatch/main.c`): byte-pattern scanning and patching

A shallow embedding of the scanning and patching routines of `main.c`.

* The mapped file `fileData` is a `List Byte`; `fileSize` is its length.
* An access to `fileData` outside `0 .. fileSize-1` is undefined behaviour in C; it is
  modelled as the explicit result `Err.outOfBounds`.
* `uint64_t` values are natural numbers reduced modulo `2^64` where the source can wrap;
  the `(uint64_t)-1` sentinel is `NotFound`.
* `errorMsg` (which calls `exit(1)`) is modelled as an error result naming the call site.
* `printf` output is not modelled, but the reads of `fileData` made by its arguments are.
* The target is x86-64: the bytes of a `uint64_t` in memory are little endian.
-/

set_option maxRecDepth 8000

namespace Kpatch

abbrev Byte := Fin 256

/-- Ways in which a routine stops without returning normally. -/
inductive Err where
  /-- an access outside the bytes of `fileData` (or of a literal) -/
  | outOfBounds
  /-- `errorMsg("printk pos not found!")`, line 213 -/
  | printkNotFound
  /-- `errorMsg("")` after "Expected MOV=>reg before printk error", line 219 -/
  | movPrefixMismatch
  /-- `errorMsg("")` after "Expected MOV w/reg operand [C0-C7]", line 223 -/
  | movOperandMismatch
  /-- `errorMsg("Failed to find TEST eax,eax\n")`, line 230 -/
  | testNotFound
  /-- `errorMsg("Failed to find JZ\n")`, line 235 -/
  | jzNotFound
  /-- the iteration budget of the model of the `while` loop of `patchBootParams` ran out
  (shown below never to happen) -/
  | loopBudget
  deriving DecidableEq, Repr

deriving instance DecidableEq for Except

/-- The value `(uint64_t)-1` returned by the scanners when nothing is found. -/
def NotFound : Nat := 2 ^ 64 - 1

/-- Conversion of an `int` (or of a wrapped sum) to `uint64_t`. -/
def toU64 (z : Int) : Nat := (z % 2 ^ 64).toNat

/-- Conversion of a `uint64_t` to `int` (32 bits, two's complement), as done when `fileSize`
is passed for the parameter `int size`. -/
def toInt32 (n : Nat) : Int :=
  if n % 2 ^ 32 < 2 ^ 31 then ((n % 2 ^ 32 : Nat) : Int) else ((n % 2 ^ 32 : Nat) : Int) - 2 ^ 32

/-- Read `mem[i]`. -/
def rd (mem : List Byte) (i : Nat) : Except Err Byte :=
  match mem[i]? with
  | some b => .ok b
  | none => .error .outOfBounds

/-- Write `mem[i] = b`. -/
def wr (mem : List Byte) (i : Nat) (b : Byte) : Except Err (List Byte) :=
  if i < mem.length then .ok (mem.set i b) else .error .outOfBounds

/-- The test `strncmp(a + i, b + j, n) == 0` of the C library: bytes are compared in order;
the comparison stops with "different" at the first pair that differs, with "equal" at a pair
of NUL bytes, and with "equal" after `n` pairs. -/
def strncmp0 (a : List Byte) (i : Nat) (b : List Byte) (j : Nat) : Nat → Except Err Bool
  | 0 => .ok true
  | n + 1 => do
    let c1 ← rd a i
    let c2 ← rd b j
    if c1 ≠ c2 then return false
    else if c1 = 0 then return true
    else strncmp0 a (i + 1) b (j + 1) n

/-! ## `findPUSH_R12_R15_SEQ` (lines 75-84) -/

/-- The `for` loop of `findPUSH_R12_R15_SEQ`; the first argument is the number `size - i` of
iterations left, `size` is the bound already converted to `uint64_t`. -/
def findPUSHLoop (fileData : List Byte) (size : Nat) : Nat → Nat → Except Err Nat
  | 0, _ => .ok NotFound
  | left + 1, i =>
    if i < size then do
      let b ← rd fileData i
      if b = 0x41 then
        let b1 ← rd fileData (i + 1)
        if 0x54 ≤ b1 ∧ b1 ≤ 0x57 then return i
        else findPUSHLoop fileData size left (i + 1)
      else findPUSHLoop fileData size left (i + 1)
    else .ok NotFound

/-- Source `uint64_t findPUSH_R12_R15_SEQ(int size, uint64_t start)`. -/
def findPUSH_R12_R15_SEQ (fileData : List Byte) (size : Int) (start : Nat) : Except Err Nat :=
  findPUSHLoop fileData (toU64 size) (toU64 size - start) start

/-! ## `findORs` (lines 88-103) -/

/-- The condition of lines 93-94 at `data + i = fileData + pos`: `data[i] == 0xF0 &&
data[i+1] == 0x80` and then `data[i+7]` one of 1, 2, 4, 8 (with the short-circuit order of the
reads). -/
def orHit (fileData : List Byte) (pos : Nat) : Except Err Bool := do
  let b0 ← rd fileData pos
  if b0 = 0xF0 then
    let b1 ← rd fileData (pos + 1)
    if b1 = 0x80 then
      let b7 ← rd fileData (pos + 7)
      return decide (b7 = 0x01 ∨ b7 = 0x02 ∨ b7 = 0x04 ∨ b7 = 0x08)
    else return false
  else return false

/-- The `for` loop of `findORs` on `data = fileData + base`; the first argument bounds the
number of iterations left (`size - i`); `c` and `orPos` are the running count and the global
array. -/
def findORsLoop (fileData : List Byte) (base size : Nat) :
    Nat → Nat → Nat → List Nat → Except Err (Nat × List Nat)
  | 0, _, c, orPos => .ok (c, orPos)
  | left + 1, i, c, orPos =>
    if i < size then do
      let hit ← orHit fileData (base + i)
      let orPos1 := if hit then orPos.set c i else orPos
      let c1 := if hit then c + 1 else c
      let i1 := if hit then i + 8 else i
      if c1 = 4 then .ok (c1, orPos1)
      else findORsLoop fileData base size left (i1 + 1) c1 orPos1
    else .ok (c, orPos)

/-- Source `uint64_t findORs(unsigned char *data, int size, uint64_t start)` called with
`data = fileData + base`; returns the count and the new contents of the global `orPos`. -/
def findORs (fileData : List Byte) (base : Nat) (size : Int) (start : Nat) (orPos : List Nat) :
    Except Err (Nat × List Nat) :=
  findORsLoop fileData base (toU64 size) (toU64 size - start) start 0 orPos

/-! ## `patchBootParams` (lines 106-171) -/

/-- The global variables used by `patchBootParams`. -/
structure State where
  fileData : List Byte
  orPos : List Nat
  initTextOffs : Nat
  deriving DecidableEq, Repr

/-- The `fileSize` global: the length of the mapping. -/
def State.fileSize (st : State) : Nat := st.fileData.length

/-- The `int` expression `fileData[pos+6] << 24 | fileData[pos+5] << 16 | fileData[pos+4] << 8
| fileData[pos+3]` of line 139: the four bytes as a 32-bit two's-complement value (a shift into
the sign bit wraps, as on the compilers this x86-64 tool is built with). -/
def disp32 (fileData : List Byte) (pos : Nat) : Except Err Int := do
  let b6 ← rd fileData (pos + 6)
  let b5 ← rd fileData (pos + 5)
  let b4 ← rd fileData (pos + 4)
  let b3 ← rd fileData (pos + 3)
  let u : Nat := b6.val * 2 ^ 24 + b5.val * 2 ^ 16 + b4.val * 2 ^ 8 + b3.val
  return (if u < 2 ^ 31 then (u : Int) else (u : Int) - 2 ^ 32)

/-- The value `newPtrOffset` of line 139 for the match at absolute offset `pos`. -/
def newPtrOffset (fileData : List Byte) (pos : Nat) : Except Err Nat := do
  let d ← disp32 fileData pos
  return toU64 ((pos : Int) + d)

/-- The loop of lines 134-149: `n` runs over the given indices; the pair is
`(ptrOffset, ec)`. -/
def ptrCheckLoop (fileData : List Byte) (initTextOffs : Nat) (orPos : List Nat) :
    List Nat → Nat × Nat → Except Err (Nat × Nat)
  | [], acc => .ok acc
  | n :: ns, (ptrOffset, ec) => do
    let pos := (initTextOffs + orPos.getD n 0) % 2 ^ 64
    let new ← newPtrOffset fileData pos
    -- the arguments of the printf of lines 146-148
    let _ ← rd fileData pos
    let _ ← rd fileData (pos + 1)
    let _ ← rd fileData (pos + 2)
    let _ ← rd fileData (pos + 7)
    if ptrOffset = 0 then ptrCheckLoop fileData initTextOffs orPos ns (new, ec + 1)
    else if ptrOffset = new then ptrCheckLoop fileData initTextOffs orPos ns (ptrOffset, ec + 1)
    else ptrCheckLoop fileData initTextOffs orPos ns (ptrOffset, ec)

/-- Lines 132-149: the pointer-consistency count `ec`. -/
def ptrCheck (fileData : List Byte) (initTextOffs : Nat) (orPos : List Nat) : Except Err Nat := do
  let r ← ptrCheckLoop fileData initTextOffs orPos [0, 1, 2, 3] (0, 0)
  return r.2

/-- The `while` loop of lines 113-159; the first argument is an iteration budget. The result
is the state at loop exit (by the loop condition or by one of the two `break`s). -/
def patchBootParamsLoop : Nat → State → Except Err State
  | 0, _ => .error .loopBudget
  | budget + 1, st =>
    if st.initTextOffs < st.fileSize then do
      let addr ← findPUSH_R12_R15_SEQ st.fileData (toInt32 st.fileSize) st.initTextOffs
      if addr = NotFound then return st
      else
        let (n, orPos) ← findORs st.fileData st.initTextOffs 1024 0 st.orPos
        if n ≠ 4 then
          let next := (addr + 2) % 2 ^ 64
          let next := if n = 0 then (next + 1024) % 2 ^ 64 else next
          patchBootParamsLoop budget { st with orPos := orPos, initTextOffs := next }
        else
          let ec ← ptrCheck st.fileData st.initTextOffs orPos
          if ec ≠ 4 then
            patchBootParamsLoop budget
              { st with orPos := orPos,
                        initTextOffs := (st.initTextOffs + orPos.getD 3 0) % 2 ^ 64 }
          else return { st with orPos := orPos }
    else return st

/-- The two ways `patchBootParams` ends: "Failed to find matching sequences" (line 161) or the
patch step (lines 163-169). -/
inductive Outcome where
  | failed
  | patched
  deriving DecidableEq, Repr

/-- The patch loop of lines 164-169, `n` running over the given indices. -/
def patchLoop (initTextOffs : Nat) (orPos : List Nat) : List Nat → List Byte → Except Err (List Byte)
  | [], fileData => .ok fileData
  | n :: ns, fileData => do
    let pos := (initTextOffs + orPos.getD n 0 + 2) % 2 ^ 64
    let fileData ← wr fileData pos 0x25
    patchLoop initTextOffs orPos ns fileData

/-- Source `void patchBootParams()`. -/
def patchBootParams (st : State) : Except Err (Outcome × State) := do
  let st ← patchBootParamsLoop (st.fileSize + 1) st
  if st.initTextOffs ≥ st.fileSize then return (.failed, st)
  else
    let fileData ← patchLoop st.initTextOffs st.orPos [0, 1, 2, 3] st.fileData
    return (.patched, { st with fileData := fileData })

/-- The globals when `main` calls `patchBootParams`: `orPos` is zero-initialised and
`initTextOffs` is the file offset of `.init.text`. -/
def initState (fileData : List Byte) (initTextOffs : Nat) : State :=
  { fileData := fileData, orPos := [0, 0, 0, 0], initTextOffs := initTextOffs }

/-! ## `findSeq` (lines 182-194) -/

/-- The `do ... while` loop of `findSeq`; the first argument is the value of `max` on entry to
the body (at least 1). -/
def findSeqLoop (fileData seq : List Byte) (len : Nat) (dir : Int) : Nat → Nat → Except Err Nat
  | 0, _ => .ok NotFound
  | max + 1, i => do
    if (← strncmp0 fileData i seq 0 len) then return i
    else
      let i := toU64 ((i : Int) + dir)
      if 0 < i ∧ i < fileData.length ∧ 0 < max then findSeqLoop fileData seq len dir max i
      else return NotFound

/-- Source `uint64_t findSeq(const char* seq, int len, uint32_t pos, int dir, uint64_t max)`.
The parameter `pos` is truncated to 32 bits; `max` is a `uint64_t`, and a first `--max` from 0
wraps to `2^64 - 1`, which is the same as entering the loop with `2^64`. -/
def findSeq (fileData seq : List Byte) (len : Nat) (pos : Nat) (dir : Int) (max : Nat) :
    Except Err Nat :=
  findSeqLoop fileData seq len dir (if max % 2 ^ 64 = 0 then 2 ^ 64 else max % 2 ^ 64)
    (pos % 2 ^ 32)

def DIR_FWD : Int := 1
def DIR_RWD : Int := -1

/-! ## `patchRamdiskCheck` (lines 197-240) -/

/-- The array `str` of line 200: "3ramdisk corrupt" and its terminating NUL. -/
def str : List Byte :=
  [0x33, 0x72, 0x61, 0x6D, 0x64, 0x69, 0x73, 0x6B, 0x20, 0x63, 0x6F, 0x72, 0x72, 0x75, 0x70, 0x74, 0]

/-- The `for` loop of lines 203-208; the first argument is the number `fileSize - pos` of
iterations left. The result is the value of `pos` after the loop. -/
def strLoop (fileData : List Byte) (rodataOffs : Nat) : Nat → Nat → Except Err Nat
  | 0, pos => .ok pos
  | left + 1, pos =>
    if pos < fileData.length then do
      if (← strncmp0 str 0 fileData pos 16) then return toU64 ((pos : Int) - rodataOffs)
      else strLoop fileData rodataOffs left (pos + 1)
    else .ok pos

/-- The eight bytes of a `uint64_t` in memory (little endian), as seen through
`(const char*)&errPrintAddr`. -/
def le64 (v : Nat) : List Byte :=
  (List.range 8).map (fun k => Fin.ofNat (v / 2 ^ (8 * k)))

/-- Source `void patchRamdiskCheck()`; the result is the new `fileData`. -/
def patchRamdiskCheck (fileData : List Byte) (rodataAddr rodataOffs : Nat) :
    Except Err (List Byte) := do
  let pos ← strLoop fileData rodataOffs (fileData.length - rodataOffs) rodataOffs
  let errPrintAddr := toU64 ((rodataAddr : Int) + pos - 1)
  let printkPos ← findSeq fileData (le64 errPrintAddr) 4 0 DIR_FWD NotFound
  if printkPos = NotFound then throw .printkNotFound
  else
    let printkPos := toU64 ((printkPos : Int) - 3)
    if !(← strncmp0 fileData printkPos [0x48, 0xC7, 0] 0 2) then
      let _ ← rd fileData printkPos
      let _ ← rd fileData (printkPos + 1)
      throw .movPrefixMismatch
    else
      let b ← rd fileData (printkPos + 2)
      if b < 0xC0 ∨ b > 0xC7 then throw .movOperandMismatch
      else
        let testPos ← findSeq fileData [0x85, 0xC0, 0] 2 printkPos DIR_RWD 32
        if testPos = NotFound then throw .testNotFound
        else
          let jzPos := (testPos + 2) % 2 ^ 64
          let j ← rd fileData jzPos
          if j ≠ 0x74 then throw .jzNotFound
          else
            let _ ← rd fileData (jzPos + 1)
            wr fileData jzPos 0xEB

/-! ## Predicates used in the statements -/

/-- A prologue marker at offset `i`: `41` followed by a byte in `54 .. 57`. -/
def isPush (fileData : List Byte) (i : Nat) : Prop :=
  fileData[i]? = some 0x41 ∧
    (fileData[i + 1]? = some 0x54 ∨ fileData[i + 1]? = some 0x55 ∨
     fileData[i + 1]? = some 0x56 ∨ fileData[i + 1]? = some 0x57)

instance (fileData : List Byte) (i : Nat) : Decidable (isPush fileData i) := by
  unfold isPush; infer_instance

/-- The byte pattern accepted by `findORs` at offset `i`: `F0 80` and, seven bytes later, one of
1, 2, 4, 8. -/
def isOR (fileData : List Byte) (i : Nat) : Prop :=
  fileData[i]? = some 0xF0 ∧ fileData[i + 1]? = some 0x80 ∧
    (fileData[i + 7]? = some 0x01 ∨ fileData[i + 7]? = some 0x02 ∨
     fileData[i + 7]? = some 0x04 ∨ fileData[i + 7]? = some 0x08)

instance (fileData : List Byte) (i : Nat) : Decidable (isOR fileData i) := by
  unfold isOR; infer_instance

/-- The offsets written by the patch loop. -/
def patchSites (initTextOffs : Nat) (orPos : List Nat) (ns : List Nat) : List Nat :=
  ns.map (fun n => (initTextOffs + orPos.getD n 0 + 2) % 2 ^ 64)

/-! ## Concrete inputs used below -/

/-- An 8-byte `lock or byte ptr [rip+disp32], imm8` instruction: `F0 80 0D d0 d1 d2 d3 imm`. -/
def lockOr (d0 d1 d2 d3 imm : Byte) : List Byte := [0xF0, 0x80, 0x0D, d0, d1, d2, d3, imm]

/-- Three bytes with no prologue marker and no locked OR. -/
def bufNoMarker : List Byte := [0, 0, 0]

/-- A buffer without the literal "3ramdisk corrupt": a TEST/JZ pair at 1..3, `48 C7 C0` at 4..6
and the bytes `11 11 11 11` at 7..10. -/
def bufNoString : List Byte :=
  [0x00, 0x85, 0xC0, 0x74, 0x48, 0xC7, 0xC0, 0x11, 0x11, 0x11, 0x11]

/-- A buffer with the literal at 17, the encoding `10 00 11 11` of the address `0x11110010` at
13 (after `48 C7 C0` at 10..12 and `85 C0 74` at 7..9), and the two bytes `10 00` at 3. -/
def bufNulAddr : List Byte :=
  [1, 1, 1, 0x10, 0, 0xFF, 0xFF, 0x85, 0xC0, 0x74, 0x48, 0xC7, 0xC0, 0x10, 0, 0x11, 0x11]
    ++ str.take 16

/-- A buffer with the literal at 18, the encoding `85 C0 EB 11` of the address `0x11EBC085` at
14 (after `48 C7 C0` at 11..13), `85 C0 74 11` at 7..10 (after `48 C7 C0` at 4..6) and
`85 C0 74` at 1..3. -/
def bufTwoSites : List Byte :=
  [0, 0x85, 0xC0, 0x74, 0x48, 0xC7, 0xC0, 0x85, 0xC0, 0x74, 0x11, 0x48, 0xC7, 0xC0,
    0x85, 0xC0, 0xEB, 0x11] ++ str.take 16

/-- A buffer with the literal at 11, the encoding `11 11 11 11` of the address `0x11111111` at
7 (after `48 C7 C0` at 4..6) and `85 C0 74` at 1..3. -/
def bufRamdisk : List Byte :=
  [0, 0x85, 0xC0, 0x74, 0x48, 0xC7, 0xC0, 0x11, 0x11, 0x11, 0x11] ++ str.take 16

/-- Four locked ORs at 0, 10, 20 and 30 and a prologue marker `41 54` at 8; the displacements
are 0, 90, 80 and 70, so the derived addresses are 0, 100, 100 and 100. -/
def bufZeroAddr : List Byte :=
  lockOr 0 0 0 0 1 ++ [0x41, 0x54] ++ lockOr 90 0 0 0 2 ++ [0, 0] ++ lockOr 80 0 0 0 4 ++ [0, 0]
    ++ lockOr 70 0 0 0 8

/-- Four back-to-back locked ORs at 0, 8, 16 and 24 (32 bytes). -/
def bufAdjacent : List Byte :=
  lockOr 0 0 0 0 1 ++ lockOr 0 0 0 0 2 ++ lockOr 0 0 0 0 4 ++ lockOr 0 0 0 0 8

/-- A prologue marker at 0 and four locked ORs at 2, 11, 20 and 29 (one filler byte between
them), all with derived address 200. -/
def bufCluster : List Byte :=
  [0x41, 0x54] ++ lockOr 198 0 0 0 1 ++ [0x90] ++ lockOr 189 0 0 0 2 ++ [0x90]
    ++ lockOr 180 0 0 0 4 ++ [0x90] ++ lockOr 171 0 0 0 8

/-- A prologue marker and, two bytes after its start, four locked ORs 9 bytes apart; placed at
offset 1022 the marker is at 1022, the instructions are at 1024, 1033, 1042 and 1051 and their
derived addresses are all 2000. -/
def clusterTail : List Byte :=
  [0x41, 0x54] ++ lockOr 0xD0 0x03 0 0 1 ++ [0x90] ++ lockOr 0xC7 0x03 0 0 2 ++ [0x90]
    ++ lockOr 0xBE 0x03 0 0 4 ++ [0x90] ++ lockOr 0xB5 0x03 0 0 8

/-- The bytes of `clusterTail` after 1022 zero bytes: 1059 bytes in all. -/
def bufBeyond : List Byte := List.replicate 1022 0 ++ clusterTail

/-- A prologue marker at 0, a locked OR at 2 with derived address 300, and four locked ORs at
11, 20, 29 and 38 whose derived addresses are all 200 (46 bytes). -/
def strayHead : List Byte :=
  [0x41, 0x54] ++ lockOr 0x2A 0x01 0 0 1 ++ [0x90] ++ lockOr 189 0 0 0 1 ++ [0x90]
    ++ lockOr 180 0 0 0 2 ++ [0x90] ++ lockOr 171 0 0 0 4 ++ [0x90] ++ lockOr 162 0 0 0 8

/-- The bytes of `strayHead`, then 1100 zero bytes, then a second prologue marker at 1146:
1148 bytes in all. -/
def bufStray : List Byte := strayHead ++ (List.replicate 1100 0 ++ [0x41, 0x54])

/-- The four back-to-back locked ORs of `bufAdjacent` followed by 1000 zero bytes. -/
def bufAdjacentPadded : List Byte := bufAdjacent ++ (List.replicate 1000 0 ++ [])

/-! ## `patchRamdiskCheck` as a run on the mapped buffer -/

/-- A statement acting on the mapped buffer: given the buffer it finds, how it ends and the
buffer it leaves (a failure keeps the buffer reached so far). -/
def Run (α : Type) : Type := List Byte → Except Err α × List Byte

/-- A statement that only reads the buffer. -/
def Run.read {α : Type} (f : List Byte → Except Err α) : Run α := fun fd => (f fd, fd)

/-- The statement `fileData[i] = b`. -/
def Run.write (i : Nat) (b : Byte) : Run Unit := fun fd =>
  match wr fd i b with
  | .ok fd1 => (.ok (), fd1)
  | .error e => (.error e, fd)

/-- The call `errorMsg(..)`: the run stops here. -/
def Run.fail {α : Type} (e : Err) : Run α := fun fd => (.error e, fd)

/-- Sequencing: the second statement runs on the buffer left by the first. -/
def Run.seq {α β : Type} (x : Run α) (f : α → Run β) : Run β := fun fd =>
  match x fd with
  | (.ok a, fd1) => f a fd1
  | (.error e, fd1) => (.error e, fd1)

instance : Monad Run where
  pure a := fun fd => (.ok a, fd)
  bind := Run.seq

/-- Source `void patchRamdiskCheck()` as a run on the mapped buffer: the statements of lines
202-239 in order, each acting on the buffer left by the previous one. -/
def patchRamdiskCheckRun (rodataAddr rodataOffs : Nat) : Run Unit := do
  let pos ← Run.read fun fd => strLoop fd rodataOffs (fd.length - rodataOffs) rodataOffs
  let errPrintAddr := toU64 ((rodataAddr : Int) + pos - 1)
  let printkPos ← Run.read fun fd => findSeq fd (le64 errPrintAddr) 4 0 DIR_FWD NotFound
  if printkPos = NotFound then Run.fail .printkNotFound
  else
    let printkPos := toU64 ((printkPos : Int) - 3)
    if !(← Run.read fun fd => strncmp0 fd printkPos [0x48, 0xC7, 0] 0 2) then
      let _ ← Run.read fun fd => rd fd printkPos
      let _ ← Run.read fun fd => rd fd (printkPos + 1)
      Run.fail .movPrefixMismatch
    else
      let b ← Run.read fun fd => rd fd (printkPos + 2)
      if b < 0xC0 ∨ b > 0xC7 then Run.fail .movOperandMismatch
      else
        let testPos ← Run.read fun fd => findSeq fd [0x85, 0xC0, 0] 2 printkPos DIR_RWD 32
        if testPos = NotFound then Run.fail .testNotFound
        else
          let jzPos := (testPos + 2) % 2 ^ 64
          let j ← Run.read fun fd => rd fd jzPos
          if j ≠ 0x74 then Run.fail .jzNotFound
          else
            let _ ← Run.read fun fd => rd fd (jzPos + 1)
            Run.write jzPos 0xEB

/-- A statement that leaves the buffer as it found it. -/
def Run.ReadOnly {α : Type} (x : Run α) : Prop := ∀ fd, (x fd).2 = fd

/-- A statement that, when it fails, leaves the buffer as it found it. -/
def Run.FailSafe {α : Type} (x : Run α) : Prop :=
  ∀ fd e, (x fd).1 = .error e → (x fd).2 = fd

/-! ## The body of the loop of `patchBootParams` -/

/-- How one execution of the body of the `while` loop of `patchBootParams` ends: by `continue`
(the loop condition is tested again) or by `break`. -/
inductive LoopStep where
  | next (st : State)
  | exit (st : State)
  deriving DecidableEq, Repr

/-- One execution of the body of the `while` loop (lines 114-158). -/
def patchBootParamsBody (st : State) : Except Err LoopStep := do
  let addr ← findPUSH_R12_R15_SEQ st.fileData (toInt32 st.fileSize) st.initTextOffs
  if addr = NotFound then return .exit st
  else
    let (n, orPos) ← findORs st.fileData st.initTextOffs 1024 0 st.orPos
    if n ≠ 4 then
      let next := (addr + 2) % 2 ^ 64
      let next := if n = 0 then (next + 1024) % 2 ^ 64 else next
      return .next { st with orPos := orPos, initTextOffs := next }
    else
      let ec ← ptrCheck st.fileData st.initTextOffs orPos
      if ec ≠ 4 then
        return .next
          { st with orPos := orPos,
                    initTextOffs := (st.initTextOffs + orPos.getD 3 0) % 2 ^ 64 }
      else return .exit { st with orPos := orPos }

/-! ## Signed displacements -/

/-- The signed 32-bit two's-complement integer whose little-endian bytes are `b3 b4 b5 b6`:
the unsigned value of the four bytes, less `2^32` when the top bit of the last byte is set. -/
def signedLE32 (b3 b4 b5 b6 : Byte) : Int :=
  ((b3.val + 256 * b4.val + 65536 * b5.val + 16777216 * b6.val : Nat) : Int)
    - (if 128 ≤ b6.val then 4294967296 else 0)

/-- Byte `k` of the little-endian 32-bit two's-complement encoding of `d`. -/
def encodeLE32 (d : Int) (k : Nat) : Byte := Fin.ofNat ((d % 2 ^ 32).toNat / 256 ^ k)

/-- A locked OR with immediate 1 whose displacement is the encoding of `d`. -/
def lockOrDisp (d : Int) : List Byte :=
  [0xF0, 0x80, 0x0D, encodeLE32 d 0, encodeLE32 d 1, encodeLE32 d 2, encodeLE32 d 3, 1]

/-- Sixteen filler bytes, then locked ORs at 16, 24 and 32 with displacements -6, -14 and
+968 (from 32 to 1000). -/
def bufSigned : List Byte :=
  List.replicate 16 0x90 ++ lockOrDisp (-6) ++ lockOrDisp (-14) ++ lockOrDisp 968

/-! ## Further concrete inputs -/

/-- A buffer with the literal at 22; the encoding `11 11 11 11` of the searched address occurs
first at 3 (preceded by `00 00 00`) and again at 18, where it follows `48 C7 C0` at 15..17 and
`85 C0 74` at 12..14. -/
def bufTwoRefs : List Byte :=
  [0, 0, 0, 0x11, 0x11, 0x11, 0x11, 0, 0, 0, 0, 0, 0x85, 0xC0, 0x74, 0x48, 0xC7, 0xC0,
    0x11, 0x11, 0x11, 0x11] ++ str.take 16

/-- A prologue marker at 0 and four instructions `F0 80 35 ..` (locked XOR) at 2, 11, 20 and 29
with immediates 1, 2, 4, 8 and one common derived address 200. -/
def bufXor : List Byte :=
  [0x41, 0x54] ++ [0xF0, 0x80, 0x35, 198, 0, 0, 0, 1] ++ [0x90]
    ++ [0xF0, 0x80, 0x35, 189, 0, 0, 0, 2] ++ [0x90] ++ [0xF0, 0x80, 0x35, 180, 0, 0, 0, 4]
    ++ [0x90] ++ [0xF0, 0x80, 0x35, 171, 0, 0, 0, 8]

/-- A short buffer with `41` at 1, a marker `41 55` at 2 and a marker `41 54` at 4. -/
def bufMarkers : List Byte := [0x00, 0x41, 0x41, 0x55, 0x41, 0x54]

/-- A prologue marker at 0 and four back-to-back locked ORs at 2, 10, 18 and 26 (immediates 1,
2, 4, 8) whose derived addresses are all 200 (34 bytes). -/
def backHead : List Byte :=
  [0x41, 0x54] ++ lockOr 198 0 0 0 1 ++ lockOr 190 0 0 0 2 ++ lockOr 182 0 0 0 4
    ++ lockOr 174 0 0 0 8

/-- The bytes of `backHead`, then 1100 zero bytes, then a second prologue marker at 1134:
1136 bytes in all. -/
def bufBackToBack : List Byte := backHead ++ (List.replicate 1100 0 ++ [0x41, 0x54])

/-! ## Basic facts about reads, writes and the error monad -/

theorem rd_eq_ok {mem : List Byte} {i : Nat} {b : Byte} :
    rd mem i = .ok b ↔ mem[i]? = some b := by
  unfold rd
  cases h : mem[i]? <;> simp

theorem rd_ok_lt {mem : List Byte} {i : Nat} {b : Byte} (h : rd mem i = .ok b) :
    i < mem.length :=
  (List.getElem?_eq_some_iff.mp (rd_eq_ok.mp h)).1

theorem rd_of_getElem {mem : List Byte} {i : Nat} {b : Byte} (h : mem[i]? = some b) :
    rd mem i = .ok b := rd_eq_ok.mpr h

theorem bind_eq_ok {α β : Type} {x : Except Err α} {f : α → Except Err β} {b : β} :
    (x >>= f) = .ok b ↔ ∃ a, x = .ok a ∧ f a = .ok b := by
  cases x <;> simp [bind, Except.bind]

theorem wr_eq_ok {mem mem1 : List Byte} {i : Nat} {b : Byte} :
    wr mem i b = .ok mem1 ↔ i < mem.length ∧ mem1 = mem.set i b := by
  unfold wr
  split <;> simp_all [eq_comm]

theorem rd_error {mem : List Byte} {i : Nat} {e : Err} (h : rd mem i = .error e) :
    e = .outOfBounds := by
  unfold rd at h
  split at h
  · simp at h
  · simpa using h.symm

theorem rd_congr {a a2 : List Byte} {i : Nat} (h : a[i]? = a2[i]?) : rd a i = rd a2 i := by
  unfold rd; rw [h]

theorem rd_set (fd : List Byte) (j : Nat) (v : Byte) (i : Nat) :
    rd (fd.set j v) i = if i = j then (if i < fd.length then .ok v else .error .outOfBounds)
      else rd fd i := by
  unfold rd
  by_cases h : i = j
  · subst h
    rw [if_pos rfl]
    by_cases hl : i < fd.length
    · simp [List.getElem?_set, hl]
    · simp [List.getElem?_set, hl]
  · rw [if_neg h, List.getElem?_set_ne (Ne.symm h)]

/-! ## The scanners on buffers that hold what they look for -/

theorem toU64_natCast {n : Nat} (h : n < 2 ^ 64) : toU64 (n : Int) = n := by
  unfold toU64
  have : ((n : Int) % 2 ^ 64) = n := by
    apply Int.emod_eq_of_lt <;> omega
  rw [this]; simp

theorem toU64_toInt32 {n : Nat} (h : n < 2 ^ 31) : toU64 (toInt32 n) = n := by
  unfold toInt32
  have h1 : n % 2 ^ 32 = n := Nat.mod_eq_of_lt (by omega)
  rw [h1, if_pos h]
  exact toU64_natCast (by omega)

theorem toU64_lt (z : Int) : toU64 z < 2 ^ 64 := by
  unfold toU64
  have h1 : (0 : Int) ≤ z % 2 ^ 64 := Int.emod_nonneg _ (by norm_num)
  have h2 : z % 2 ^ 64 < 2 ^ 64 := Int.emod_lt_of_pos _ (by norm_num)
  omega

theorem orHit_of_isOR {fd : List Byte} {pos : Nat} (h : isOR fd pos) : orHit fd pos = .ok true := by
  obtain ⟨h0, h1, h7⟩ := h
  unfold orHit
  rw [rd_of_getElem h0]
  simp only [bind, Except.bind, if_true]
  rw [rd_of_getElem h1]
  simp only [if_true]
  rcases h7 with h7 | h7 | h7 | h7 <;> rw [rd_of_getElem h7] <;> rfl

theorem orHit_eq_true {fd : List Byte} {pos : Nat} (h : orHit fd pos = .ok true) : isOR fd pos := by
  unfold orHit at h
  simp only [bind_eq_ok] at h
  obtain ⟨b0, h0, h⟩ := h
  split at h
  · simp only [bind_eq_ok] at h
    obtain ⟨b1, h1, h⟩ := h
    split at h
    · simp only [bind_eq_ok] at h
      obtain ⟨b7, h7, h⟩ := h
      simp only [pure, Except.pure, Except.ok.injEq, decide_eq_true_eq] at h
      subst_vars
      refine ⟨rd_eq_ok.mp h0, rd_eq_ok.mp h1, ?_⟩
      rw [rd_eq_ok.mp h7]
      simpa using h
    · simp [pure, Except.pure] at h
  · simp [pure, Except.pure] at h

theorem orHit_of_not_isOR {fd : List Byte} {pos : Nat} (hb : pos + 7 < fd.length)
    (h : ¬ isOR fd pos) : orHit fd pos = .ok false := by
  have hb0 : pos < fd.length := by omega
  have hb1 : pos + 1 < fd.length := by omega
  have e0 : rd fd pos = .ok fd[pos] := rd_of_getElem (List.getElem?_eq_getElem _)
  have e1 : rd fd (pos + 1) = .ok fd[pos + 1] := rd_of_getElem (List.getElem?_eq_getElem _)
  have e7 : rd fd (pos + 7) = .ok fd[pos + 7] := rd_of_getElem (List.getElem?_eq_getElem _)
  cases hr : orHit fd pos with
  | error e =>
    unfold orHit at hr
    rw [e0] at hr
    simp only [bind, Except.bind] at hr
    split at hr
    · rw [e1] at hr
      simp only at hr
      split at hr
      · rw [e7] at hr; simp [pure, Except.pure] at hr
      · simp [pure, Except.pure] at hr
    · simp [pure, Except.pure] at hr
  | ok b =>
    cases b with
    | false => rfl
    | true => exact absurd (orHit_eq_true hr) h

theorem findPUSHLoop_found (fd : List Byte) (size m : Nat) (hm : m < size) (hp : isPush fd m) :
    ∀ (d i : Nat), i + d = m → (∀ j, i ≤ j → j < m → ¬ isPush fd j) →
      findPUSHLoop fd size (size - i) i = .ok m := by
  have hlen : m + 1 < fd.length := by
    obtain ⟨-, h⟩ := hp
    rcases h with h | h | h | h <;> exact (List.getElem?_eq_some_iff.mp h).1
  intro d
  induction d with
  | zero =>
    intro i hi _
    simp only [Nat.add_zero] at hi
    subst hi
    obtain ⟨k, hk⟩ : ∃ k, size - i = k + 1 := ⟨size - i - 1, by omega⟩
    rw [hk]
    unfold findPUSHLoop
    obtain ⟨h0, h1⟩ := hp
    simp only [if_pos hm, rd_of_getElem h0, bind, Except.bind, if_true]
    rcases h1 with h1 | h1 | h1 | h1 <;> rw [rd_of_getElem h1] <;> rfl
  | succ d ih =>
    intro i hi hno
    obtain ⟨k, hk⟩ : ∃ k, size - i = k + 1 := ⟨size - i - 1, by omega⟩
    have hk' : k = size - (i + 1) := by omega
    have hrec := ih (i + 1) (by omega) (fun j h1 h2 => hno j (by omega) h2)
    rw [← hk'] at hrec
    rw [hk]
    unfold findPUSHLoop
    have hb0 : i < fd.length := by omega
    have hb1 : i + 1 < fd.length := by omega
    have e0 : rd fd i = .ok fd[i] := rd_of_getElem (List.getElem?_eq_getElem _)
    have e1 : rd fd (i + 1) = .ok fd[i + 1] := rd_of_getElem (List.getElem?_eq_getElem _)
    have hni := hno i (le_refl _) (by omega)
    simp only [if_pos (show i < size by omega), e0, bind, Except.bind]
    split
    · rename_i hb
      rw [e1]
      simp only
      split
      · rename_i hr
        exfalso
        apply hni
        refine ⟨by rw [List.getElem?_eq_getElem (by omega), hb], ?_⟩
        rw [List.getElem?_eq_getElem (by omega)]
        generalize fd[i + 1] = b at hr
        revert b
        decide
      · exact hrec
    · exact hrec

theorem findORsLoop_fuel (fd : List Byte) (base size : Nat) :
    ∀ (f1 f2 i c : Nat) (op : List Nat), size - i ≤ f1 → size - i ≤ f2 →
      findORsLoop fd base size f1 i c op = findORsLoop fd base size f2 i c op := by
  intro f1
  induction f1 with
  | zero =>
    intro f2 i c op h1 _
    cases f2 with
    | zero => rfl
    | succ k =>
      unfold findORsLoop
      rw [if_neg (by omega)]
  | succ k ih =>
    intro f2 i c op h1 h2
    cases f2 with
    | zero =>
      unfold findORsLoop
      rw [if_neg (by omega)]
    | succ k2 =>
      rw [findORsLoop, findORsLoop]
      split
      · cases hh : orHit fd (base + i) with
        | error e => rfl
        | ok hit =>
          cases hit with
          | false =>
            simp only [bind, Except.bind, Bool.false_eq_true, if_false]
            by_cases h4 : c = 4
            · simp only [h4, if_true]
            · simp only [h4, if_false]
              exact ih _ _ _ _ (by omega) (by omega)
          | true =>
            simp only [bind, Except.bind, if_true]
            by_cases h4 : c + 1 = 4
            · simp only [h4, if_true]
            · simp only [h4, if_false]
              exact ih _ _ _ _ (by omega) (by omega)
      · rfl

/-- No accepted pattern from `i` to the end of the window: the scan ends with the count and
the array unchanged. -/
theorem findORsLoop_none (fd : List Byte) (base size : Nat) (hb : base + size + 6 < fd.length) :
    ∀ (f i c : Nat) (op : List Nat), c ≠ 4 → (∀ j, i ≤ j → j < size → ¬ isOR fd (base + j)) →
      findORsLoop fd base size f i c op = .ok (c, op) := by
  intro f
  induction f with
  | zero => intro i c op _ _; rfl
  | succ k ih =>
    intro i c op hc hno
    unfold findORsLoop
    split
    · rename_i hi
      rw [orHit_of_not_isOR (by omega) (hno i (le_refl _) hi)]
      simp only [bind, Except.bind, Bool.false_eq_true, if_false, if_neg hc]
      exact ih (i + 1) c op hc (fun j h1 h2 => hno j (by omega) h2)
    · rfl

/-- No accepted pattern from `i` up to `p`, where there is one: the scan records `p` in slot
`c` and, unless this was the fourth hit, goes on from `p + 9`. -/
theorem findORsLoop_next (fd : List Byte) (base size p : Nat) (hp : p < size)
    (hb : base + p + 7 < fd.length) (hor : isOR fd (base + p)) :
    ∀ (d f i c : Nat) (op : List Nat), i + d = p → size - i ≤ f → c ≠ 4 →
      (∀ j, i ≤ j → j < p → ¬ isOR fd (base + j)) →
      findORsLoop fd base size f i c op =
        if c + 1 = 4 then .ok (c + 1, op.set c p)
        else findORsLoop fd base size (size - (p + 9)) (p + 9) (c + 1) (op.set c p) := by
  intro d
  induction d with
  | zero =>
    intro f i c op hi hf hc hno
    simp only [Nat.add_zero] at hi
    subst hi
    obtain ⟨k, rfl⟩ : ∃ k, f = k + 1 := ⟨f - 1, by omega⟩
    rw [findORsLoop, if_pos hp, orHit_of_isOR hor]
    simp only [bind, Except.bind, if_true]
    by_cases h4 : c + 1 = 4
    · simp only [h4, if_true]
    · simp only [h4, if_false]
      exact findORsLoop_fuel fd base size k (size - (i + 9)) (i + 9) (c + 1) (op.set c i)
        (by omega) (by omega)
  | succ d ih =>
    intro f i c op hi hf hc hno
    obtain ⟨k, rfl⟩ : ∃ k, f = k + 1 := ⟨f - 1, by omega⟩
    rw [findORsLoop, if_pos (by omega), orHit_of_not_isOR (by omega) (hno i (le_refl _) (by omega))]
    simp only [bind, Except.bind, Bool.false_eq_true, if_false, if_neg hc]
    have hrec := ih k (i + 1) c op (by omega) (by omega) hc (fun j h1 h2 => hno j (by omega) h2)
    exact hrec

theorem toU64_1024 : toU64 1024 = 1024 := by decide

theorem rd_of_lt {fd : List Byte} {i : Nat} (h : i < fd.length) : rd fd i = .ok fd[i] :=
  rd_of_getElem (List.getElem?_eq_getElem h)

theorem ptrCheckLoop_cons (fd : List Byte) (o : Nat) (orPos : List Nat) (n : Nat) (ns : List Nat)
    (ptr ec a : Nat) (hb : o + orPos.getD n 0 + 7 < fd.length) (h64 : fd.length < 2 ^ 64)
    (hnew : newPtrOffset fd (o + orPos.getD n 0) = .ok a) :
    ptrCheckLoop fd o orPos (n :: ns) (ptr, ec) =
      ptrCheckLoop fd o orPos ns
        (if ptr = 0 then (a, ec + 1) else if ptr = a then (ptr, ec + 1) else (ptr, ec)) := by
  have hmod : (o + orPos.getD n 0) % 2 ^ 64 = o + orPos.getD n 0 := Nat.mod_eq_of_lt (by omega)
  rw [ptrCheckLoop]
  simp only [hmod, hnew, bind, Except.bind]
  rw [rd_of_lt (show o + orPos.getD n 0 < fd.length by omega),
    rd_of_lt (show o + orPos.getD n 0 + 1 < fd.length by omega),
    rd_of_lt (show o + orPos.getD n 0 + 2 < fd.length by omega),
    rd_of_lt (show o + orPos.getD n 0 + 7 < fd.length by omega)]
  simp only
  split
  · rfl
  · split <;> rfl

theorem ptrCheck_equal (fd : List Byte) (o p0 p1 p2 p3 a : Nat) (h64 : fd.length < 2 ^ 64)
    (h : ∀ p ∈ [p0, p1, p2, p3], o + p + 7 < fd.length ∧ newPtrOffset fd (o + p) = .ok a) :
    ptrCheck fd o [p0, p1, p2, p3] = .ok 4 := by
  have h0 := h p0 (by simp)
  have h1 := h p1 (by simp)
  have h2 := h p2 (by simp)
  have h3 := h p3 (by simp)
  unfold ptrCheck
  rw [ptrCheckLoop_cons fd o _ 0 _ 0 0 a (by simpa using h0.1) h64 (by simpa using h0.2)]
  rw [if_pos rfl]
  rw [ptrCheckLoop_cons fd o _ 1 _ a 1 a (by simpa using h1.1) h64 (by simpa using h1.2)]
  by_cases ha : a = 0
  · subst ha
    rw [if_pos rfl]
    rw [ptrCheckLoop_cons fd o _ 2 _ 0 2 0 (by simpa using h2.1) h64 (by simpa using h2.2)]
    rw [if_pos rfl]
    rw [ptrCheckLoop_cons fd o _ 3 _ 0 3 0 (by simpa using h3.1) h64 (by simpa using h3.2)]
    rfl
  · rw [if_neg ha, if_pos rfl]
    rw [ptrCheckLoop_cons fd o _ 2 _ a 2 a (by simpa using h2.1) h64 (by simpa using h2.2)]
    rw [if_neg ha, if_pos rfl]
    rw [ptrCheckLoop_cons fd o _ 3 _ a 3 a (by simpa using h3.1) h64 (by simpa using h3.2)]
    rw [if_neg ha, if_pos rfl]
    rfl

theorem isOR_lt {fd : List Byte} {i : Nat} (h : isOR fd i) : i + 7 < fd.length := by
  obtain ⟨-, -, h⟩ := h
  rcases h with h | h | h | h <;> exact (List.getElem?_eq_some_iff.mp h).1

theorem isPush_lt {fd : List Byte} {i : Nat} (h : isPush fd i) : i + 1 < fd.length := by
  obtain ⟨-, h⟩ := h
  rcases h with h | h | h | h <;> exact (List.getElem?_eq_some_iff.mp h).1

/-- The scanner finds the first marker at or after `start` when there is one. -/
theorem findPUSH_found (fd : List Byte) (start m : Nat) (hlen : fd.length < 2 ^ 31)
    (hm : start ≤ m) (hp : isPush fd m) :
    ∃ r, findPUSH_R12_R15_SEQ fd (toInt32 fd.length) start = .ok r ∧ start ≤ r ∧ r ≤ m ∧
      isPush fd r ∧ ∀ j, start ≤ j → j < r → ¬ isPush fd j := by
  have hex : ∃ r, start ≤ r ∧ isPush fd r := ⟨m, hm, hp⟩
  classical
  let r := Nat.find hex
  have hr : start ≤ r ∧ isPush fd r := Nat.find_spec hex
  have hmin : ∀ j, start ≤ j → j < r → ¬ isPush fd j := fun j h1 h2 h3 =>
    Nat.find_min hex h2 ⟨h1, h3⟩
  have hrm : r ≤ m := Nat.find_min' hex ⟨hm, hp⟩
  refine ⟨r, ?_, hr.1, hrm, hr.2, hmin⟩
  unfold findPUSH_R12_R15_SEQ
  rw [toU64_toInt32 hlen]
  have := isPush_lt hr.2
  exact findPUSHLoop_found fd fd.length r (by omega) hr.2 (r - start) start (by omega) hmin

theorem findORs_cluster (fd : List Byte) (o p0 p1 p2 p3 : Nat) (op : List Nat)
    (h01 : p0 + 9 ≤ p1) (h12 : p1 + 9 ≤ p2) (h23 : p2 + 9 ≤ p3) (h3 : p3 < 1024)
    (hor : ∀ p ∈ [p0, p1, p2, p3], isOR fd (o + p))
    (hfirst : ∀ j, j < p3 → isOR fd (o + j) →
      j = p0 ∨ j = p1 ∨ j = p2 ∨ (p0 < j ∧ j ≤ p0 + 8) ∨ (p1 < j ∧ j ≤ p1 + 8) ∨
        (p2 < j ∧ j ≤ p2 + 8)) :
    findORs fd o 1024 0 op = .ok (4, (((op.set 0 p0).set 1 p1).set 2 p2).set 3 p3) := by
  have h0 := hor p0 (by simp)
  have h1 := hor p1 (by simp)
  have h2 := hor p2 (by simp)
  have h3' := hor p3 (by simp)
  unfold findORs
  rw [toU64_1024]
  rw [findORsLoop_next fd o 1024 p0 (by omega) (isOR_lt h0) h0 p0 _ 0 0 op (by omega) (by omega)
    (by omega) (fun j hj1 hj2 hj3 => by rcases hfirst j (by omega) hj3 with h | h | h | h | h | h <;> omega)]
  rw [if_neg (by omega)]
  rw [findORsLoop_next fd o 1024 p1 (by omega) (isOR_lt h1) h1 (p1 - (p0 + 9)) _ (p0 + 9) 1 _
    (by omega) (by omega) (by omega)
    (fun j hj1 hj2 hj3 => by rcases hfirst j (by omega) hj3 with h | h | h | h | h | h <;> omega)]
  rw [if_neg (by omega)]
  rw [findORsLoop_next fd o 1024 p2 (by omega) (isOR_lt h2) h2 (p2 - (p1 + 9)) _ (p1 + 9) 2 _
    (by omega) (by omega) (by omega)
    (fun j hj1 hj2 hj3 => by rcases hfirst j (by omega) hj3 with h | h | h | h | h | h <;> omega)]
  rw [if_neg (by omega)]
  rw [findORsLoop_next fd o 1024 p3 (by omega) (isOR_lt h3') h3' (p3 - (p2 + 9)) _ (p2 + 9) 3 _
    (by omega) (by omega) (by omega)
    (fun j hj1 hj2 hj3 => by rcases hfirst j (by omega) hj3 with h | h | h | h | h | h <;> omega)]
  rw [if_pos (by omega)]

/-! ## What the prologue scan returns -/

/-- What the prologue scan returns when it returns: NotFound, or the first marker at or after
its start. -/
theorem findPUSHLoop_sound (fd : List Byte) (size : Nat) : ∀ (left i r : Nat),
    findPUSHLoop fd size left i = .ok r → r ≠ NotFound →
      i ≤ r ∧ r < size ∧ isPush fd r ∧ ∀ j, i ≤ j → j < r → ¬ isPush fd j := by
  intro left
  induction left with
  | zero => intro i r h hr; simp [findPUSHLoop] at h; exact absurd h.symm hr
  | succ left ih =>
    intro i r h hr
    rw [findPUSHLoop] at h
    split at h
    · rename_i hi
      simp only [bind_eq_ok] at h
      obtain ⟨b, hb, h⟩ := h
      have hrec : ¬ isPush fd i → findPUSHLoop fd size left (i + 1) = .ok r →
          i ≤ r ∧ r < size ∧ isPush fd r ∧ ∀ j, i ≤ j → j < r → ¬ isPush fd j := by
        intro hni hrest
        obtain ⟨h1, h2, h3, h4⟩ := ih _ _ hrest hr
        refine ⟨by omega, h2, h3, ?_⟩
        intro j hj1 hj2
        by_cases hji : j = i
        · rw [hji]; exact hni
        · exact h4 j (by omega) hj2
      split at h
      · rename_i hb41
        simp only [bind_eq_ok] at h
        obtain ⟨b1, hb1, h⟩ := h
        split at h
        · rename_i hrange
          simp only [pure, Except.pure, Except.ok.injEq] at h
          subst h
          refine ⟨le_refl _, hi, ⟨by rw [rd_eq_ok.mp hb, hb41], ?_⟩, fun j h1 h2 => by omega⟩
          rw [rd_eq_ok.mp hb1]
          have key : ∀ x : Byte, 0x54 ≤ x ∧ x ≤ 0x57 →
              (some x = some 0x54 ∨ some x = some 0x55 ∨ some x = some 0x56 ∨
                some x = some 0x57) := by decide
          exact key b1 hrange
        · rename_i hrange
          refine hrec ?_ h
          intro hp
          apply hrange
          have h1 := hp.2
          rw [rd_eq_ok.mp hb1] at h1
          have key : ∀ x : Byte, (some x = some 0x54 ∨ some x = some 0x55 ∨ some x = some 0x56 ∨
              some x = some 0x57) → 0x54 ≤ x ∧ x ≤ 0x57 := by decide
          exact key b1 h1
      · rename_i hb41
        refine hrec ?_ h
        intro hp
        have h0 := hp.1
        rw [rd_eq_ok.mp hb] at h0
        exact hb41 (by simpa using h0)
    · simp only [Except.ok.injEq] at h
      exact absurd h.symm hr

/-- The prologue scan of a buffer without any byte 0x41 returns NotFound. -/
theorem findPUSHLoop_no_marker_byte (fd : List Byte) (size : Nat) (hs : size ≤ fd.length)
    (hno : ∀ b ∈ fd, b ≠ 0x41) : ∀ (left i : Nat),
      findPUSHLoop fd size left i = .ok NotFound := by
  intro left
  induction left with
  | zero => intro i; rfl
  | succ left ih =>
    intro i
    rw [findPUSHLoop]
    split
    · rename_i hi
      have hlt : i < fd.length := by omega
      rw [rd_of_lt hlt]
      simp only [bind, Except.bind]
      rw [if_neg (hno _ (List.getElem_mem hlt))]
      exact ih _
    · rfl

theorem findPUSH_sound (fd : List Byte) (start r : Nat) (hlen : fd.length < 2 ^ 31)
    (h : findPUSH_R12_R15_SEQ fd (toInt32 fd.length) start = .ok r) (hr : r ≠ NotFound) :
    start ≤ r ∧ r < fd.length ∧ isPush fd r ∧ ∀ j, start ≤ j → j < r → ¬ isPush fd j := by
  unfold findPUSH_R12_R15_SEQ at h
  rw [toU64_toInt32 hlen] at h
  exact findPUSHLoop_sound fd _ _ _ _ h hr

theorem findPUSH_no_marker_byte (fd : List Byte) (start : Nat) (hlen : fd.length < 2 ^ 31)
    (hno : ∀ b ∈ fd, b ≠ 0x41) :
    findPUSH_R12_R15_SEQ fd (toInt32 fd.length) start = .ok NotFound := by
  unfold findPUSH_R12_R15_SEQ
  rw [toU64_toInt32 hlen]
  exact findPUSHLoop_no_marker_byte fd _ (le_refl _) hno _ _

/-! ## `patchBootParams` on a cluster in the first window, and on one beyond it -/

theorem wr_of_lt {mem : List Byte} {i : Nat} (b : Byte) (h : i < mem.length) :
    wr mem i b = .ok (mem.set i b) := by
  unfold wr; rw [if_pos h]

theorem patchLoop_cons (o : Nat) (orPos : List Nat) (n : Nat) (ns : List Nat) (fd : List Byte)
    (h : o + orPos.getD n 0 + 2 < fd.length) (h64 : fd.length < 2 ^ 64) :
    patchLoop o orPos (n :: ns) fd = patchLoop o orPos ns (fd.set (o + orPos.getD n 0 + 2) 0x25) := by
  rw [patchLoop, Nat.mod_eq_of_lt (by omega), wr_of_lt _ h]
  rfl

theorem patchBootParams_first_window (fd : List Byte) (o m p0 p1 p2 p3 a : Nat)
    (hlen : fd.length < 2 ^ 31) (hm : o ≤ m) (hpush : isPush fd m)
    (h01 : p0 + 9 ≤ p1) (h12 : p1 + 9 ≤ p2) (h23 : p2 + 9 ≤ p3) (h3 : p3 < 1024)
    (hor : ∀ p ∈ [p0, p1, p2, p3], isOR fd (o + p) ∧ newPtrOffset fd (o + p) = .ok a)
    (hfirst : ∀ j, j < p3 → isOR fd (o + j) →
      j = p0 ∨ j = p1 ∨ j = p2 ∨ (p0 < j ∧ j ≤ p0 + 8) ∨ (p1 < j ∧ j ≤ p1 + 8) ∨
        (p2 < j ∧ j ≤ p2 + 8)) :
    patchBootParams (initState fd o) =
      .ok (.patched,
        { fileData := (((fd.set (o + p0 + 2) 0x25).set (o + p1 + 2) 0x25).set (o + p2 + 2) 0x25).set
            (o + p3 + 2) 0x25,
          orPos := [p0, p1, p2, p3], initTextOffs := o }) := by
  obtain ⟨r, hr, hr1, hr2, hr3, -⟩ := findPUSH_found fd o m hlen hm hpush
  have hrlt := isPush_lt hr3
  have hrnf : r ≠ NotFound := by unfold NotFound; omega
  have hscan := findORs_cluster fd o p0 p1 p2 p3 [0, 0, 0, 0] h01 h12 h23 h3
    (fun p hp => (hor p hp).1) hfirst
  have hset : (((([0, 0, 0, 0] : List Nat).set 0 p0).set 1 p1).set 2 p2).set 3 p3
      = [p0, p1, p2, p3] := rfl
  rw [hset] at hscan
  have hchk := ptrCheck_equal fd o p0 p1 p2 p3 a (by omega)
    (fun p hp => ⟨isOR_lt (hor p hp).1, (hor p hp).2⟩)
  have b0 := isOR_lt (hor p0 (by simp)).1
  have b1 := isOR_lt (hor p1 (by simp)).1
  have b2 := isOR_lt (hor p2 (by simp)).1
  have b3 := isOR_lt (hor p3 (by simp)).1
  have hloop : patchBootParamsLoop (fd.length + 1) (initState fd o) =
      .ok { fileData := fd, orPos := [p0, p1, p2, p3], initTextOffs := o } := by
    rw [patchBootParamsLoop]
    simp only [initState, State.fileSize]
    rw [if_pos (by omega), hr]
    simp only [bind, Except.bind, if_neg hrnf, hscan]
    simp only [ne_eq, not_true_eq_false, if_false, hchk]
    rfl
  unfold patchBootParams
  simp only [initState, State.fileSize] at hloop ⊢
  rw [hloop]
  simp only [bind, Except.bind]
  rw [if_neg (by omega)]
  rw [patchLoop_cons _ _ _ _ _ (by simpa using (by omega : o + p0 + 2 < fd.length))
      (by simp; omega),
    patchLoop_cons _ _ _ _ _ (by simpa using (by omega : o + p1 + 2 < fd.length))
      (by simp; omega),
    patchLoop_cons _ _ _ _ _ (by simpa using (by omega : o + p2 + 2 < fd.length))
      (by simp; omega),
    patchLoop_cons _ _ _ _ _ (by simpa using (by omega : o + p3 + 2 < fd.length))
      (by simp; omega)]
  rfl


theorem getElem_set4 (fd : List Byte) (s0 s1 s2 s3 : Nat) (v : Byte) (i : Nat)
    (h0 : s0 < fd.length) (h1 : s1 < fd.length) (h2 : s2 < fd.length) (h3 : s3 < fd.length) :
    ((((fd.set s0 v).set s1 v).set s2 v).set s3 v)[i]? =
      if i = s0 ∨ i = s1 ∨ i = s2 ∨ i = s3 then some v else fd[i]? := by
  simp only [List.getElem?_set, List.length_set]
  by_cases e3 : s3 = i
  · subst e3; simp [h3]
  · by_cases e2 : s2 = i
    · subst e2; simp [h2, e3]
    · by_cases e1 : s1 = i
      · subst e1; simp [h1, e2, e3]
      · by_cases e0 : s0 = i
        · subst e0; simp [h0, e1, e2, e3]
        · simp [e0, e1, e2, e3, Ne.symm e0, Ne.symm e1, Ne.symm e2, Ne.symm e3]

/-- The cluster taken by the scan as it is: for a buffer shorter than `2^31` bytes and an
init-text offset `o`, if a prologue marker lies at or after `o`, and four locked ORs (`F0 80 0D`,
displacement, immediate in 1, 2, 4, 8) with one common derived address start at
`o + p0 .. o + p3` inside the 1024-byte window that begins at `o` itself, each at least 9 bytes
after the start of the previous one, and they are the first four hits of the scan of that
window (every earlier offset of the window with the accepted pattern lies within the 8 bytes
passed over after one of the first three), then `patchBootParams` records exactly these four
offsets and the buffer it leaves differs from the input in exactly the 4 bytes at offset + 2
of the four instructions, each changed from 0x0D to 0x25. -/
theorem patchBootParams_patches_first_window_cluster (fd : List Byte) (o m p0 p1 p2 p3 a : Nat)
    (hlen : fd.length < 2 ^ 31) (hm : o ≤ m) (hpush : isPush fd m)
    (h01 : p0 + 9 ≤ p1) (h12 : p1 + 9 ≤ p2) (h23 : p2 + 9 ≤ p3) (h3 : p3 < 1024)
    (hor : ∀ p ∈ [p0, p1, p2, p3],
      isOR fd (o + p) ∧ fd[o + p + 2]? = some 0x0D ∧ newPtrOffset fd (o + p) = .ok a)
    (hfirst : ∀ j, j < p3 → isOR fd (o + j) →
      j = p0 ∨ j = p1 ∨ j = p2 ∨ (p0 < j ∧ j ≤ p0 + 8) ∨ (p1 < j ∧ j ≤ p1 + 8) ∨
        (p2 < j ∧ j ≤ p2 + 8)) :
    ∃ fd1 : List Byte,
      patchBootParams (initState fd o) =
        .ok (.patched, { fileData := fd1, orPos := [p0, p1, p2, p3], initTextOffs := o }) ∧
      fd1.length = fd.length ∧
      (∀ i : Nat, fd1[i]? ≠ fd[i]? ↔
        (i = o + p0 + 2 ∨ i = o + p1 + 2 ∨ i = o + p2 + 2 ∨ i = o + p3 + 2)) ∧
      ((Finset.range fd.length).filter (fun i : Nat => fd1[i]? ≠ fd[i]?)).card = 4 ∧
      (∀ p ∈ [p0, p1, p2, p3], fd[o + p + 2]? = some 0x0D ∧ fd1[o + p + 2]? = some 0x25) := by
  have hrun := patchBootParams_first_window fd o m p0 p1 p2 p3 a hlen hm hpush h01 h12 h23 h3
    (fun p hp => ⟨(hor p hp).1, (hor p hp).2.2⟩) hfirst
  have b0 := isOR_lt (hor p0 (by simp)).1
  have b1 := isOR_lt (hor p1 (by simp)).1
  have b2 := isOR_lt (hor p2 (by simp)).1
  have b3 := isOR_lt (hor p3 (by simp)).1
  have d0 := (hor p0 (by simp)).2.1
  have d1 := (hor p1 (by simp)).2.1
  have d2 := (hor p2 (by simp)).2.1
  have d3 := (hor p3 (by simp)).2.1
  have hget := fun i => getElem_set4 fd (o + p0 + 2) (o + p1 + 2) (o + p2 + 2) (o + p3 + 2) 0x25 i
    (by omega) (by omega) (by omega) (by omega)
  have hdiff : ∀ i : Nat,
      ((((fd.set (o + p0 + 2) 0x25).set (o + p1 + 2) 0x25).set (o + p2 + 2) 0x25).set
            (o + p3 + 2) 0x25)[i]? ≠ fd[i]? ↔
        (i = o + p0 + 2 ∨ i = o + p1 + 2 ∨ i = o + p2 + 2 ∨ i = o + p3 + 2) := by
    intro i
    rw [hget i]
    constructor
    · intro h
      by_contra hc
      rw [if_neg hc] at h
      exact h rfl
    · intro h
      rw [if_pos h]
      rcases h with h | h | h | h <;> subst h
      · rw [d0]; decide
      · rw [d1]; decide
      · rw [d2]; decide
      · rw [d3]; decide
  refine ⟨_, hrun, by simp, hdiff, ?_, ?_⟩
  · have hfilter : (Finset.range fd.length).filter (fun i : Nat =>
        ((((fd.set (o + p0 + 2) 0x25).set (o + p1 + 2) 0x25).set (o + p2 + 2) 0x25).set
            (o + p3 + 2) 0x25)[i]? ≠ fd[i]?) =
        {o + p0 + 2, o + p1 + 2, o + p2 + 2, o + p3 + 2} := by
      ext i
      simp only [Finset.mem_filter, Finset.mem_range, hdiff i, Finset.mem_insert,
        Finset.mem_singleton]
      constructor
      · exact fun h => h.2
      · intro h
        refine ⟨?_, h⟩
        rcases h with h | h | h | h <;> omega
    rw [hfilter]
    rw [Finset.card_insert_of_not_mem, Finset.card_insert_of_not_mem,
      Finset.card_insert_of_not_mem, Finset.card_singleton]
    · simp only [Finset.mem_singleton]; omega
    · simp only [Finset.mem_insert, Finset.mem_singleton]; omega
    · simp only [Finset.mem_insert, Finset.mem_singleton]; omega
  · intro p hp
    refine ⟨(hor p hp).2.1, ?_⟩
    rw [hget (o + p + 2), if_pos]
    simp only [List.mem_cons, List.mem_singleton, List.not_mem_nil, or_false] at hp
    rcases hp with h | h | h | h <;> subst h <;> simp


/-- The accepted cluster of `bufCluster` with init-text offset 0. -/
theorem patchBootParams_patches_first_window_cluster_witness :
    isPush bufCluster 0 ∧
    ∃ fd1 : List Byte,
      patchBootParams (initState bufCluster 0) =
        .ok (.patched, { fileData := fd1, orPos := [2, 11, 20, 29], initTextOffs := 0 }) ∧
      fd1.length = bufCluster.length ∧
      (∀ i : Nat, fd1[i]? ≠ bufCluster[i]? ↔
        (i = 0 + 2 + 2 ∨ i = 0 + 11 + 2 ∨ i = 0 + 20 + 2 ∨ i = 0 + 29 + 2)) ∧
      ((Finset.range bufCluster.length).filter (fun i : Nat => fd1[i]? ≠ bufCluster[i]?)).card = 4 ∧
      (∀ p ∈ [2, 11, 20, 29], bufCluster[0 + p + 2]? = some 0x0D ∧ fd1[0 + p + 2]? = some 0x25) :=
  ⟨by decide, patchBootParams_patches_first_window_cluster bufCluster 0 0 2 11 20 29 200
    (by decide) (by decide) (by decide) (by decide) (by decide) (by decide) (by decide)
    (by decide) (by decide)⟩

theorem patchBootParamsLoop_exit (b : Nat) (st : State) (h : ¬ st.initTextOffs < st.fileSize) :
    patchBootParamsLoop (b + 1) st = .ok st := by
  rw [patchBootParamsLoop, if_neg h]
  rfl

theorem patchBootParamsLoop_skip (b addr : Nat) (st : State) (op : List Nat)
    (h : st.initTextOffs < st.fileSize) (hne : addr ≠ NotFound)
    (hpush : findPUSH_R12_R15_SEQ st.fileData (toInt32 st.fileSize) st.initTextOffs = .ok addr)
    (hscan : findORs st.fileData st.initTextOffs 1024 0 st.orPos = .ok (0, op)) :
    patchBootParamsLoop (b + 1) st =
      patchBootParamsLoop b
        { st with orPos := op, initTextOffs := ((addr + 2) % 2 ^ 64 + 1024) % 2 ^ 64 } := by
  rw [patchBootParamsLoop, if_pos h, hpush]
  simp only [bind, Except.bind, if_neg hne, hscan]
  rw [if_pos (by decide), if_pos trivial]

/-- When the window at the cursor holds no accepted pattern and the first prologue marker at
or after the cursor is at `m`, with `m + 1026` not below the file size, the run ends in the
failed outcome after one iteration and nothing is written. -/
theorem patchBootParams_skip_to_end (fd : List Byte) (o m : Nat) (hlen : fd.length < 2 ^ 31)
    (hw : o + 1024 + 6 < fd.length) (hom : o ≤ m) (hpush : isPush fd m)
    (hno : ∀ j, o ≤ j → j < m → ¬ isPush fd j)
    (hnor : ∀ j, j < 1024 → ¬ isOR fd (o + j)) (hend : fd.length ≤ m + 1026) :
    patchBootParams (initState fd o) =
      .ok (.failed, { fileData := fd, orPos := [0, 0, 0, 0], initTextOffs := m + 1026 }) := by
  obtain ⟨r, hr, hr1, hr2, hr3, -⟩ := findPUSH_found fd o m hlen hom hpush
  have hrm : r = m := by
    by_contra hne
    exact hno r hr1 (by omega) hr3
  subst hrm
  have hrlt := isPush_lt hr3
  have hscan : findORs fd o 1024 0 [0, 0, 0, 0] = .ok (0, [0, 0, 0, 0]) := by
    unfold findORs
    rw [toU64_1024]
    exact findORsLoop_none fd o 1024 hw _ 0 0 _ (by decide) (fun j _ h2 => hnor j h2)
  have hmod : ((r + 2) % 2 ^ 64 + 1024) % 2 ^ 64 = r + 1026 := by
    rw [Nat.mod_eq_of_lt (by omega), Nat.mod_eq_of_lt (by omega)]
  have hloop : patchBootParamsLoop (fd.length + 1) (initState fd o) =
      .ok { fileData := fd, orPos := [0, 0, 0, 0], initTextOffs := r + 1026 } := by
    rw [patchBootParamsLoop_skip fd.length r (initState fd o) [0, 0, 0, 0]
      (by simp only [initState, State.fileSize]; omega) (by unfold NotFound; omega) hr hscan, hmod]
    obtain ⟨k, hk⟩ : ∃ k, fd.length = k + 1 := ⟨fd.length - 1, by omega⟩
    rw [hk, patchBootParamsLoop_exit]
    · rfl
    · simp only [initState, State.fileSize]; omega
  unfold patchBootParams
  simp only [initState, State.fileSize] at hloop ⊢
  rw [hloop]
  simp only [bind, Except.bind]
  rw [if_pos (by simpa using hend)]
  rfl

theorem getElem_pad_low (n : Nat) (tail : List Byte) (j : Nat) (h : j < n) :
    (List.replicate n (0 : Byte) ++ tail)[j]? = some 0 := by
  rw [List.getElem?_append_left (by simpa using h)]
  simp [List.getElem?_replicate, h]

theorem getElem_pad_high (n : Nat) (tail : List Byte) (j : Nat) :
    (List.replicate n (0 : Byte) ++ tail)[n + j]? = tail[j]? := by
  rw [List.getElem?_append_right (by simp)]
  simp

theorem bufBeyond_low (j : Nat) (h : j < 1022) : bufBeyond[j]? = some 0 :=
  getElem_pad_low 1022 clusterTail j h

theorem bufBeyond_high (j : Nat) : bufBeyond[1022 + j]? = clusterTail[j]? :=
  getElem_pad_high 1022 clusterTail j

theorem bufBeyond_length : bufBeyond.length = 1059 := by
  unfold bufBeyond
  rw [List.length_append, List.length_replicate]
  rfl

theorem bufBeyond_not_isPush (j : Nat) (h : j < 1022) : ¬ isPush bufBeyond j := by
  intro hp
  have := hp.1
  rw [bufBeyond_low j h] at this
  revert this; decide

theorem bufBeyond_not_isOR (j : Nat) (h : j < 1024) : ¬ isOR bufBeyond j := by
  intro hp
  have h0 := hp.1
  by_cases hj : j < 1022
  · rw [bufBeyond_low j hj] at h0
    revert h0; decide
  · obtain ⟨k, rfl⟩ : ∃ k, j = 1022 + k := ⟨j - 1022, by omega⟩
    rw [bufBeyond_high] at h0
    have hk : k = 0 ∨ k = 1 := by omega
    rcases hk with rfl | rfl <;> revert h0 <;> decide

theorem bufBeyond_isPush : isPush bufBeyond 1022 := by
  unfold isPush
  rw [bufBeyond_high 0, bufBeyond_high 1]
  decide

/-- The cluster scan looks at the window that starts at the cursor, not at the marker found: in
`bufBeyond` with init-text offset 0 there is a prologue marker at 1022, followed at 1024, 1033,
1042 and 1051 by four locked ORs (`F0 80 0D`, immediates 1, 2, 4, 8) whose derived addresses
are all 2000. The scan of the window 0..1023 finds nothing, the cursor is moved to
1022 + 2 + 1024 = 2048, past the instructions and past the end, and the run ends in the failed
outcome with no byte changed. -/
theorem patchBootParams_misses_cluster_beyond_window :
    isPush bufBeyond 1022 ∧
    (∀ p ∈ [2, 11, 20, 29],
      isOR bufBeyond (1022 + p) ∧ bufBeyond[1022 + p + 2]? = some 0x0D ∧
        newPtrOffset bufBeyond (1022 + p) = .ok 2000) ∧
    patchBootParams (initState bufBeyond 0) =
      .ok (.failed, { fileData := bufBeyond, orPos := [0, 0, 0, 0], initTextOffs := 2048 }) := by
  refine ⟨bufBeyond_isPush, ?_, ?_⟩
  · intro p hp
    unfold isOR newPtrOffset disp32 rd
    simp only [Nat.add_assoc, bufBeyond_high]
    revert p
    decide
  · have hlen := bufBeyond_length
    exact patchBootParams_skip_to_end bufBeyond 0 1022 (by rw [hlen]; decide) (by rw [hlen]; decide)
      (by decide) bufBeyond_isPush (fun j _ h => bufBeyond_not_isPush j h)
      (fun j h => by simpa using bufBeyond_not_isOR j h) (by rw [hlen]; decide)

theorem patchBootParamsLoop_mismatch (b addr ec : Nat) (st : State) (op : List Nat)
    (h : st.initTextOffs < st.fileSize) (hne : addr ≠ NotFound)
    (hpush : findPUSH_R12_R15_SEQ st.fileData (toInt32 st.fileSize) st.initTextOffs = .ok addr)
    (hscan : findORs st.fileData st.initTextOffs 1024 0 st.orPos = .ok (4, op))
    (hchk : ptrCheck st.fileData st.initTextOffs op = .ok ec) (hec : ec ≠ 4) :
    patchBootParamsLoop (b + 1) st =
      patchBootParamsLoop b
        { st with orPos := op, initTextOffs := (st.initTextOffs + op.getD 3 0) % 2 ^ 64 } := by
  rw [patchBootParamsLoop, if_pos h, hpush]
  simp only [bind, Except.bind, if_neg hne, hscan]
  rw [if_neg (by decide), hchk]
  simp only
  rw [if_pos hec]

theorem patchBootParamsLoop_few (b addr n : Nat) (st : State) (op : List Nat)
    (h : st.initTextOffs < st.fileSize) (hne : addr ≠ NotFound)
    (hpush : findPUSH_R12_R15_SEQ st.fileData (toInt32 st.fileSize) st.initTextOffs = .ok addr)
    (hscan : findORs st.fileData st.initTextOffs 1024 0 st.orPos = .ok (n, op))
    (hn4 : n ≠ 4) (hn0 : n ≠ 0) :
    patchBootParamsLoop (b + 1) st =
      patchBootParamsLoop b { st with orPos := op, initTextOffs := (addr + 2) % 2 ^ 64 } := by
  rw [patchBootParamsLoop, if_pos h, hpush]
  simp only [bind, Except.bind, if_neg hne, hscan]
  rw [if_pos hn4, if_neg hn0]

/-- The scanner returns the first marker at or after `start`. -/
theorem findPUSH_first (fd : List Byte) (start m : Nat) (hlen : fd.length < 2 ^ 31)
    (hm : start ≤ m) (hp : isPush fd m) (hno : ∀ j, start ≤ j → j < m → ¬ isPush fd j) :
    findPUSH_R12_R15_SEQ fd (toInt32 fd.length) start = .ok m := by
  obtain ⟨r, hr, hr1, hr2, hr3, -⟩ := findPUSH_found fd start m hlen hm hp
  have hrm : r = m := by
    by_contra hne
    exact hno r hr1 (by omega) hr3
  rw [← hrm]; exact hr

theorem bufStray_low (j : Nat) (h : j < 46) : bufStray[j]? = strayHead[j]? := by
  unfold bufStray
  rw [List.getElem?_append_left (by simpa [strayHead, lockOr] using h)]

theorem bufStray_mid (j : Nat) (h : j < 1100) : bufStray[46 + j]? = some 0 := by
  unfold bufStray
  rw [List.getElem?_append_right (by simp [strayHead, lockOr])]
  have : 46 + j - strayHead.length = j := by simp [strayHead, lockOr]
  rw [this]
  exact getElem_pad_low 1100 _ j h

theorem bufStray_high (j : Nat) : bufStray[1146 + j]? = ([0x41, 0x54] : List Byte)[j]? := by
  unfold bufStray
  rw [List.getElem?_append_right (by simp [strayHead, lockOr]; omega)]
  have : 1146 + j - strayHead.length = 1100 + j := by simp [strayHead, lockOr]; omega
  rw [this]
  exact getElem_pad_high 1100 _ j

theorem bufStray_length : bufStray.length = 1148 := by
  unfold bufStray
  rw [List.length_append, List.length_append, List.length_replicate]
  rfl


theorem isOR_congr {fd fd2 : List Byte} {i : Nat} (h0 : fd[i]? = fd2[i]?)
    (h1 : fd[i + 1]? = fd2[i + 1]?) (h7 : fd[i + 7]? = fd2[i + 7]?) :
    isOR fd i ↔ isOR fd2 i := by
  unfold isOR
  rw [h0, h1, h7]

theorem newPtrOffset_congr {fd fd2 : List Byte} {pos : Nat} (h3 : fd[pos + 3]? = fd2[pos + 3]?)
    (h4 : fd[pos + 4]? = fd2[pos + 4]?) (h5 : fd[pos + 5]? = fd2[pos + 5]?)
    (h6 : fd[pos + 6]? = fd2[pos + 6]?) : newPtrOffset fd pos = newPtrOffset fd2 pos := by
  unfold newPtrOffset disp32
  rw [rd_congr h3, rd_congr h4, rd_congr h5, rd_congr h6]

theorem bufStray_isOR (j : Nat) (h : j < 39) : isOR bufStray j ↔ isOR strayHead j :=
  isOR_congr (bufStray_low j (by omega)) (bufStray_low _ (by omega)) (bufStray_low _ (by omega))

theorem bufStray_newPtrOffset (j : Nat) (h : j < 39) :
    newPtrOffset bufStray j = newPtrOffset strayHead j :=
  newPtrOffset_congr (bufStray_low _ (by omega)) (bufStray_low _ (by omega))
    (bufStray_low _ (by omega)) (bufStray_low _ (by omega))

theorem bufStray_not_isOR (j : Nat) (h1 : 46 ≤ j) (h2 : j < 1146) : ¬ isOR bufStray j := by
  intro hp
  have h0 := hp.1
  obtain ⟨k, rfl⟩ : ∃ k, j = 46 + k := ⟨j - 46, by omega⟩
  rw [bufStray_mid k (by omega)] at h0
  revert h0; decide

theorem bufStray_not_isPush (j : Nat) (h1 : 29 ≤ j) (h2 : j < 1146) : ¬ isPush bufStray j := by
  intro hp
  have h0 := hp.1
  by_cases hj : j < 46
  · rw [bufStray_low j hj] at h0
    have : ∀ i, 29 ≤ i → i < 46 → strayHead[i]? ≠ some 0x41 := by decide
    exact this j h1 hj h0
  · obtain ⟨k, rfl⟩ : ∃ k, j = 46 + k := ⟨j - 46, by omega⟩
    rw [bufStray_mid k (by omega)] at h0
    revert h0; decide

/-- A cluster after a stray hit: in `bufStray` with init-text offset 0 there is a prologue
marker at 0, followed within the next 1024 bytes by four locked ORs at 11, 20, 29 and 38
(`F0 80 0D`, immediates 1, 2, 4, 8) whose derived addresses are all 200. A fifth locked OR at 2
has the derived address 300. The scan takes the first four hits 2, 11, 20, 29, the pointer
check counts 1, and the cursor is moved to the fourth hit (29); from there only two hits are
left, the cursor is moved past the marker at 1146 to the end of the buffer, and the run ends in
the failed outcome with no byte changed. -/
theorem patchBootParams_misses_cluster_after_stray_hit :
    isPush bufStray 0 ∧
    (∀ p ∈ [11, 20, 29, 38],
      isOR bufStray p ∧ bufStray[p + 2]? = some 0x0D ∧ newPtrOffset bufStray p = .ok 200) ∧
    patchBootParams (initState bufStray 0) =
      .ok (.failed, { fileData := bufStray, orPos := [0, 9, 20, 29], initTextOffs := 1148 }) := by
  have hlen := bufStray_length
  have hpush0 : isPush bufStray 0 := by
    unfold isPush
    rw [bufStray_low 0 (by omega), bufStray_low (0 + 1) (by omega)]
    decide
  have hpush2 : isPush bufStray 1146 := by
    unfold isPush
    rw [bufStray_high 0, bufStray_high 1]
    decide
  refine ⟨hpush0, ?_, ?_⟩
  · intro p hp
    have hp39 : p < 39 := by
      simp only [List.mem_cons, List.mem_singleton, List.not_mem_nil, or_false] at hp
      omega
    rw [bufStray_isOR p hp39, bufStray_low (p + 2) (by omega), bufStray_newPtrOffset p hp39]
    revert p
    decide
  · -- first iteration: cursor 0, hits 2, 11, 20, 29, addresses 300, 200, 200, 200
    have hf1 : findPUSH_R12_R15_SEQ bufStray (toInt32 bufStray.length) 0 = .ok 0 :=
      findPUSH_first bufStray 0 0 (by rw [hlen]; decide) (le_refl _) hpush0
        (fun j h1 h2 => by omega)
    have hs1 : findORs bufStray 0 1024 0 [0, 0, 0, 0] = .ok (4, [2, 11, 20, 29]) := by
      have := findORs_cluster bufStray 0 2 11 20 29 [0, 0, 0, 0] (by decide) (by decide)
        (by decide) (by decide)
        (fun p hp => by
          have hp39 : p < 39 := by
            simp only [List.mem_cons, List.mem_singleton, List.not_mem_nil, or_false] at hp
            omega
          rw [Nat.zero_add, bufStray_isOR p hp39]
          revert p; decide)
        (fun j hj hor => by
          rw [Nat.zero_add, bufStray_isOR j (by omega)] at hor
          have key : ∀ i, i < 29 → isOR strayHead i →
              i = 2 ∨ i = 11 ∨ i = 20 ∨ (2 < i ∧ i ≤ 2 + 8) ∨ (11 < i ∧ i ≤ 11 + 8) ∨
                (20 < i ∧ i ≤ 20 + 8) := by decide
          exact key j hj hor)
      exact this
    have hc1 : ptrCheck bufStray 0 [2, 11, 20, 29] = .ok 1 := by
      unfold ptrCheck
      rw [ptrCheckLoop_cons bufStray 0 _ 0 _ 0 0 300 (by rw [hlen]; decide) (by rw [hlen]; decide)
        (by rw [show 0 + [2, 11, 20, 29].getD 0 0 = 2 from rfl, bufStray_newPtrOffset 2 (by omega)]
            decide)]
      rw [if_pos rfl]
      rw [ptrCheckLoop_cons bufStray 0 _ 1 _ 300 1 200 (by rw [hlen]; decide)
        (by rw [hlen]; decide)
        (by rw [show 0 + [2, 11, 20, 29].getD 1 0 = 11 from rfl,
              bufStray_newPtrOffset 11 (by omega)]
            decide)]
      rw [if_neg (by decide), if_neg (by decide)]
      rw [ptrCheckLoop_cons bufStray 0 _ 2 _ 300 1 200 (by rw [hlen]; decide)
        (by rw [hlen]; decide)
        (by rw [show 0 + [2, 11, 20, 29].getD 2 0 = 20 from rfl,
              bufStray_newPtrOffset 20 (by omega)]
            decide)]
      rw [if_neg (by decide), if_neg (by decide)]
      rw [ptrCheckLoop_cons bufStray 0 _ 3 _ 300 1 200 (by rw [hlen]; decide)
        (by rw [hlen]; decide)
        (by rw [show 0 + [2, 11, 20, 29].getD 3 0 = 29 from rfl,
              bufStray_newPtrOffset 29 (by omega)]
            decide)]
      rw [if_neg (by decide), if_neg (by decide)]
      rfl
    -- second iteration: cursor 29, marker at 1146, hits 0 and 9 only
    have hf2 : findPUSH_R12_R15_SEQ bufStray (toInt32 bufStray.length) 29 = .ok 1146 :=
      findPUSH_first bufStray 29 1146 (by rw [hlen]; decide) (by decide) hpush2
        (fun j h1 h2 => bufStray_not_isPush j h1 h2)
    have hor29 : isOR bufStray (29 + 0) := by rw [bufStray_isOR _ (by decide)]; decide
    have hor38 : isOR bufStray (29 + 9) := by rw [bufStray_isOR _ (by decide)]; decide
    have hs2 : findORs bufStray 29 1024 0 [2, 11, 20, 29] = .ok (2, [0, 9, 20, 29]) := by
      unfold findORs
      rw [toU64_1024]
      rw [findORsLoop_next bufStray 29 1024 0 (by decide) (by rw [hlen]; decide) hor29 0 _ 0 0 _
        rfl (by decide) (by decide) (fun j h1 h2 => by omega)]
      rw [if_neg (by decide)]
      rw [findORsLoop_next bufStray 29 1024 9 (by decide) (by rw [hlen]; decide) hor38 0 _ 9 1 _
        rfl (by decide) (by decide) (fun j h1 h2 => by omega)]
      rw [if_neg (by decide)]
      rw [findORsLoop_none bufStray 29 1024 (by rw [hlen]; decide) _ 18 2 _ (by decide)
        (fun j h1 h2 => bufStray_not_isOR (29 + j) (by omega) (by omega))]
      rfl
    have hloop : patchBootParamsLoop (bufStray.length + 1) (initState bufStray 0) =
        .ok { fileData := bufStray, orPos := [0, 9, 20, 29], initTextOffs := 1148 } := by
      rw [patchBootParamsLoop_mismatch bufStray.length 0 1 (initState bufStray 0) [2, 11, 20, 29]
        (by simp only [initState, State.fileSize]; rw [hlen]; decide) (by decide) hf1 hs1 hc1
        (by decide)]
      simp only [initState]
      rw [show (0 + [2, 11, 20, 29].getD 3 0) % 2 ^ 64 = 29 from rfl]
      rw [hlen]
      rw [patchBootParamsLoop_few 1147 1146 2
        { fileData := bufStray, orPos := [2, 11, 20, 29], initTextOffs := 29 } [0, 9, 20, 29]
        (by simp only [State.fileSize]; rw [hlen]; decide) (by decide) hf2 hs2 (by decide)
        (by decide)]
      rw [show (1146 + 2) % 2 ^ 64 = 1148 from rfl]
      rw [patchBootParamsLoop_exit]
      simp only [State.fileSize]; rw [hlen]; decide
    unfold patchBootParams
    simp only [initState, State.fileSize] at hloop ⊢
    rw [hloop]
    simp only [bind, Except.bind]
    rw [if_pos (by rw [hlen])]
    rfl

/-! ## `patchBootParams` writes at most four bytes -/

theorem patchBootParamsLoop_fileData : ∀ (n : Nat) (st st1 : State),
    patchBootParamsLoop n st = .ok st1 → st1.fileData = st.fileData := by
  intro n
  induction n with
  | zero => intro st st1 h; simp [patchBootParamsLoop] at h
  | succ n ih =>
    intro st st1 h
    unfold patchBootParamsLoop at h
    split at h
    · simp only [bind_eq_ok] at h
      obtain ⟨addr, -, h⟩ := h
      split at h
      · simp [pure, Except.pure] at h; rw [← h]
      · simp only [bind_eq_ok] at h
        obtain ⟨⟨c, op⟩, -, h⟩ := h
        simp only at h
        split at h
        · simpa using ih _ _ h
        · simp only [bind_eq_ok] at h
          obtain ⟨ec, -, h⟩ := h
          split at h
          · simpa using ih _ _ h
          · simp [pure, Except.pure] at h; rw [← h]
    · simp [pure, Except.pure] at h; rw [← h]

theorem patchLoop_spec (o : Nat) (orPos : List Nat) : ∀ (ns : List Nat) (fd fd1 : List Byte),
    patchLoop o orPos ns fd = .ok fd1 →
      fd1.length = fd.length ∧
      (∀ i ∈ patchSites o orPos ns, i < fd.length ∧ fd1[i]? = some 0x25) ∧
      (∀ i, i ∉ patchSites o orPos ns → fd1[i]? = fd[i]?) := by
  intro ns
  induction ns with
  | nil =>
    intro fd fd1 h
    simp only [patchLoop, Except.ok.injEq] at h
    subst h
    simp [patchSites]
  | cons n ns ih =>
    intro fd fd1 h
    unfold patchLoop at h
    simp only [bind_eq_ok, wr_eq_ok] at h
    obtain ⟨fd2, ⟨hlt, rfl⟩, h⟩ := h
    obtain ⟨hl, hin, hout⟩ := ih _ _ h
    have hps : patchSites o orPos (n :: ns) =
        ((o + orPos.getD n 0 + 2) % 2 ^ 64) :: patchSites o orPos ns := rfl
    rw [hps]
    generalize (o + orPos.getD n 0 + 2) % 2 ^ 64 = pos at *
    refine ⟨by simpa using hl, ?_, ?_⟩
    · intro i hi
      rcases List.mem_cons.mp hi with rfl | hi
      · refine ⟨hlt, ?_⟩
        by_cases hmem : i ∈ patchSites o orPos ns
        · exact (hin _ hmem).2
        · rw [hout _ hmem]
          simp [List.getElem?_set, hlt]
      · have := hin i hi
        simpa using this
    · intro i hi
      simp only [List.mem_cons, not_or] at hi
      rw [hout i hi.2, List.getElem?_set]
      simp [Ne.symm hi.1]

/-- C10: whenever `patchBootParams` returns, the buffer it leaves has the length of the input,
differs from the input in at most 4 positions, and holds 0x25 at every position where it
differs. -/
theorem patchBootParams_changes_at_most_four_bytes (st st1 : State) (out : Outcome)
    (h : patchBootParams st = .ok (out, st1)) :
    st1.fileData.length = st.fileData.length ∧
    ((Finset.range st.fileData.length).filter
        (fun i : Nat => st1.fileData[i]? ≠ st.fileData[i]?)).card ≤ 4 ∧
    (∀ i : Nat, st1.fileData[i]? ≠ st.fileData[i]? → st1.fileData[i]? = some 0x25) := by
  unfold patchBootParams at h
  simp only [bind_eq_ok] at h
  obtain ⟨st2, hloop, h⟩ := h
  have hfd := patchBootParamsLoop_fileData _ _ _ hloop
  split at h
  · simp [pure, Except.pure] at h
    obtain ⟨-, rfl⟩ := h
    simp [hfd]
  · simp only [bind_eq_ok] at h
    obtain ⟨fd, hp, h⟩ := h
    simp [pure, Except.pure] at h
    obtain ⟨-, rfl⟩ := h
    obtain ⟨hl, hin, hout⟩ := patchLoop_spec _ _ _ _ _ hp
    rw [hfd] at hl hin hout
    simp only
    refine ⟨hl, ?_, ?_⟩
    · calc _ ≤ (patchSites st2.initTextOffs st2.orPos [0, 1, 2, 3]).toFinset.card := by
            apply Finset.card_le_card
            intro i hi
            simp only [Finset.mem_filter, Finset.mem_range] at hi
            rw [List.mem_toFinset]
            by_contra hc
            exact hi.2 (hout i hc)
        _ ≤ (patchSites st2.initTextOffs st2.orPos [0, 1, 2, 3]).length := List.toFinset_card_le _
        _ = 4 := by simp [patchSites]
    · intro i hi
      by_cases hc : i ∈ patchSites st2.initTextOffs st2.orPos [0, 1, 2, 3]
      · exact (hin i hc).2
      · exact absurd (hout i hc) hi

/-- Witness for C10: the four-byte patch of `bufCluster`. -/
theorem patchBootParams_changes_at_most_four_bytes_witness :
    patchBootParams (initState bufCluster 0) =
      .ok (.patched,
        { fileData := (((bufCluster.set 4 0x25).set 13 0x25).set 22 0x25).set 31 0x25,
          orPos := [2, 11, 20, 29], initTextOffs := 0 }) ∧
    ((((bufCluster.set 4 0x25).set 13 0x25).set 22 0x25).set 31 0x25).length
      = bufCluster.length ∧
    ((Finset.range bufCluster.length).filter
        (fun i : Nat => ((((bufCluster.set 4 0x25).set 13 0x25).set 22 0x25).set 31 0x25)[i]?
          ≠ bufCluster[i]?)).card ≤ 4 ∧
    (∀ i : Nat, ((((bufCluster.set 4 0x25).set 13 0x25).set 22 0x25).set 31 0x25)[i]?
        ≠ bufCluster[i]? →
      ((((bufCluster.set 4 0x25).set 13 0x25).set 22 0x25).set 31 0x25)[i]? = some 0x25) :=
  ⟨by decide,
    patchBootParams_changes_at_most_four_bytes (initState bufCluster 0)
      { fileData := (((bufCluster.set 4 0x25).set 13 0x25).set 22 0x25).set 31 0x25,
        orPos := [2, 11, 20, 29], initTextOffs := 0 } .patched (by decide)⟩

/-! ## The loop of `patchBootParams` ends within its budget -/

theorem bind_eq_error {α β : Type} {x : Except Err α} {f : α → Except Err β} {e : Err} :
    (x >>= f) = .error e ↔ x = .error e ∨ ∃ a, x = .ok a ∧ f a = .error e := by
  cases x <;> simp [bind, Except.bind]

theorem findPUSHLoop_range (fd : List Byte) (size : Nat) : ∀ (left i r : Nat),
    findPUSHLoop fd size left i = .ok r → r = NotFound ∨ (i ≤ r ∧ r < fd.length) := by
  intro left
  induction left with
  | zero => intro i r h; left; simpa [findPUSHLoop] using h.symm
  | succ left ih =>
    intro i r h
    rw [findPUSHLoop] at h
    split at h
    · simp only [bind_eq_ok] at h
      obtain ⟨b, hb, h⟩ := h
      have hrec : ∀ r, findPUSHLoop fd size left (i + 1) = .ok r →
          r = NotFound ∨ (i ≤ r ∧ r < fd.length) := by
        intro r hr
        rcases ih _ _ hr with h1 | h1
        · exact Or.inl h1
        · exact Or.inr ⟨by omega, h1.2⟩
      split at h
      · simp only [bind_eq_ok] at h
        obtain ⟨b1, hb1, h⟩ := h
        split at h
        · simp only [pure, Except.pure, Except.ok.injEq] at h
          subst h
          exact Or.inr ⟨le_refl _, rd_ok_lt hb⟩
        · exact hrec r h
      · exact hrec r h
    · left; simpa using h.symm

theorem findPUSHLoop_error (fd : List Byte) (size : Nat) : ∀ (left i : Nat) (e : Err),
    findPUSHLoop fd size left i = .error e → e = .outOfBounds := by
  intro left
  induction left with
  | zero => intro i e h; simp [findPUSHLoop] at h
  | succ left ih =>
    intro i e h
    rw [findPUSHLoop] at h
    split at h
    · rcases bind_eq_error.mp h with h | ⟨b, -, h⟩
      · exact rd_error h
      · split at h
        · rcases bind_eq_error.mp h with h | ⟨b1, -, h⟩
          · exact rd_error h
          · split at h
            · simp [pure, Except.pure] at h
            · exact ih _ _ h
        · exact ih _ _ h
    · simp at h

theorem orHit_error {fd : List Byte} {pos : Nat} {e : Err} (h : orHit fd pos = .error e) :
    e = .outOfBounds := by
  unfold orHit at h
  rcases bind_eq_error.mp h with h | ⟨b, -, h⟩
  · exact rd_error h
  · split at h
    · rcases bind_eq_error.mp h with h | ⟨b1, -, h⟩
      · exact rd_error h
      · split at h
        · rcases bind_eq_error.mp h with h | ⟨b7, -, h⟩
          · exact rd_error h
          · simp [pure, Except.pure] at h
        · simp [pure, Except.pure] at h
    · simp [pure, Except.pure] at h

theorem findORsLoop_error (fd : List Byte) (base size : Nat) :
    ∀ (left i c : Nat) (op : List Nat) (e : Err),
      findORsLoop fd base size left i c op = .error e → e = .outOfBounds := by
  intro left
  induction left with
  | zero => intro i c op e h; simp [findORsLoop] at h
  | succ left ih =>
    intro i c op e h
    rw [findORsLoop] at h
    split at h
    · rcases bind_eq_error.mp h with h | ⟨hit, -, h⟩
      · exact orHit_error h
      · cases hit with
        | false =>
          simp only [Bool.false_eq_true, if_false] at h
          split at h
          · simp at h
          · exact ih _ _ _ _ h
        | true =>
          simp only [if_true] at h
          split at h
          · simp at h
          · exact ih _ _ _ _ h
    · simp at h

/-- A scan that returns the count 4 has left the length of `orPos` unchanged and has put its
fourth hit, an offset of the window at least `9 * (3 - c)` after the current one, in slot 3. -/
theorem findORsLoop_fourth (fd : List Byte) (base size : Nat) :
    ∀ (left i c : Nat) (op op1 : List Nat),
      findORsLoop fd base size left i c op = .ok (4, op1) → c < 4 → op.length = 4 →
        op1.length = 4 ∧ i + 9 * (3 - c) ≤ op1.getD 3 0 ∧ op1.getD 3 0 < size := by
  intro left
  induction left with
  | zero =>
    intro i c op op1 h hc _
    simp only [findORsLoop, Except.ok.injEq, Prod.mk.injEq] at h
    omega
  | succ left ih =>
    intro i c op op1 h hc hl
    rw [findORsLoop] at h
    split at h
    · rename_i hi
      simp only [bind_eq_ok] at h
      obtain ⟨hit, -, h⟩ := h
      cases hit with
      | false =>
        simp only [Bool.false_eq_true, if_false] at h
        rw [if_neg (by omega)] at h
        have := ih _ _ _ _ h hc hl
        omega
      | true =>
        simp only [if_true] at h
        split at h
        · rename_i h4
          simp only [Except.ok.injEq, Prod.mk.injEq] at h
          obtain ⟨-, rfl⟩ := h
          have hc3 : c = 3 := by omega
          subst hc3
          have hg : (op.set 3 i).getD 3 0 = i := by
            simp [List.getD_eq_getElem?_getD, List.getElem?_set, hl]
          rw [hg]
          exact ⟨by simpa using hl, by omega, hi⟩
        · rename_i h4
          have := ih _ _ _ _ h (by omega) (by simpa using hl)
          omega
    · simp only [Except.ok.injEq, Prod.mk.injEq] at h
      omega

theorem findORsLoop_length (fd : List Byte) (base size : Nat) :
    ∀ (left i c : Nat) (op op1 : List Nat) (n : Nat),
      findORsLoop fd base size left i c op = .ok (n, op1) → op1.length = op.length := by
  intro left
  induction left with
  | zero =>
    intro i c op op1 n h
    simp only [findORsLoop, Except.ok.injEq, Prod.mk.injEq] at h
    rw [h.2]
  | succ left ih =>
    intro i c op op1 n h
    rw [findORsLoop] at h
    split at h
    · simp only [bind_eq_ok] at h
      obtain ⟨hit, -, h⟩ := h
      cases hit with
      | false =>
        simp only [Bool.false_eq_true, if_false] at h
        split at h
        · simp only [Except.ok.injEq, Prod.mk.injEq] at h
          rw [← h.2]
        · exact ih _ _ _ _ _ h
      | true =>
        simp only [if_true] at h
        split at h
        · simp only [Except.ok.injEq, Prod.mk.injEq] at h
          rw [← h.2]
          simp
        · have := ih _ _ _ _ _ h
          rw [this]
          simp
    · simp only [Except.ok.injEq, Prod.mk.injEq] at h
      rw [h.2]

theorem newPtrOffset_error {fd : List Byte} {pos : Nat} {e : Err}
    (h : newPtrOffset fd pos = .error e) : e = .outOfBounds := by
  unfold newPtrOffset disp32 at h
  rcases bind_eq_error.mp h with h | ⟨d, -, h⟩
  · rcases bind_eq_error.mp h with h | ⟨b6, -, h⟩
    · exact rd_error h
    · rcases bind_eq_error.mp h with h | ⟨b5, -, h⟩
      · exact rd_error h
      · rcases bind_eq_error.mp h with h | ⟨b4, -, h⟩
        · exact rd_error h
        · rcases bind_eq_error.mp h with h | ⟨b3, -, h⟩
          · exact rd_error h
          · simp [pure, Except.pure] at h
  · simp [pure, Except.pure] at h

theorem ptrCheckLoop_error (fd : List Byte) (o : Nat) (op : List Nat) :
    ∀ (ns : List Nat) (acc : Nat × Nat) (e : Err),
      ptrCheckLoop fd o op ns acc = .error e → e = .outOfBounds := by
  intro ns
  induction ns with
  | nil => intro acc e h; simp [ptrCheckLoop] at h
  | cons n ns ih =>
    intro acc e h
    obtain ⟨ptr, ec⟩ := acc
    rw [ptrCheckLoop] at h
    rcases bind_eq_error.mp h with h | ⟨a, -, h⟩
    · exact newPtrOffset_error h
    · rcases bind_eq_error.mp h with h | ⟨x0, -, h⟩
      · exact rd_error h
      · rcases bind_eq_error.mp h with h | ⟨x1, -, h⟩
        · exact rd_error h
        · rcases bind_eq_error.mp h with h | ⟨x2, -, h⟩
          · exact rd_error h
          · rcases bind_eq_error.mp h with h | ⟨x7, -, h⟩
            · exact rd_error h
            · split at h
              · exact ih _ _ h
              · split at h
                · exact ih _ _ h
                · exact ih _ _ h

theorem ptrCheck_error {fd : List Byte} {o : Nat} {op : List Nat} {e : Err}
    (h : ptrCheck fd o op = .error e) : e = .outOfBounds := by
  unfold ptrCheck at h
  rcases bind_eq_error.mp h with h | ⟨r, -, h⟩
  · exact ptrCheckLoop_error _ _ _ _ _ _ h
  · simp [pure, Except.pure] at h

/-- The iteration budget of the model is never exhausted: within a budget above
`fileSize - initTextOffs` the loop of `patchBootParams` ends, or an access is out of bounds. -/
theorem patchBootParamsLoop_error : ∀ (b : Nat) (st : State) (e : Err),
    st.orPos.length = 4 → st.fileData.length < 2 ^ 63 → st.fileSize - st.initTextOffs < b →
      patchBootParamsLoop b st = .error e → e = .outOfBounds := by
  intro b
  induction b with
  | zero => intro st e _ _ hb; omega
  | succ b ih =>
    intro st e hop hlen hb h
    rw [patchBootParamsLoop] at h
    split at h
    · rename_i hlt
      rcases bind_eq_error.mp h with h | ⟨addr, haddr, h⟩
      · exact findPUSHLoop_error _ _ _ _ _ h
      · split at h
        · simp [pure, Except.pure] at h
        · rename_i hnf
          have hrange : st.initTextOffs ≤ addr ∧ addr < st.fileData.length := by
            rcases findPUSHLoop_range _ _ _ _ _ haddr with h1 | h1
            · exact absurd h1 hnf
            · exact h1
          rcases bind_eq_error.mp h with h | ⟨⟨n, op⟩, hscan, h⟩
          · exact findORsLoop_error _ _ _ _ _ _ _ _ h
          · have hopl : op.length = 4 := by
              rw [findORsLoop_length _ _ _ _ _ _ _ _ _ hscan, hop]
            simp only at h
            split at h
            · refine ih _ e ?_ ?_ ?_ h
              · exact hopl
              · exact hlen
              · simp only [State.fileSize] at hb hlt ⊢
                split
                · rw [Nat.mod_eq_of_lt (a := addr + 2) (by omega), Nat.mod_eq_of_lt (by omega)]
                  omega
                · rw [Nat.mod_eq_of_lt (by omega)]
                  omega
            · rename_i hn4
              have hn : n = 4 := by simpa using hn4
              subst hn
              rcases bind_eq_error.mp h with h | ⟨ec, -, h⟩
              · exact ptrCheck_error h
              · split at h
                · have h4 := findORsLoop_fourth _ _ _ _ _ _ _ _ hscan (by decide) hop
                  rw [toU64_1024] at h4
                  refine ih _ e ?_ ?_ ?_ h
                  · exact hopl
                  · exact hlen
                  · simp only [State.fileSize] at hb hlt ⊢
                    rw [Nat.mod_eq_of_lt (by omega)]
                    omega
                · simp [pure, Except.pure] at h
    · simp [pure, Except.pure] at h

theorem patchLoop_error (o : Nat) (op : List Nat) : ∀ (ns : List Nat) (fd : List Byte) (e : Err),
    patchLoop o op ns fd = .error e → e = .outOfBounds := by
  intro ns
  induction ns with
  | nil => intro fd e h; simp [patchLoop] at h
  | cons n ns ih =>
    intro fd e h
    rw [patchLoop] at h
    rcases bind_eq_error.mp h with h | ⟨fd1, -, h⟩
    · unfold wr at h
      split at h
      · simp at h
      · simpa using h.symm
    · exact ih _ _ h

/-- The run of `patchBootParams` always ends: it returns, or an access is out of bounds. -/
theorem patchBootParams_error (st : State) (e : Err) (hop : st.orPos.length = 4)
    (hlen : st.fileData.length < 2 ^ 63) (h : patchBootParams st = .error e) :
    e = .outOfBounds := by
  unfold patchBootParams at h
  rcases bind_eq_error.mp h with h | ⟨st1, -, h⟩
  · exact patchBootParamsLoop_error _ _ _ hop hlen (by simp only [State.fileSize]; omega) h
  · split at h
    · simp [pure, Except.pure] at h
    · rcases bind_eq_error.mp h with h | ⟨fd1, -, h⟩
      · exact patchLoop_error _ _ _ _ _ h
      · simp [pure, Except.pure] at h

/-! ## `findORs` on back-to-back instructions in a 1024-byte window -/

theorem bufAdjacentPadded_low (j : Nat) (h : j < 32) : bufAdjacentPadded[j]? = bufAdjacent[j]? := by
  unfold bufAdjacentPadded
  rw [List.getElem?_append_left (by simpa [bufAdjacent, lockOr] using h)]

theorem bufAdjacentPadded_mid (j : Nat) (h : j < 1000) : bufAdjacentPadded[32 + j]? = some 0 := by
  unfold bufAdjacentPadded
  rw [List.getElem?_append_right (by simp [bufAdjacent, lockOr])]
  have : 32 + j - bufAdjacent.length = j := by simp [bufAdjacent, lockOr]
  rw [this]
  exact getElem_pad_low 1000 _ j h

theorem bufAdjacentPadded_length : bufAdjacentPadded.length = 1032 := by
  unfold bufAdjacentPadded
  rw [List.length_append, List.length_append, List.length_replicate]
  rfl

theorem bufAdjacentPadded_not_isOR (j : Nat) (h : j < 1024) (h0 : j ≠ 0) (h8 : j ≠ 8)
    (h16 : j ≠ 16) (h24 : j ≠ 24) : ¬ isOR bufAdjacentPadded j := by
  intro hp
  have hb := hp.1
  by_cases hj : j < 32
  · rw [bufAdjacentPadded_low j hj] at hb
    have key : ∀ i, i < 32 → bufAdjacent[i]? = some 0xF0 → i = 0 ∨ i = 8 ∨ i = 16 ∨ i = 24 := by
      decide
    have := key j hj hb
    omega
  · obtain ⟨k, rfl⟩ : ∃ k, j = 32 + k := ⟨j - 32, by omega⟩
    rw [bufAdjacentPadded_mid k (by omega)] at hb
    revert hb; decide

theorem findORs_adjacent_window :
    findORs bufAdjacentPadded 0 1024 0 [0, 0, 0, 0] = .ok (2, [0, 16, 0, 0]) := by
  have hlen := bufAdjacentPadded_length
  have hor0 : isOR bufAdjacentPadded (0 + 0) := by
    rw [isOR_congr (bufAdjacentPadded_low _ (by decide)) (bufAdjacentPadded_low _ (by decide))
      (bufAdjacentPadded_low _ (by decide))]
    decide
  have hor16 : isOR bufAdjacentPadded (0 + 16) := by
    rw [isOR_congr (bufAdjacentPadded_low _ (by decide)) (bufAdjacentPadded_low _ (by decide))
      (bufAdjacentPadded_low _ (by decide))]
    decide
  unfold findORs
  rw [toU64_1024]
  rw [findORsLoop_next bufAdjacentPadded 0 1024 0 (by decide) (by rw [hlen]; decide) hor0 0 _ 0 0 _
    rfl (by decide) (by decide) (fun j h1 h2 => by omega)]
  rw [if_neg (by decide)]
  rw [findORsLoop_next bufAdjacentPadded 0 1024 16 (by decide) (by rw [hlen]; decide) hor16 7 _ 9
    1 _ rfl (by decide) (by decide)
    (fun j h1 h2 => by
      rw [Nat.zero_add]
      exact bufAdjacentPadded_not_isOR j (by omega) (by omega) (by omega) (by omega) (by omega))]
  rw [if_neg (by decide)]
  rw [findORsLoop_none bufAdjacentPadded 0 1024 (by rw [hlen]; decide) _ 25 2 _ (by decide)
    (fun j h1 h2 => by
      rw [Nat.zero_add]
      exact bufAdjacentPadded_not_isOR j (by omega) (by omega) (by omega) (by omega) (by omega))]
  rfl

/-! ## A second run of `patchRamdiskCheck` -/

theorem strncmp0_comm (a b : List Byte) : ∀ (n i j : Nat),
    strncmp0 a i b j n = strncmp0 b j a i n := by
  intro n
  induction n with
  | zero => intro i j; rfl
  | succ n ih =>
    intro i j
    rw [strncmp0, strncmp0]
    cases h1 : rd a i with
    | error e1 =>
      cases h2 : rd b j with
      | error e2 => rw [rd_error h1, rd_error h2]; rfl
      | ok c2 => rfl
    | ok c1 =>
      cases h2 : rd b j with
      | error e2 => rfl
      | ok c2 =>
        simp only [bind, Except.bind]
        by_cases hc : c1 = c2
        · subst hc
          simp only [ne_eq, not_true_eq_false, if_false]
          split
          · rfl
          · exact ih _ _
        · have hc2 : c2 ≠ c1 := fun h => hc h.symm
          simp only [ne_eq, hc, hc2, not_false_eq_true, if_true]

theorem strncmp0_congr_left (a a2 b : List Byte) : ∀ (n i j : Nat),
    (∀ k, k < n → a[i + k]? = a2[i + k]?) → strncmp0 a i b j n = strncmp0 a2 i b j n := by
  intro n
  induction n with
  | zero => intro i j _; rfl
  | succ n ih =>
    intro i j h
    rw [strncmp0, strncmp0, rd_congr (by simpa using h 0 (by omega)),
      ih (i + 1) (j + 1) (fun k hk => by
        have := h (k + 1) (by omega)
        rwa [show i + (k + 1) = i + 1 + k by omega] at this)]

theorem strncmp0_congr_right (a b b2 : List Byte) (n i j : Nat)
    (h : ∀ k, k < n → b[j + k]? = b2[j + k]?) : strncmp0 a i b j n = strncmp0 a i b2 j n := by
  rw [strncmp0_comm, strncmp0_congr_left b b2 a n j i h, strncmp0_comm]

/-- A comparison that ends with "different" still does so after a byte of the first argument
is replaced by a value that does not occur in the compared part of the second. -/
theorem strncmp0_set_false_left (fd seq : List Byte) (jz : Nat) (v : Byte) : ∀ (n i s : Nat),
    (∀ k, k < n → seq[s + k]? ≠ some v) → strncmp0 fd i seq s n = .ok false →
      strncmp0 (fd.set jz v) i seq s n = .ok false := by
  intro n
  induction n with
  | zero => intro i s _ h; simp [strncmp0] at h
  | succ n ih =>
    intro i s hv h
    rw [strncmp0] at h ⊢
    simp only [bind_eq_ok] at h
    obtain ⟨c1, h1, c2, h2, h⟩ := h
    have hv0 : c2 ≠ v := by
      intro hc
      have := hv 0 (by omega)
      rw [Nat.add_zero, rd_eq_ok.mp h2, hc] at this
      exact this rfl
    rw [rd_set, h2]
    by_cases hij : i = jz
    · rw [if_pos hij, if_pos (rd_ok_lt h1)]
      simp only [bind, Except.bind]
      rw [if_pos (fun hc => hv0 hc.symm)]
      rfl
    · rw [if_neg hij, h1]
      simp only [bind, Except.bind]
      split at h
      · rename_i hne
        rw [if_pos hne]; rfl
      · rename_i hne
        rw [if_neg hne]
        split at h
        · simp [pure, Except.pure] at h
        · rename_i h0
          rw [if_neg h0]
          exact ih (i + 1) (s + 1) (fun k hk => by
            have := hv (k + 1) (by omega)
            rwa [show s + (k + 1) = s + 1 + k by omega] at this) h

theorem strncmp0_set_false_right (a fd : List Byte) (jz : Nat) (v : Byte) (n s i : Nat)
    (hv : ∀ k, k < n → a[s + k]? ≠ some v) (h : strncmp0 a s fd i n = .ok false) :
    strncmp0 a s (fd.set jz v) i n = .ok false := by
  rw [strncmp0_comm] at h ⊢
  exact strncmp0_set_false_left fd a jz v n i s hv h

/-- A comparison that ends with "equal" has compared equal bytes up to the first NUL. -/
theorem strncmp0_true_bytes (a b : List Byte) : ∀ (n i j k : Nat),
    strncmp0 a i b j n = .ok true → k < n → (∀ r, r < k → a[i + r]? ≠ some 0) →
      a[i + k]? = b[j + k]? ∧ ∃ c, a[i + k]? = some c := by
  intro n
  induction n with
  | zero => intro i j k _ hk; omega
  | succ n ih =>
    intro i j k h hk hz
    rw [strncmp0] at h
    simp only [bind_eq_ok] at h
    obtain ⟨c1, h1, c2, h2, h⟩ := h
    split at h
    · simp [pure, Except.pure] at h
    · rename_i hne
      have hc : c1 = c2 := by simpa using hne
      cases k with
      | zero =>
        simp only [Nat.add_zero]
        rw [rd_eq_ok.mp h1, rd_eq_ok.mp h2, hc]
        exact ⟨rfl, c2, rfl⟩
      | succ k =>
        have h0 : c1 ≠ 0 := by
          intro h0
          have := hz 0 (by omega)
          rw [Nat.add_zero, rd_eq_ok.mp h1, h0] at this
          exact this rfl
        rw [if_neg h0] at h
        have := ih (i + 1) (j + 1) k h (by omega) (fun r hr => by
          have := hz (r + 1) (by omega)
          rwa [show i + (r + 1) = i + 1 + r by omega] at this)
        rwa [show i + 1 + k = i + (k + 1) by omega, show j + 1 + k = j + (k + 1) by omega] at this

theorem findSeqLoop_match (fd seq : List Byte) (len : Nat) (dir : Int) : ∀ (max i r : Nat),
    findSeqLoop fd seq len dir max i = .ok r → r ≠ NotFound →
      strncmp0 fd r seq 0 len = .ok true := by
  intro max
  induction max with
  | zero => intro i r h hr; simp [findSeqLoop] at h; exact absurd h.symm hr
  | succ max ih =>
    intro i r h hr
    rw [findSeqLoop] at h
    simp only [bind_eq_ok] at h
    obtain ⟨b, hb, h⟩ := h
    cases b with
    | true =>
      simp only [if_true, pure, Except.pure, Except.ok.injEq] at h
      subst h; exact hb
    | false =>
      simp only [Bool.false_eq_true, if_false] at h
      split at h
      · exact ih _ _ h hr
      · simp only [pure, Except.pure, Except.ok.injEq] at h
        exact absurd h.symm hr

theorem findSeqLoop_lockstep (fd fd1 seq : List Byte) (len : Nat) (dir : Int)
    (hl : fd1.length = fd.length)
    (hf : ∀ i, strncmp0 fd i seq 0 len = .ok false → strncmp0 fd1 i seq 0 len = .ok false) :
    ∀ (max i r : Nat), findSeqLoop fd seq len dir max i = .ok r → r ≠ NotFound →
      strncmp0 fd1 r seq 0 len = .ok true → findSeqLoop fd1 seq len dir max i = .ok r := by
  intro max
  induction max with
  | zero => intro i r h hr; simp [findSeqLoop] at h; exact absurd h.symm hr
  | succ max ih =>
    intro i r h hr ht
    rw [findSeqLoop] at h ⊢
    simp only [bind_eq_ok] at h
    obtain ⟨b, hb, h⟩ := h
    cases b with
    | true =>
      simp only [if_true, pure, Except.pure, Except.ok.injEq] at h
      subst h
      rw [ht]; rfl
    | false =>
      simp only [Bool.false_eq_true, if_false] at h
      rw [hf i hb]
      simp only [bind, Except.bind, Bool.false_eq_true, if_false]
      rw [hl]
      split at h
      · rename_i hc
        rw [if_pos hc]
        exact ih _ _ h hr ht
      · simp only [pure, Except.pure, Except.ok.injEq] at h
        exact absurd h.symm hr

/-- A backward search that starts below `2^64` in a buffer shorter than `2^63` bytes returns
an offset at or before its start. -/
theorem findSeqLoop_rwd_le (fd seq : List Byte) (len : Nat) (hlen : fd.length < 2 ^ 63) :
    ∀ (max i r : Nat), findSeqLoop fd seq len DIR_RWD max i = .ok r → r ≠ NotFound →
      i < 2 ^ 64 → r ≤ i := by
  intro max
  induction max with
  | zero => intro i r h hr; simp [findSeqLoop] at h; exact absurd h.symm hr
  | succ max ih =>
    intro i r h hr hi
    rw [findSeqLoop] at h
    simp only [bind_eq_ok] at h
    obtain ⟨b, hb, h⟩ := h
    cases b with
    | true =>
      simp only [if_true, pure, Except.pure, Except.ok.injEq] at h
      omega
    | false =>
      simp only [Bool.false_eq_true, if_false] at h
      split at h
      · rename_i hc
        have hi1 : toU64 ((i : Int) + DIR_RWD) ≤ i := by
          by_cases h0 : i = 0
          · exfalso
            subst h0
            have : toU64 (((0 : Nat) : Int) + DIR_RWD) = 2 ^ 64 - 1 := by decide
            rw [this] at hc
            omega
          · have : (i : Int) + DIR_RWD = ((i - 1 : Nat) : Int) := by
              unfold DIR_RWD; omega
            rw [this, toU64_natCast (by omega)]
            omega
        have := ih _ _ h hr (toU64_lt _)
        omega
      · simp only [pure, Except.pure, Except.ok.injEq] at h
        exact absurd h.symm hr

theorem strLoop_lockstep (fd fd1 : List Byte) (O : Nat) (hl : fd1.length = fd.length)
    (hf : ∀ p, strncmp0 str 0 fd p 16 = .ok false → strncmp0 str 0 fd1 p 16 = .ok false)
    (ht : ∀ p, strncmp0 str 0 fd p 16 = .ok true → strncmp0 str 0 fd1 p 16 = .ok true) :
    ∀ (left pos r : Nat), strLoop fd O left pos = .ok r → strLoop fd1 O left pos = .ok r := by
  intro left
  induction left with
  | zero => intro pos r h; simpa [strLoop] using h
  | succ left ih =>
    intro pos r h
    rw [strLoop] at h ⊢
    rw [hl]
    split at h
    · rename_i hc
      rw [if_pos hc]
      simp only [bind_eq_ok] at h
      obtain ⟨b, hb, h⟩ := h
      cases b with
      | true =>
        rw [ht pos hb]
        exact h
      | false =>
        rw [hf pos hb]
        simp only [Bool.false_eq_true, if_false] at h
        simp only [bind, Except.bind, Bool.false_eq_true, if_false]
        exact ih _ _ h
    · rename_i hc
      rw [if_neg hc]
      exact h

/-- C5 (amended): for a buffer shorter than `2^63` bytes on which `patchRamdiskCheck` succeeds,
if no byte of the 4-byte encoding of the searched address equals 0xEB, then running
`patchRamdiskCheck` again on the patched buffer (same rodata offset and address) ends in the
hard failure of the jump-if-zero check (line 235). The only write of `patchRamdiskCheck` is its
last statement, so the failing run has written nothing; the length is unchanged. -/
theorem patchRamdiskCheck_second_run_fails_at_jz (fd fd1 : List Byte) (A O pos : Nat)
    (hlen : fd.length < 2 ^ 63)
    (hpos : strLoop fd O (fd.length - O) O = .ok pos)
    (hEB : ∀ k, k < 4 → (le64 (toU64 ((A : Int) + pos - 1)))[k]? ≠ some 0xEB)
    (h1 : patchRamdiskCheck fd A O = .ok fd1) :
    fd1.length = fd.length ∧ patchRamdiskCheck fd1 A O = .error .jzNotFound := by
  unfold patchRamdiskCheck at h1
  rw [hpos] at h1
  simp only [bind, Except.bind] at h1
  cases hpk : findSeq fd (le64 (toU64 ((A : Int) + pos - 1))) 4 0 DIR_FWD NotFound with
  | error e => rw [hpk] at h1; simp at h1
  | ok pk =>
  rw [hpk] at h1
  simp only at h1
  split at h1
  · simp [throw, throwThe, MonadExceptOf.throw] at h1
  rename_i hpkne
  generalize hq : toU64 ((pk : Int) - 3) = q at h1
  cases hmov : strncmp0 fd q [0x48, 0xC7, 0] 0 2 with
  | error e => rw [hmov] at h1; simp at h1
  | ok bm =>
  rw [hmov] at h1
  simp only at h1
  cases bm with
  | false =>
    simp only [Bool.not_false, if_true] at h1
    cases hr1 : rd fd q with
    | error e => rw [hr1] at h1; simp at h1
    | ok x1 =>
      rw [hr1] at h1
      cases hr2 : rd fd (q + 1) with
      | error e => rw [hr2] at h1; simp at h1
      | ok x2 => rw [hr2] at h1; simp [throw, throwThe, MonadExceptOf.throw] at h1
  | true =>
  simp only [Bool.not_true, Bool.false_eq_true, if_false] at h1
  cases hop : rd fd (q + 2) with
  | error e => rw [hop] at h1; simp at h1
  | ok b =>
  rw [hop] at h1
  simp only at h1
  split at h1
  · simp [throw, throwThe, MonadExceptOf.throw] at h1
  rename_i hb
  cases ht : findSeq fd [0x85, 0xC0, 0] 2 q DIR_RWD 32 with
  | error e => rw [ht] at h1; simp at h1
  | ok t =>
  rw [ht] at h1
  simp only at h1
  split at h1
  · simp [throw, throwThe, MonadExceptOf.throw] at h1
  rename_i htne
  cases hj : rd fd ((t + 2) % 2 ^ 64) with
  | error e => rw [hj] at h1; simp at h1
  | ok j =>
  rw [hj] at h1
  simp only at h1
  split at h1
  · simp [throw, throwThe, MonadExceptOf.throw] at h1
  rename_i hj74
  cases hj1 : rd fd ((t + 2) % 2 ^ 64 + 1) with
  | error e => rw [hj1] at h1; simp at h1
  | ok j1 =>
  rw [hj1] at h1
  simp only at h1
  obtain ⟨hjlt, hfd1⟩ := wr_eq_ok.mp h1
  have hj74e : j = 0x74 := by simpa using hj74
  subst hj74e
  -- the TEST found by the backward search
  have htm : strncmp0 fd t [0x85, 0xC0, 0] 0 2 = .ok true :=
    findSeqLoop_match fd _ 2 DIR_RWD _ _ t ht htne
  have ht0 := strncmp0_true_bytes fd [0x85, 0xC0, 0] 2 t 0 0 htm (by omega) (fun r hr => by omega)
  simp only [Nat.add_zero] at ht0
  have ht0e : fd[t]? = some 0x85 := ht0.1
  have ht1 := strncmp0_true_bytes fd [0x85, 0xC0, 0] 2 t 0 1 htm (by omega) (fun r hr => by
    have : r = 0 := by omega
    subst this
    rw [Nat.add_zero, ht0e]; decide)
  have ht1e : fd[t + 1]? = some 0xC0 := ht1.1
  have ht1lt : t + 1 < fd.length := (List.getElem?_eq_some_iff.mp ht1e).1
  have htq : t ≤ q % 2 ^ 32 :=
    findSeqLoop_rwd_le fd _ 2 hlen _ _ t ht htne
      (lt_of_lt_of_le (Nat.mod_lt _ (by decide)) (by decide))
  have hqmod : q % 2 ^ 32 ≤ q := Nat.mod_le _ _
  have hjz : (t + 2) % 2 ^ 64 = t + 2 := Nat.mod_eq_of_lt (by omega)
  rw [hjz] at hj hjlt hfd1
  have hjz74 : fd[t + 2]? = some 0x74 := rd_eq_ok.mp hj
  -- the MOV bytes
  have hm0 := strncmp0_true_bytes fd [0x48, 0xC7, 0] 2 q 0 0 hmov (by omega) (fun r hr => by omega)
  simp only [Nat.add_zero] at hm0
  have hm0e : fd[q]? = some 0x48 := hm0.1
  have hm1 := strncmp0_true_bytes fd [0x48, 0xC7, 0] 2 q 0 1 hmov (by omega) (fun r hr => by
    have : r = 0 := by omega
    subst this
    rw [Nat.add_zero, hm0e]; decide)
  have hm1e : fd[q + 1]? = some 0xC7 := hm1.1
  have hqlt : q < fd.length := (List.getElem?_eq_some_iff.mp hm0e).1
  have hne0 : q ≠ t + 2 := by
    intro h; rw [h, hjz74] at hm0e; revert hm0e; decide
  have hne1 : q + 1 ≠ t + 2 := by
    intro h; rw [h, hjz74] at hm1e; revert hm1e; decide
  have hne2 : q + 2 ≠ t + 2 := by
    intro h
    rw [h, hj] at hop
    simp only [Except.ok.injEq] at hop
    subst hop
    revert hb; decide
  -- the address occurrence
  have hpkm : strncmp0 fd pk (le64 (toU64 ((A : Int) + pos - 1))) 0 4 = .ok true :=
    findSeqLoop_match fd _ 4 DIR_FWD _ _ pk hpk hpkne
  have hpk0 := strncmp0_true_bytes fd _ 4 pk 0 0 hpkm (by omega) (fun r hr => by omega)
  obtain ⟨-, c, hc⟩ := hpk0
  have hpklt : pk < fd.length := (List.getElem?_eq_some_iff.mp hc).1
  have hq3 : q + 3 = pk := by
    by_cases h3 : 3 ≤ pk
    · have : ((pk : Int) - 3) = ((pk - 3 : Nat) : Int) := by omega
      rw [this, toU64_natCast (by omega)] at hq
      omega
    · exfalso
      have : toU64 ((pk : Int) - 3) = 2 ^ 64 + pk - 3 := by
        have hk : pk = 0 ∨ pk = 1 ∨ pk = 2 := by omega
        rcases hk with rfl | rfl | rfl <;> decide
      omega
  -- the second run
  have hl : fd1.length = fd.length := by rw [hfd1]; simp
  refine ⟨hl, ?_⟩
  have hstr : strLoop fd1 O (fd1.length - O) O = .ok pos := by
    rw [hl]
    refine strLoop_lockstep fd fd1 O hl ?_ ?_ _ _ _ hpos
    · intro p hp
      rw [hfd1]
      exact strncmp0_set_false_right str fd _ _ 16 0 p (by decide) hp
    · intro p hp
      rw [← hp, hfd1]
      symm
      apply strncmp0_congr_right
      intro k hk
      have hstr0 : ∀ r, r < 16 → str[0 + r]? ≠ some 0 := by decide
      have hstr74 : ∀ r, r < 16 → str[0 + r]? = some 0x74 → r = 15 := by decide
      have hbytes := fun k hk => (strncmp0_true_bytes str fd 16 0 p k hp hk
        (fun r hr => hstr0 r (by omega))).1
      have hkne : p + k ≠ t + 2 := by
        intro he
        have h15 := hbytes k hk
        rw [he, hjz74] at h15
        have hk15 : k = 15 := hstr74 k hk h15
        subst hk15
        have h13 := hbytes 13 (by omega)
        rw [show p + 13 = t by omega, ht0e] at h13
        revert h13; decide
      rw [List.getElem?_set_ne (Ne.symm hkne)]
  have hfwd : findSeq fd1 (le64 (toU64 ((A : Int) + pos - 1))) 4 0 DIR_FWD NotFound = .ok pk := by
    unfold findSeq at hpk ⊢
    refine findSeqLoop_lockstep fd fd1 _ 4 DIR_FWD hl ?_ _ _ _ hpk hpkne ?_
    · intro i hi
      rw [hfd1]
      exact strncmp0_set_false_left fd _ _ _ 4 i 0 (by simpa using hEB) hi
    · rw [← hpkm, hfd1]
      apply strncmp0_congr_left
      intro k hk
      rw [List.getElem?_set_ne (by omega)]
  have hmov1 : strncmp0 fd1 q [0x48, 0xC7, 0] 0 2 = .ok true := by
    rw [← hmov, hfd1]
    apply strncmp0_congr_left
    intro k hk
    have : k = 0 ∨ k = 1 := by omega
    rcases this with rfl | rfl
    · rw [List.getElem?_set_ne (by omega)]
    · rw [List.getElem?_set_ne (by omega)]
  have hop1 : rd fd1 (q + 2) = .ok b := by
    rw [hfd1, rd_set, if_neg hne2, hop]
  have hrwd : findSeq fd1 [0x85, 0xC0, 0] 2 q DIR_RWD 32 = .ok t := by
    unfold findSeq at ht ⊢
    refine findSeqLoop_lockstep fd fd1 _ 2 DIR_RWD hl ?_ _ _ _ ht htne ?_
    · intro i hi
      rw [hfd1]
      exact strncmp0_set_false_left fd _ _ _ 2 i 0 (by decide) hi
    · rw [← htm, hfd1]
      apply strncmp0_congr_left
      intro k hk
      rw [List.getElem?_set_ne (by omega)]
  have hjz1 : rd fd1 (t + 2) = .ok 0xEB := by
    rw [hfd1, rd_set, if_pos rfl, if_pos hjlt]
  unfold patchRamdiskCheck
  rw [hstr]
  simp only [bind, Except.bind]
  rw [hfwd]
  simp only [if_neg hpkne, hq, hmov1, Bool.not_true, Bool.false_eq_true, if_false, hop1, if_neg hb,
    hrwd, if_neg htne, hjz, hjz1]
  rfl

/-- Witness for C5 (amended): `bufRamdisk` with rodata offset 11 and rodata address
`0x11111112`. -/
theorem patchRamdiskCheck_second_run_fails_at_jz_witness :
    patchRamdiskCheck bufRamdisk 0x11111112 11 = .ok (bufRamdisk.set 3 0xEB) ∧
    (bufRamdisk.set 3 0xEB).length = bufRamdisk.length ∧
    patchRamdiskCheck (bufRamdisk.set 3 0xEB) 0x11111112 11 = .error .jzNotFound :=
  ⟨by decide,
    patchRamdiskCheck_second_run_fails_at_jz bufRamdisk (bufRamdisk.set 3 0xEB) 0x11111112 11 0
      (by decide) (by decide) (by decide) (by decide)⟩

/-! ## Evaluations at concrete inputs -/

/-- C2: on the three-byte buffer `00 00 00` (no prologue marker, no locked OR) with init-text
offset 0, the prologue scanner returns NotFound, the loop is left by `break` with the cursor
still below `fileSize`, and `patchBootParams` goes on to the patch step: it ends in the
patched outcome, not in the failed one, and byte 2 is overwritten with 0x25. -/
theorem patchBootParams_notFound_reaches_patch_step :
    findPUSH_R12_R15_SEQ bufNoMarker (toInt32 3) 0 = .ok NotFound ∧
    patchBootParams (initState bufNoMarker 0) =
      .ok (.patched, { fileData := [0, 0, 0x25], orPos := [0, 0, 0, 0], initTextOffs := 0 }) := by
  decide

/-- C3: `bufNoString` holds no occurrence of "3ramdisk corrupt" (no byte of it is even the
first character 0x33), yet `patchRamdiskCheck` with rodata offset 0 and rodata address
`0x11111107` does not fail: the loop of lines 203-208 ends with `pos = fileSize = 11`, the
address `0x11111111` is searched and found at 7, and byte 3 is rewritten from 0x74 to 0xEB. -/
theorem patchRamdiskCheck_string_absent_still_patches :
    (∀ b ∈ bufNoString, b ≠ 0x33) ∧
    strLoop bufNoString 0 11 0 = .ok 11 ∧
    patchRamdiskCheck bufNoString 0x11111107 0 = .ok (bufNoString.set 3 0xEB) ∧
    bufNoString.set 3 0xEB ≠ bufNoString := by
  decide

/-- C4: in `bufNulAddr` (rodata offset 17, rodata address `0x11110011`) the literal is at
s = 17, so A = `0x11110010` with encoding `10 00 11 11`, whose first occurrence is p = 13; bytes
10, 11 are `48 C7`, byte 12 is `C0`, the nearest `85 C0` backward from 10 is t = 7 and byte 9 is
0x74. The search of line 211 nevertheless returns 3 (the comparison stops at the NUL of
`10 00`), and `patchRamdiskCheck` ends in the hard failure of line 219 instead of patching
byte 9. -/
theorem patchRamdiskCheck_nul_in_address_fails :
    strLoop bufNulAddr 17 (33 - 17) 17 = .ok 0 ∧
    (le64 (toU64 ((0x11110011 : Int) + 0 - 1))).take 4 = [0x10, 0x00, 0x11, 0x11] ∧
    (bufNulAddr.drop 13).take 4 = [0x10, 0x00, 0x11, 0x11] ∧
    (∀ i < 13, (bufNulAddr.drop i).take 4 ≠ [0x10, 0x00, 0x11, 0x11]) ∧
    (bufNulAddr.drop 7).take 6 = [0x85, 0xC0, 0x74, 0x48, 0xC7, 0xC0] ∧
    findSeq bufNulAddr (le64 0x11110010) 4 0 DIR_FWD NotFound = .ok 3 ∧
    patchRamdiskCheck bufNulAddr 0x11110011 17 = .error .movPrefixMismatch := by
  decide

/-- C5 (as stated, fails): on `bufTwoSites` with rodata offset 18 and rodata address
`0x11EBC086` the first run succeeds and rewrites byte 9; that write completes an earlier
occurrence `85 C0 EB 11` of the address at 7, so the second run does not fail at the
jump-if-zero check: it succeeds again and rewrites byte 3. -/
theorem patchRamdiskCheck_second_run_repatches :
    patchRamdiskCheck bufTwoSites 0x11EBC086 18 = .ok (bufTwoSites.set 9 0xEB) ∧
    patchRamdiskCheck (bufTwoSites.set 9 0xEB) 0x11EBC086 18
      = .ok ((bufTwoSites.set 9 0xEB).set 3 0xEB) ∧
    (bufTwoSites.set 9 0xEB).set 3 0xEB ≠ bufTwoSites.set 9 0xEB := by
  decide

/-- C6: in `bufZeroAddr` with init-text offset 0 the four recorded offsets are 0, 10, 20, 30 and
their derived addresses are 0, 100, 100, 100. Because the first derived address is 0, the
value `ptrOffset` still reads as unset at the second entry, the count `ec` reaches 4, and the
cluster is accepted and patched although the four addresses are not all equal. -/
theorem ptrCheck_accepts_unequal_addresses :
    findORs bufZeroAddr 0 1024 0 [0, 0, 0, 0] = .ok (4, [0, 10, 20, 30]) ∧
    [0, 10, 20, 30].map (newPtrOffset bufZeroAddr) = [.ok 0, .ok 100, .ok 100, .ok 100] ∧
    ptrCheck bufZeroAddr 0 [0, 10, 20, 30] = .ok 4 ∧
    patchBootParams (initState bufZeroAddr 0) =
      .ok (.patched,
        { fileData := (((bufZeroAddr.set 2 0x25).set 12 0x25).set 22 0x25).set 32 0x25,
          orPos := [0, 10, 20, 30], initTextOffs := 0 }) := by
  decide

/-- C7: searching the buffer `34 12 00 FF` forward from 0 for the 4-byte literal `34 12 00 00`
returns offset 0, although byte 3 of the buffer (0xFF) differs from byte 3 of the literal: the
comparison stops at the NUL byte. -/
theorem findSeq_match_stops_at_nul :
    findSeq [0x34, 0x12, 0x00, 0xFF] [0x34, 0x12, 0x00, 0x00] 4 0 DIR_FWD NotFound = .ok 0 ∧
    ([0x34, 0x12, 0x00, 0xFF] : List Byte).take 4 ≠ [0x34, 0x12, 0x00, 0x00] := by
  decide

/-- The lookahead of the prologue scan: on the one-byte buffer `41` with `size = 1` and
`start = 0` the scanner reads `fileData[1]`, one byte past the end of the buffer. -/
theorem findPUSH_reads_past_end :
    findPUSH_R12_R15_SEQ [0x41] 1 0 = .error .outOfBounds := by
  decide

/-- C9: on a window of 32 bytes holding four back-to-back locked ORs at 0, 8, 16 and 24,
`findORs` returns 2 and records 0 and 16 only: after the hit at `i` the cursor is advanced by 8
and then once more by the loop increment, so the next offset examined is `i + 9`. The same
happens with the window length 1024 used by `patchBootParams` when zero bytes follow the
four instructions. -/
theorem findORs_skips_adjacent_instruction :
    findORs bufAdjacent 0 32 0 [0, 0, 0, 0] = .ok (2, [0, 16, 0, 0]) ∧
    findORs bufAdjacentPadded 0 1024 0 [0, 0, 0, 0] = .ok (2, [0, 16, 0, 0]) :=
  ⟨by decide, findORs_adjacent_window⟩

/-! ## A failing run of `patchRamdiskCheck` leaves the buffer unchanged -/

theorem Run.readOnly_read {α : Type} (f : List Byte → Except Err α) : (Run.read f).ReadOnly :=
  fun _ => rfl

theorem Run.failSafe_fail {α : Type} (e : Err) : (Run.fail e : Run α).FailSafe :=
  fun _ _ _ => rfl

theorem Run.failSafe_write (i : Nat) (b : Byte) : (Run.write i b).FailSafe := by
  intro fd e h
  unfold Run.write at h ⊢
  cases hw : wr fd i b with
  | ok fd1 => rw [hw] at h; simp at h
  | error e1 => rfl

theorem Run.failSafe_bind {α β : Type} (x : Run α) (f : α → Run β) (hx : x.ReadOnly)
    (hf : ∀ a, (f a).FailSafe) : (x >>= f).FailSafe := by
  intro fd e h
  have hx1 := hx fd
  show (Run.seq x f fd).2 = fd
  change (Run.seq x f fd).1 = .error e at h
  unfold Run.seq at h ⊢
  cases hr : x fd with
  | mk r fd1 =>
    rw [hr] at hx1 h
    simp only at hx1
    subst hx1
    cases r with
    | ok a => exact hf a _ e h
    | error e1 => rfl

theorem Run.failSafe_ite {α : Type} (c : Prop) [Decidable c] (x y : Run α) (hx : x.FailSafe)
    (hy : y.FailSafe) : (if c then x else y).FailSafe := by
  split <;> assumption

theorem patchRamdiskCheckRun_failSafe (A O : Nat) : (patchRamdiskCheckRun A O).FailSafe := by
  unfold patchRamdiskCheckRun
  apply Run.failSafe_bind _ _ (Run.readOnly_read _)
  intro pos
  apply Run.failSafe_bind _ _ (Run.readOnly_read _)
  intro pk
  apply Run.failSafe_ite _ _ _ (Run.failSafe_fail _)
  apply Run.failSafe_bind _ _ (Run.readOnly_read _)
  intro bm
  apply Run.failSafe_ite
  · apply Run.failSafe_bind _ _ (Run.readOnly_read _)
    intro _
    apply Run.failSafe_bind _ _ (Run.readOnly_read _)
    intro _
    exact Run.failSafe_fail _
  apply Run.failSafe_bind _ _ (Run.readOnly_read _)
  intro b
  apply Run.failSafe_ite _ _ _ (Run.failSafe_fail _)
  apply Run.failSafe_bind _ _ (Run.readOnly_read _)
  intro t
  apply Run.failSafe_ite _ _ _ (Run.failSafe_fail _)
  apply Run.failSafe_bind _ _ (Run.readOnly_read _)
  intro j
  apply Run.failSafe_ite _ _ _ (Run.failSafe_fail _)
  apply Run.failSafe_bind _ _ (Run.readOnly_read _)
  intro _
  exact Run.failSafe_write _ _

theorem Run.read_seq {α β : Type} (f : List Byte → Except Err α) (g : α → Run β)
    (fd : List Byte) :
    (Run.read f).seq g fd =
      match f fd with
      | .ok a => g a fd
      | .error e => (.error e, fd) := by
  unfold Run.seq Run.read
  cases f fd <;> rfl

/-- The run on the buffer and the function `patchRamdiskCheck` agree: a run that ends normally
leaves the buffer `patchRamdiskCheck` returns, a run that fails ends with the same error. -/
theorem patchRamdiskCheckRun_eq (A O : Nat) (fd : List Byte) :
    patchRamdiskCheckRun A O fd =
      match patchRamdiskCheck fd A O with
      | .ok fd1 => (.ok (), fd1)
      | .error e => (.error e, fd) := by
  unfold patchRamdiskCheckRun patchRamdiskCheck
  simp only [bind, Except.bind]
  rw [Run.read_seq]
  cases strLoop fd O (fd.length - O) O with
  | error e => rfl
  | ok pos =>
  simp only
  rw [Run.read_seq]
  cases findSeq fd (le64 (toU64 ((A : Int) + pos - 1))) 4 0 DIR_FWD NotFound with
  | error e => rfl
  | ok pk =>
  simp only
  split
  · rfl
  generalize toU64 ((pk : Int) - 3) = q
  rw [Run.read_seq]
  cases strncmp0 fd q [0x48, 0xC7, 0] 0 2 with
  | error e => rfl
  | ok bm =>
  simp only
  cases bm with
  | false =>
    simp only [Bool.not_false, if_true]
    rw [Run.read_seq]
    cases rd fd q with
    | error e => rfl
    | ok x1 =>
      simp only
      rw [Run.read_seq]
      cases rd fd (q + 1) with
      | error e => rfl
      | ok x2 => rfl
  | true =>
  simp only [Bool.not_true, Bool.false_eq_true, if_false]
  rw [Run.read_seq]
  cases rd fd (q + 2) with
  | error e => rfl
  | ok b =>
  simp only
  split
  · rfl
  rw [Run.read_seq]
  cases findSeq fd [0x85, 0xC0, 0] 2 q DIR_RWD 32 with
  | error e => rfl
  | ok t =>
  simp only
  split
  · rfl
  rw [Run.read_seq]
  cases rd fd ((t + 2) % 2 ^ 64) with
  | error e => rfl
  | ok j =>
  simp only
  split
  · rfl
  rw [Run.read_seq]
  cases rd fd ((t + 2) % 2 ^ 64 + 1) with
  | error e => rfl
  | ok j1 =>
  simp only
  unfold Run.write
  cases wr fd ((t + 2) % 2 ^ 64) 0xEB <;> rfl

theorem patchRamdiskCheck_first_occurrence_decides (A O : Nat) (fd : List Byte) (pos pk : Nat)
    (hpos : strLoop fd O (fd.length - O) O = .ok pos)
    (hpk : findSeq fd (le64 (toU64 ((A : Int) + pos - 1))) 4 0 DIR_FWD NotFound = .ok pk)
    (hne : pk ≠ NotFound)
    (hbad : strncmp0 fd (toU64 ((pk : Int) - 3)) [0x48, 0xC7, 0] 0 2 = .ok false ∨
      ∃ b, rd fd (toU64 ((pk : Int) - 3) + 2) = .ok b ∧ (b < 0xC0 ∨ b > 0xC7)) :
    ∃ e, patchRamdiskCheck fd A O = .error e := by
  unfold patchRamdiskCheck
  rw [hpos]
  simp only [bind, Except.bind, hpk, if_neg hne]
  generalize toU64 ((pk : Int) - 3) = q at hbad ⊢
  cases hm : strncmp0 fd q [0x48, 0xC7, 0] 0 2 with
  | error e => exact ⟨e, rfl⟩
  | ok bm =>
    cases bm with
    | false =>
      simp only [Bool.not_false, if_true]
      cases rd fd q with
      | error e => exact ⟨e, rfl⟩
      | ok x1 =>
        cases rd fd (q + 1) with
        | error e => exact ⟨e, rfl⟩
        | ok x2 => exact ⟨.movPrefixMismatch, rfl⟩
    | true =>
      simp only [Bool.not_true, Bool.false_eq_true, if_false]
      rcases hbad with hbad | ⟨b, hb, hrange⟩
      · rw [hm] at hbad; simp at hbad
      · rw [hb]
        simp only [if_pos hrange]
        exact ⟨.movOperandMismatch, rfl⟩

/-- C11: a run of `patchRamdiskCheck` that ends in a failure leaves the buffer byte for byte as
it found it (every statement before the write of line 239 only reads). The failure is decided
by the first occurrence of the address returned by the search of line 211: when that
occurrence is not preceded by `48 C7`, or the byte before it is outside `C0 .. C7`, the run
fails with the buffer unchanged, whatever later occurrences the buffer holds. -/
theorem patchRamdiskCheckRun_failure_leaves_buffer (A O : Nat) (fd : List Byte) :
    (∀ e, (patchRamdiskCheckRun A O fd).1 = .error e → (patchRamdiskCheckRun A O fd).2 = fd) ∧
    (∀ pos pk, strLoop fd O (fd.length - O) O = .ok pos →
      findSeq fd (le64 (toU64 ((A : Int) + pos - 1))) 4 0 DIR_FWD NotFound = .ok pk →
      pk ≠ NotFound →
      (strncmp0 fd (toU64 ((pk : Int) - 3)) [0x48, 0xC7, 0] 0 2 = .ok false ∨
        ∃ b, rd fd (toU64 ((pk : Int) - 3) + 2) = .ok b ∧ (b < 0xC0 ∨ b > 0xC7)) →
      ∃ e, patchRamdiskCheckRun A O fd = (.error e, fd)) := by
  refine ⟨fun e h => patchRamdiskCheckRun_failSafe A O fd e h, ?_⟩
  intro pos pk hpos hpk hne hbad
  obtain ⟨e, he⟩ := patchRamdiskCheck_first_occurrence_decides A O fd pos pk hpos hpk hne hbad
  exact ⟨e, by rw [patchRamdiskCheckRun_eq, he]⟩

/-- Witness for C11: in `bufTwoRefs` the first occurrence of the address (at 3) fails the check
of line 217 although the occurrence at 18 is preceded by a full `85 C0 74 48 C7 C0`. -/
theorem patchRamdiskCheckRun_failure_leaves_buffer_witness :
    patchRamdiskCheckRun 0x11111112 22 bufTwoRefs = (.error .movPrefixMismatch, bufTwoRefs) ∧
    (bufTwoRefs.drop 12).take 10 = [0x85, 0xC0, 0x74, 0x48, 0xC7, 0xC0, 0x11, 0x11, 0x11, 0x11] ∧
    (patchRamdiskCheckRun 0x11111112 22 bufTwoRefs).2 = bufTwoRefs ∧
    (∃ e, patchRamdiskCheckRun 0x11111112 22 bufTwoRefs = (.error e, bufTwoRefs)) :=
  ⟨by decide, by decide,
    (patchRamdiskCheckRun_failure_leaves_buffer 0x11111112 22 bufTwoRefs).1 .movPrefixMismatch
      (by decide),
    (patchRamdiskCheckRun_failure_leaves_buffer 0x11111112 22 bufTwoRefs).2 0 3 (by decide)
      (by decide) (by decide) (Or.inl (by decide))⟩

/-! ## Reads past the end of the buffer -/

/-- C12: the three scanners read past the end of the buffer. On `00 41` the prologue scan reads
index 2 (lookahead at `i + 1`); on `41 54 00` with init-text offset 0 the cluster scan of
`patchBootParams` reads index 3 (its window is 1024 bytes whatever the length of the buffer);
on `00 85` the forward search for `85 C0` reads index 2 (the comparison goes on after the
matching last byte). -/
theorem scanners_read_past_end :
    findPUSH_R12_R15_SEQ [0x00, 0x41] (toInt32 2) 0 = .error .outOfBounds ∧
    findORs [0x41, 0x54, 0x00] 0 1024 0 [0, 0, 0, 0] = .error .outOfBounds ∧
    patchBootParams (initState [0x41, 0x54, 0x00] 0) = .error .outOfBounds ∧
    findSeq [0x00, 0x85] [0x85, 0xC0, 0] 2 0 DIR_FWD NotFound = .error .outOfBounds := by
  decide

/-! ## What `findORs` records -/

theorem orHit_eq_false {fd : List Byte} {pos : Nat} (h : orHit fd pos = .ok false) :
    ¬ isOR fd pos := by
  intro hor
  rw [orHit_of_isOR hor] at h
  simp at h

theorem orHit_ok_of_lt {fd : List Byte} {pos : Nat} (h : pos + 7 < fd.length) :
    ∃ b, orHit fd pos = .ok b := by
  by_cases hor : isOR fd pos
  · exact ⟨true, orHit_of_isOR hor⟩
  · exact ⟨false, orHit_of_not_isOR h hor⟩

theorem getD_set_self (op : List Nat) (c v : Nat) (hc : c < op.length) :
    (op.set c v).getD c 0 = v := by
  simp [List.getD_eq_getElem?_getD, List.getElem?_set, hc]

theorem getD_set_ne (op : List Nat) (c k v : Nat) (hk : k ≠ c) :
    (op.set c v).getD k 0 = op.getD k 0 := by
  simp [List.getD_eq_getElem?_getD, List.getElem?_set_ne (Ne.symm hk)]

/-- What a scan that returns has recorded, seen from any point of the loop: the count grows to
at most 4; only the slots `c .. c1-1` are written; each holds an offset of the window at or
after the current one with the accepted pattern; recorded offsets are at least 9 apart; and
every offset with the accepted pattern between the current one and the end of the scan (the
end of the window, or the fourth hit) is a recorded one or lies in the 8 bytes after one. -/
theorem findORsLoop_spec (fd : List Byte) (base size : Nat) :
    ∀ (f i c : Nat) (op : List Nat) (c1 : Nat) (op1 : List Nat),
      findORsLoop fd base size f i c op = .ok (c1, op1) → size - i ≤ f → c < 4 →
      op.length = 4 →
        c ≤ c1 ∧ c1 ≤ 4 ∧ op1.length = 4 ∧
        (∀ k, (k < c ∨ c1 ≤ k) → op1.getD k 0 = op.getD k 0) ∧
        (∀ k, c ≤ k → k < c1 →
          i ≤ op1.getD k 0 ∧ op1.getD k 0 < size ∧ isOR fd (base + op1.getD k 0)) ∧
        (∀ k l, c ≤ k → k < l → l < c1 → op1.getD k 0 + 9 ≤ op1.getD l 0) ∧
        (∀ j, i ≤ j → (c1 < 4 → j < size) → (c1 = 4 → j < op1.getD 3 0) →
          isOR fd (base + j) →
            ∃ k, c ≤ k ∧ k < c1 ∧ op1.getD k 0 ≤ j ∧ j ≤ op1.getD k 0 + 8) := by
  intro f
  induction f with
  | zero =>
    intro i c op c1 op1 h hf hc hl
    simp only [findORsLoop, Except.ok.injEq, Prod.mk.injEq] at h
    obtain ⟨rfl, rfl⟩ := h
    refine ⟨le_refl _, by omega, hl, fun _ _ => rfl, fun k h1 h2 => by omega,
      fun k l h1 h2 h3 => by omega, fun j h1 h2 _ _ => ?_⟩
    have := h2 hc
    omega
  | succ f ih =>
    intro i c op c1 op1 h hf hc hl
    rw [findORsLoop] at h
    split at h
    · rename_i hi
      simp only [bind_eq_ok] at h
      obtain ⟨hit, hhit, h⟩ := h
      cases hit with
      | false =>
        simp only [Bool.false_eq_true, if_false] at h
        rw [if_neg (by omega)] at h
        have hno := orHit_eq_false hhit
        obtain ⟨h1, h2, h3, h4, h5, h6, h7⟩ := ih _ _ _ _ _ h (by omega) hc hl
        refine ⟨h1, h2, h3, h4, fun k hk1 hk2 => ?_, h6, fun j hj1 hj2 hj3 hj4 => ?_⟩
        · obtain ⟨a, b, d⟩ := h5 k hk1 hk2
          exact ⟨by omega, b, d⟩
        · by_cases hji : j = i
          · rw [hji] at hj4; exact absurd hj4 hno
          · exact h7 j (by omega) hj2 hj3 hj4
      | true =>
        simp only [if_true] at h
        have hor := orHit_eq_true hhit
        split at h
        · rename_i h4
          simp only [Except.ok.injEq, Prod.mk.injEq] at h
          obtain ⟨rfl, rfl⟩ := h
          have hc3 : c = 3 := by omega
          subst hc3
          have hself := getD_set_self op 3 i (by omega)
          refine ⟨by omega, le_refl _, by simpa using hl, fun k hk => ?_, fun k hk1 hk2 => ?_,
            fun k l hk1 hk2 hk3 => by omega, fun j hj1 _ hj3 _ => ?_⟩
          · exact getD_set_ne op 3 k i (by omega)
          · have hk3 : k = 3 := by omega
            subst hk3
            rw [hself]
            exact ⟨le_refl _, hi, hor⟩
          · have := hj3 rfl
            rw [hself] at this
            omega
        · rename_i h4
          have hl1 : (op.set c i).length = 4 := by simpa using hl
          obtain ⟨h1, h2, h3, h4, h5, h6, h7⟩ := ih _ _ _ _ _ h (by omega) (by omega) hl1
          have hself : op1.getD c 0 = i := by
            rw [h4 c (Or.inl (by omega))]
            exact getD_set_self op c i (by omega)
          refine ⟨by omega, h2, h3, fun k hk => ?_, fun k hk1 hk2 => ?_,
            fun k l hk1 hk2 hk3 => ?_, fun j hj1 hj2 hj3 hj4 => ?_⟩
          · rw [h4 k (by omega)]
            exact getD_set_ne op c k i (by omega)
          · by_cases hkc : k = c
            · subst hkc
              rw [hself]
              exact ⟨le_refl _, hi, hor⟩
            · obtain ⟨a, b, d⟩ := h5 k (by omega) hk2
              exact ⟨by omega, b, d⟩
          · by_cases hkc : k = c
            · subst hkc
              rw [hself]
              have := (h5 l (by omega) hk3).1
              omega
            · exact h6 k l (by omega) hk2 hk3
          · by_cases hj8 : j ≤ i + 8
            · exact ⟨c, le_refl _, by omega, by omega, by omega⟩
            · obtain ⟨k, a, b, d, e⟩ := h7 j (by omega) hj2 hj3 hj4
              exact ⟨k, by omega, b, d, e⟩
    · simp only [Except.ok.injEq, Prod.mk.injEq] at h
      obtain ⟨rfl, rfl⟩ := h
      refine ⟨le_refl _, by omega, hl, fun _ _ => rfl, fun k h1 h2 => by omega,
        fun k l h1 h2 h3 => by omega, fun j h1 h2 _ _ => ?_⟩
      have := h2 hc
      omega

/-- A scan whose window and lookahead lie inside the buffer returns. -/
theorem findORsLoop_ok (fd : List Byte) (base size : Nat) (hb : base + size + 7 ≤ fd.length) :
    ∀ (f i c : Nat) (op : List Nat), ∃ r, findORsLoop fd base size f i c op = .ok r := by
  intro f
  induction f with
  | zero => intro i c op; exact ⟨_, rfl⟩
  | succ f ih =>
    intro i c op
    rw [findORsLoop]
    split
    · rename_i hi
      obtain ⟨hit, hhit⟩ := @orHit_ok_of_lt fd (base + i) (by omega)
      rw [hhit]
      simp only [bind, Except.bind]
      cases hit with
      | false =>
        simp only [Bool.false_eq_true, if_false]
        split
        · exact ⟨_, rfl⟩
        · exact ih _ _ _
      | true =>
        simp only [if_true]
        split
        · exact ⟨_, rfl⟩
        · exact ih _ _ _
    · exact ⟨_, rfl⟩

/-- C13: for a window size below `2^31` and the four-slot array `orPos`, `findORs` returns
whenever the window and its lookahead lie inside the buffer, and whenever it returns a count
`c` and the array `op1`: `c ≤ 4`; the slots from `c` on are untouched; each of the first `c`
slots holds an offset `o` with `start ≤ o < size` and `data[o] = F0`, `data[o+1] = 80`,
`data[o+7]` one of 1, 2, 4, 8; the recorded offsets are strictly increasing; and when `c < 4`
the whole window was scanned: every offset of the window with the accepted pattern is a
recorded one or lies in the 8 bytes skipped after one. -/
theorem findORs_records_first_hits (fd : List Byte) (base size start : Nat) (op : List Nat)
    (hs : size < 2 ^ 31) (hop : op.length = 4) :
    (base + size + 7 ≤ fd.length → ∃ c op1, findORs fd base size start op = .ok (c, op1)) ∧
    (∀ c op1, findORs fd base size start op = .ok (c, op1) →
      c ≤ 4 ∧ op1.length = 4 ∧
      (∀ k, c ≤ k → op1.getD k 0 = op.getD k 0) ∧
      (∀ k, k < c →
        start ≤ op1.getD k 0 ∧ op1.getD k 0 < size ∧ isOR fd (base + op1.getD k 0)) ∧
      (∀ k l, k < l → l < c → op1.getD k 0 < op1.getD l 0) ∧
      (c < 4 → ∀ j, start ≤ j → j < size → isOR fd (base + j) →
        ∃ k, k < c ∧ op1.getD k 0 ≤ j ∧ j ≤ op1.getD k 0 + 8)) := by
  have hU : toU64 (size : Int) = size := toU64_natCast (by omega)
  unfold findORs
  rw [hU]
  refine ⟨fun hb => ?_, fun c op1 h => ?_⟩
  · obtain ⟨⟨c, op1⟩, h⟩ := findORsLoop_ok fd base size hb (size - start) start 0 op
    exact ⟨c, op1, h⟩
  · obtain ⟨-, h2, h3, h4, h5, h6, h7⟩ :=
      findORsLoop_spec fd base size _ _ _ _ _ _ h (le_refl _) (by decide) hop
    refine ⟨h2, h3, fun k hk => h4 k (Or.inr hk), fun k hk => h5 k (Nat.zero_le _) hk,
      fun k l hkl hl => ?_, fun hc j hj1 hj2 hj3 => ?_⟩
    · have := h6 k l (Nat.zero_le _) hkl hl
      omega
    · obtain ⟨k, -, b, d, e⟩ := h7 j hj1 (fun _ => hj2) (fun h4 => by omega) hj3
      exact ⟨k, b, d, e⟩

/-- Witness for C13: the 32-byte window `bufAdjacent`, where the scan returns 2 and records 0
and 16. -/
theorem findORs_records_first_hits_witness :
    (32 < 2 ^ 31 ∧ ([0, 0, 0, 0] : List Nat).length = 4 ∧
      findORs bufAdjacent 0 ((32 : Nat) : Int) 0 [0, 0, 0, 0] = .ok (2, [0, 16, 0, 0])) ∧
    (2 ≤ 4 ∧ ([0, 16, 0, 0] : List Nat).length = 4 ∧
      (∀ k, 2 ≤ k → ([0, 16, 0, 0] : List Nat).getD k 0 = ([0, 0, 0, 0] : List Nat).getD k 0) ∧
      (∀ k, k < 2 →
        0 ≤ ([0, 16, 0, 0] : List Nat).getD k 0 ∧ ([0, 16, 0, 0] : List Nat).getD k 0 < 32 ∧
          isOR bufAdjacent (0 + ([0, 16, 0, 0] : List Nat).getD k 0)) ∧
      (∀ k l, k < l → l < 2 →
        ([0, 16, 0, 0] : List Nat).getD k 0 < ([0, 16, 0, 0] : List Nat).getD l 0) ∧
      (2 < 4 → ∀ j, 0 ≤ j → j < 32 → isOR bufAdjacent (0 + j) →
        ∃ k, k < 2 ∧ ([0, 16, 0, 0] : List Nat).getD k 0 ≤ j ∧
          j ≤ ([0, 16, 0, 0] : List Nat).getD k 0 + 8)) :=
  ⟨⟨by decide, by decide, by decide⟩,
    (findORs_records_first_hits bufAdjacent 0 32 0 [0, 0, 0, 0] (by decide) (by decide)).2 2
      [0, 16, 0, 0] (by decide)⟩

/-! ## The byte at offset + 2 is not examined -/

/-- C14 (as stated, fails): in `bufXor` with init-text offset 0 the four instructions at 2, 11,
20 and 29 are `F0 80 35 ..`; the scan does not look at the byte at offset + 2, the cluster is
accepted, and the four bytes are changed from 0x35 to 0x25. -/
theorem patchBootParams_patches_other_selector :
    findORs bufXor 0 1024 0 [0, 0, 0, 0] = .ok (4, [2, 11, 20, 29]) ∧
    ptrCheck bufXor 0 [2, 11, 20, 29] = .ok 4 ∧
    patchBootParams (initState bufXor 0) =
      .ok (.patched,
        { fileData := (((bufXor.set 4 0x25).set 13 0x25).set 22 0x25).set 31 0x25,
          orPos := [2, 11, 20, 29], initTextOffs := 0 }) ∧
    (∀ p ∈ [2, 11, 20, 29], bufXor[0 + p + 2]? = some 0x35) := by
  decide

/-- C14 (amended): whenever `patchBootParams` ends in the patch step, the byte at offset + 2 of
each of the four recorded entries holds 0x25 in the output, whatever it held in the input. -/
theorem patchBootParams_patched_sites_hold_and (st st1 : State)
    (h : patchBootParams st = .ok (.patched, st1)) :
    ∀ n, n < 4 →
      st1.fileData[(st1.initTextOffs + st1.orPos.getD n 0 + 2) % 2 ^ 64]? = some 0x25 := by
  unfold patchBootParams at h
  simp only [bind_eq_ok] at h
  obtain ⟨st2, -, h⟩ := h
  split at h
  · simp [pure, Except.pure] at h
  · simp only [bind_eq_ok] at h
    obtain ⟨fd, hp, h⟩ := h
    simp only [pure, Except.pure, Except.ok.injEq, Prod.mk.injEq, true_and] at h
    subst h
    obtain ⟨-, hin, -⟩ := patchLoop_spec _ _ _ _ _ hp
    intro n hn
    refine (hin _ ?_).2
    unfold patchSites
    simp only [List.mem_map]
    exact ⟨n, by simp only [List.mem_cons, List.mem_singleton, List.not_mem_nil, or_false]; omega,
      rfl⟩

/-- Witness for C14 (amended): the accepted cluster of `bufXor`. -/
theorem patchBootParams_patched_sites_hold_and_witness :
    patchBootParams (initState bufXor 0) =
      .ok (.patched,
        { fileData := (((bufXor.set 4 0x25).set 13 0x25).set 22 0x25).set 31 0x25,
          orPos := [2, 11, 20, 29], initTextOffs := 0 }) ∧
    ∀ n, n < 4 →
      ((((bufXor.set 4 0x25).set 13 0x25).set 22 0x25).set 31 0x25)[
        (0 + ([2, 11, 20, 29] : List Nat).getD n 0 + 2) % 2 ^ 64]? = some 0x25 :=
  ⟨by decide,
    patchBootParams_patched_sites_hold_and (initState bufXor 0)
      { fileData := (((bufXor.set 4 0x25).set 13 0x25).set 22 0x25).set 31 0x25,
        orPos := [2, 11, 20, 29], initTextOffs := 0 } (by decide)⟩

/-! ## Where the cursor goes -/

theorem bufBeyond_findPUSH : 
    findPUSH_R12_R15_SEQ bufBeyond (toInt32 bufBeyond.length) 0 = .ok 1022 :=
  findPUSH_first bufBeyond 0 1022 (by rw [bufBeyond_length]; decide) (by decide) bufBeyond_isPush
    (fun j _ h => bufBeyond_not_isPush j h)

theorem bufBeyond_findORs : findORs bufBeyond 0 1024 0 [0, 0, 0, 0] = .ok (0, [0, 0, 0, 0]) := by
  unfold findORs
  rw [toU64_1024]
  exact findORsLoop_none bufBeyond 0 1024 (by rw [bufBeyond_length]; decide) _ 0 0 _ (by decide)
    (fun j _ h2 => by simpa using bufBeyond_not_isOR j h2)

/-- C15: in `bufBeyond` with init-text offset 0 the scan of the window at the cursor finds 0
matches and the cursor is advanced from 0 to 1022 + 2 + 1024 = 2048 (the marker found, plus
2, plus the window length); locked ORs with the accepted pattern start at 1024, 1033, 1042 and
1051, between the old and the new cursor. -/
theorem zero_match_skip_passes_over_instructions :
    findPUSH_R12_R15_SEQ bufBeyond (toInt32 bufBeyond.length) 0 = .ok 1022 ∧
    findORs bufBeyond 0 1024 0 [0, 0, 0, 0] = .ok (0, [0, 0, 0, 0]) ∧
    (∀ b, patchBootParamsLoop (b + 1) (initState bufBeyond 0) =
      patchBootParamsLoop b
        { fileData := bufBeyond, orPos := [0, 0, 0, 0], initTextOffs := 2048 }) ∧
    (∀ p ∈ [1024, 1033, 1042, 1051], 0 ≤ p ∧ p < 2048 ∧ isOR bufBeyond p) := by
  refine ⟨bufBeyond_findPUSH, bufBeyond_findORs, fun b => ?_, ?_⟩
  · rw [patchBootParamsLoop_skip b 1022 (initState bufBeyond 0) [0, 0, 0, 0]
      (by simp only [initState, State.fileSize]; rw [bufBeyond_length]; decide) (by decide)
      bufBeyond_findPUSH bufBeyond_findORs]
    rfl
  · intro p hp
    have h := (patchBootParams_misses_cluster_beyond_window).2.1
    simp only [List.mem_cons, List.mem_singleton, List.not_mem_nil, or_false] at hp
    rcases hp with rfl | rfl | rfl | rfl
    · exact ⟨by decide, by decide, (h 2 (by decide)).1⟩
    · exact ⟨by decide, by decide, (h 11 (by decide)).1⟩
    · exact ⟨by decide, by decide, (h 20 (by decide)).1⟩
    · exact ⟨by decide, by decide, (h 29 (by decide)).1⟩

theorem bufStray_isPush_zero : isPush bufStray 0 := by
  unfold isPush
  rw [bufStray_low 0 (by omega), bufStray_low (0 + 1) (by omega)]
  decide

theorem bufStray_findPUSH_zero :
    findPUSH_R12_R15_SEQ bufStray (toInt32 bufStray.length) 0 = .ok 0 :=
  findPUSH_first bufStray 0 0 (by rw [bufStray_length]; decide) (le_refl _) bufStray_isPush_zero
    (fun j h1 h2 => by omega)

theorem bufStray_findORs_zero :
    findORs bufStray 0 1024 0 [0, 0, 0, 0] = .ok (4, [2, 11, 20, 29]) :=
  findORs_cluster bufStray 0 2 11 20 29 [0, 0, 0, 0] (by decide) (by decide) (by decide)
    (by decide)
    (fun p hp => by
      have hp39 : p < 39 := by
        simp only [List.mem_cons, List.mem_singleton, List.not_mem_nil, or_false] at hp
        omega
      rw [Nat.zero_add, bufStray_isOR p hp39]
      revert p; decide)
    (fun j hj hor => by
      rw [Nat.zero_add, bufStray_isOR j (by omega)] at hor
      have key : ∀ i, i < 29 → isOR strayHead i →
          i = 2 ∨ i = 11 ∨ i = 20 ∨ (2 < i ∧ i ≤ 2 + 8) ∨ (11 < i ∧ i ≤ 11 + 8) ∨
            (20 < i ∧ i ≤ 20 + 8) := by decide
      exact key j hj hor)

theorem bufStray_newPtrOffsets :
    newPtrOffset bufStray 2 = .ok 300 ∧ newPtrOffset bufStray 11 = .ok 200 ∧
    newPtrOffset bufStray 20 = .ok 200 ∧ newPtrOffset bufStray 29 = .ok 200 := by
  rw [bufStray_newPtrOffset 2 (by omega), bufStray_newPtrOffset 11 (by omega),
    bufStray_newPtrOffset 20 (by omega), bufStray_newPtrOffset 29 (by omega)]
  decide

theorem bufStray_ptrCheck_zero : ptrCheck bufStray 0 [2, 11, 20, 29] = .ok 1 := by
  have hlen := bufStray_length
  obtain ⟨a0, a1, a2, a3⟩ := bufStray_newPtrOffsets
  unfold ptrCheck
  rw [ptrCheckLoop_cons bufStray 0 [2, 11, 20, 29] 0 _ 0 0 300 (by rw [hlen]; decide) (by rw [hlen]; decide) (by exact a0)]
  rw [if_pos rfl]
  rw [ptrCheckLoop_cons bufStray 0 [2, 11, 20, 29] 1 _ 300 1 200 (by rw [hlen]; decide) (by rw [hlen]; decide)
    (by exact a1)]
  rw [if_neg (by decide), if_neg (by decide)]
  rw [ptrCheckLoop_cons bufStray 0 [2, 11, 20, 29] 2 _ 300 1 200 (by rw [hlen]; decide) (by rw [hlen]; decide)
    (by exact a2)]
  rw [if_neg (by decide), if_neg (by decide)]
  rw [ptrCheckLoop_cons bufStray 0 [2, 11, 20, 29] 3 _ 300 1 200 (by rw [hlen]; decide) (by rw [hlen]; decide)
    (by exact a3)]
  rw [if_neg (by decide), if_neg (by decide)]
  rfl

theorem bufStray_findORs_fourth :
    findORs bufStray 29 1024 0 [2, 11, 20, 29] = .ok (2, [0, 9, 20, 29]) := by
  have hlen := bufStray_length
  have hor29 : isOR bufStray (29 + 0) := by rw [bufStray_isOR _ (by decide)]; decide
  have hor38 : isOR bufStray (29 + 9) := by rw [bufStray_isOR _ (by decide)]; decide
  unfold findORs
  rw [toU64_1024]
  rw [findORsLoop_next bufStray 29 1024 0 (by decide) (by rw [hlen]; decide) hor29 0 _ 0 0 _
    rfl (by decide) (by decide) (fun j h1 h2 => by omega)]
  rw [if_neg (by decide)]
  rw [findORsLoop_next bufStray 29 1024 9 (by decide) (by rw [hlen]; decide) hor38 0 _ 9 1 _
    rfl (by decide) (by decide) (fun j h1 h2 => by omega)]
  rw [if_neg (by decide)]
  rw [findORsLoop_none bufStray 29 1024 (by rw [hlen]; decide) _ 18 2 _ (by decide)
    (fun j h1 h2 => bufStray_not_isOR (29 + j) (by omega) (by omega))]
  rfl

/-- C16: in `bufStray` with init-text offset 0 the four matches 2, 11, 20, 29 are rejected by
the pointer check (count 1) and the cursor becomes 0 + 29 = 29, the absolute offset of the
fourth match itself, not an offset past it: the next window begins at that instruction and
the scan from 29 records it again at relative offset 0. -/
theorem mismatch_moves_cursor_onto_fourth_match :
    findORs bufStray 0 1024 0 [0, 0, 0, 0] = .ok (4, [2, 11, 20, 29]) ∧
    ptrCheck bufStray 0 [2, 11, 20, 29] = .ok 1 ∧
    (∀ b, patchBootParamsLoop (b + 1) (initState bufStray 0) =
      patchBootParamsLoop b
        { fileData := bufStray, orPos := [2, 11, 20, 29], initTextOffs := 29 }) ∧
    0 + ([2, 11, 20, 29] : List Nat).getD 3 0 = 29 ∧
    isOR bufStray 29 ∧
    findORs bufStray 29 1024 0 [2, 11, 20, 29] = .ok (2, [0, 9, 20, 29]) := by
  refine ⟨bufStray_findORs_zero, bufStray_ptrCheck_zero, fun b => ?_, rfl, ?_,
    bufStray_findORs_fourth⟩
  · rw [patchBootParamsLoop_mismatch b 0 1 (initState bufStray 0) [2, 11, 20, 29]
      (by simp only [initState, State.fileSize]; rw [bufStray_length]; decide) (by decide)
      bufStray_findPUSH_zero bufStray_findORs_zero bufStray_ptrCheck_zero (by decide)]
    rfl
  · rw [bufStray_isOR _ (by decide)]; decide

/-! ## `findSeq` and offset 0 -/

/-- C17: in the buffer `85 C0 00 00` the literal `85 C0` occurs at offset 0, wholly inside the
buffer, and offset 0 is among the positions 3, 2, 1, 0 of a backward search from 3 (and 1, 0
from 1) with step limit 32; `findSeq` returns NotFound, because its loop condition `i > 0`
ends the search before offset 0 is examined. A forward search whose last position matches
only the first byte of the literal reads past the end instead of returning NotFound. -/
theorem findSeq_backward_never_examines_offset_zero :
    (([0x85, 0xC0, 0x00, 0x00] : List Byte).drop 0).take 2 = [0x85, 0xC0] ∧
    findSeq [0x85, 0xC0, 0x00, 0x00] [0x85, 0xC0, 0] 2 3 DIR_RWD 32 = .ok NotFound ∧
    findSeq [0x85, 0xC0, 0x00, 0x00] [0x85, 0xC0, 0] 2 1 DIR_RWD 32 = .ok NotFound ∧
    findSeq [0x00, 0x00, 0x85] [0x85, 0xC0, 0] 2 0 DIR_FWD NotFound = .error .outOfBounds := by
  decide

/-! ## Termination of the loop of `patchBootParams` -/

/-- The loop is the repetition of its body while the loop condition holds. -/
theorem patchBootParamsLoop_succ (b : Nat) (st : State) :
    patchBootParamsLoop (b + 1) st =
      if st.initTextOffs < st.fileSize then
        patchBootParamsBody st >>= fun r =>
          match r with
          | .next s => patchBootParamsLoop b s
          | .exit s => pure s
      else pure st := by
  rw [patchBootParamsLoop]
  unfold patchBootParamsBody
  split
  · cases findPUSH_R12_R15_SEQ st.fileData (toInt32 st.fileSize) st.initTextOffs with
    | error e => rfl
    | ok addr =>
      simp only [bind, Except.bind]
      split
      · rfl
      · cases findORs st.fileData st.initTextOffs 1024 0 st.orPos with
        | error e => rfl
        | ok r =>
          obtain ⟨n, op⟩ := r
          simp only
          split
          · rfl
          · cases ptrCheck st.fileData st.initTextOffs op with
            | error e => rfl
            | ok ec =>
              simp only
              split <;> rfl
  · rfl

/-- An execution of the body that ends by `continue` has moved the cursor strictly forward: to
`addr + 2` or `addr + 1026` for the marker `addr` found at or after the cursor, or by the
relative offset of the fourth match, which is at least 27 and below 1024. -/
theorem patchBootParamsBody_next (st s : State) (hop : st.orPos.length = 4)
    (hlen : st.fileData.length < 2 ^ 63) (h : patchBootParamsBody st = .ok (.next s)) :
    st.initTextOffs < s.initTextOffs ∧ s.fileData = st.fileData ∧ s.orPos.length = 4 ∧
    ((∃ addr, st.initTextOffs ≤ addr ∧ addr < st.fileSize ∧
        (s.initTextOffs = addr + 2 ∨ s.initTextOffs = addr + 1026)) ∨
      (∃ r, 27 ≤ r ∧ r < 1024 ∧ s.initTextOffs = st.initTextOffs + r)) := by
  unfold patchBootParamsBody at h
  simp only [bind_eq_ok] at h
  obtain ⟨addr, haddr, h⟩ := h
  split at h
  · simp [pure, Except.pure] at h
  · rename_i hnf
    have hrange : st.initTextOffs ≤ addr ∧ addr < st.fileData.length := by
      rcases findPUSHLoop_range _ _ _ _ _ haddr with h1 | h1
      · exact absurd h1 hnf
      · exact h1
    simp only [bind_eq_ok] at h
    obtain ⟨⟨n, op⟩, hscan, h⟩ := h
    have hopl : op.length = 4 := by
      rw [findORsLoop_length _ _ _ _ _ _ _ _ _ hscan, hop]
    simp only at h
    split at h
    · simp only [pure, Except.pure, Except.ok.injEq, LoopStep.next.injEq] at h
      subst h
      simp only [State.fileSize]
      refine ⟨?_, trivial, hopl, Or.inl ⟨addr, hrange.1, hrange.2, ?_⟩⟩
      · split
        · rw [Nat.mod_eq_of_lt (a := addr + 2) (by omega), Nat.mod_eq_of_lt (by omega)]
          omega
        · rw [Nat.mod_eq_of_lt (by omega)]
          omega
      · split
        · right
          rw [Nat.mod_eq_of_lt (a := addr + 2) (by omega), Nat.mod_eq_of_lt (by omega)]
        · left
          rw [Nat.mod_eq_of_lt (by omega)]
    · rename_i hn4
      have hn : n = 4 := by simpa using hn4
      subst hn
      simp only [bind_eq_ok] at h
      obtain ⟨ec, -, h⟩ := h
      split at h
      · simp only [pure, Except.pure, Except.ok.injEq, LoopStep.next.injEq] at h
        subst h
        have h4 := findORsLoop_fourth _ _ _ _ _ _ _ _ hscan (by decide) hop
        rw [toU64_1024] at h4
        have hcur : st.initTextOffs < st.fileData.length := by omega
        simp only
        rw [Nat.mod_eq_of_lt (by omega)]
        exact ⟨by omega, trivial, hopl, Or.inr ⟨op.getD 3 0, by omega, h4.2.2, rfl⟩⟩
      · simp [pure, Except.pure] at h

theorem patchBootParamsBody_error (st : State) (e : Err)
    (h : patchBootParamsBody st = .error e) : e = .outOfBounds := by
  unfold patchBootParamsBody at h
  rcases bind_eq_error.mp h with h | ⟨addr, -, h⟩
  · exact findPUSHLoop_error _ _ _ _ _ h
  · split at h
    · simp [pure, Except.pure] at h
    · rcases bind_eq_error.mp h with h | ⟨⟨n, op⟩, -, h⟩
      · exact findORsLoop_error _ _ _ _ _ _ _ _ h
      · simp only at h
        split at h
        · simp [pure, Except.pure] at h
        · rcases bind_eq_error.mp h with h | ⟨ec, -, h⟩
          · exact ptrCheck_error h
          · split at h <;> simp [pure, Except.pure] at h

/-- Any two budgets above `fileSize - initTextOffs` give the same run of the loop. -/
theorem patchBootParamsLoop_budget : ∀ (b1 b2 : Nat) (st : State),
    st.orPos.length = 4 → st.fileData.length < 2 ^ 63 →
    st.fileSize - st.initTextOffs < b1 → st.fileSize - st.initTextOffs < b2 →
      patchBootParamsLoop b1 st = patchBootParamsLoop b2 st := by
  intro b1
  induction b1 with
  | zero => intro b2 st _ _ h1 _; omega
  | succ b1 ih =>
    intro b2 st hop hlen h1 h2
    obtain ⟨k2, rfl⟩ : ∃ k, b2 = k + 1 := ⟨b2 - 1, by omega⟩
    rw [patchBootParamsLoop_succ, patchBootParamsLoop_succ]
    split
    · rename_i hlt
      cases hbody : patchBootParamsBody st with
      | error e => rfl
      | ok r =>
        cases r with
        | exit s => rfl
        | next s =>
          obtain ⟨hinc, hfd, hopl, -⟩ := patchBootParamsBody_next st s hop hlen hbody
          simp only [bind, Except.bind]
          simp only [State.fileSize] at h1 h2 hlt
          exact ih k2 s hopl (by rw [hfd]; exact hlen)
            (by simp only [State.fileSize]; rw [hfd]; omega)
            (by simp only [State.fileSize]; rw [hfd]; omega)
    · rfl

/-- C18: for the four-slot `orPos` and a buffer shorter than `2^63` bytes, every execution of
the loop body that ends by `continue` strictly increases the cursor (to `addr + 2` or
`addr + 1026` for the marker `addr` found at or after the cursor, or by the relative offset of
the fourth match, which is at least 27), and the loop ends within `fileSize - initTextOffs`
executions of its body: every budget above that number gives the same run, which never ends
by exhausting the budget. -/
theorem patchBootParams_loop_terminates (st : State) (hop : st.orPos.length = 4)
    (hlen : st.fileData.length < 2 ^ 63) :
    (∀ s, patchBootParamsBody st = .ok (.next s) →
      st.initTextOffs < s.initTextOffs ∧ s.fileData = st.fileData ∧ s.orPos.length = 4 ∧
      ((∃ addr, st.initTextOffs ≤ addr ∧ addr < st.fileSize ∧
          (s.initTextOffs = addr + 2 ∨ s.initTextOffs = addr + 1026)) ∨
        (∃ r, 27 ≤ r ∧ r < 1024 ∧ s.initTextOffs = st.initTextOffs + r))) ∧
    (∀ b, st.fileSize - st.initTextOffs < b →
      patchBootParamsLoop b st =
        patchBootParamsLoop (st.fileSize - st.initTextOffs + 1) st) ∧
    patchBootParamsLoop (st.fileSize - st.initTextOffs + 1) st ≠ .error .loopBudget :=
  ⟨fun s h => patchBootParamsBody_next st s hop hlen h,
    fun b hb => patchBootParamsLoop_budget b _ st hop hlen hb (by omega),
    fun h => by
      have := patchBootParamsLoop_error _ st _ hop hlen (by omega) h
      exact absurd this (by decide)⟩

/-- Witness for C18: the 46-byte buffer `strayHead` with init-text offset 0, where the first
execution of the body ends by `continue` with the cursor moved from 0 to 29. -/
theorem patchBootParams_loop_terminates_witness :
    ((initState strayHead 0).orPos.length = 4 ∧ (initState strayHead 0).fileData.length < 2 ^ 63 ∧
      patchBootParamsBody (initState strayHead 0) =
        .ok (.next { fileData := strayHead, orPos := [2, 11, 20, 29], initTextOffs := 29 })) ∧
    ((0 : Nat) < 29 ∧ strayHead = strayHead ∧ ([2, 11, 20, 29] : List Nat).length = 4 ∧
      ((∃ addr, 0 ≤ addr ∧ addr < (initState strayHead 0).fileSize ∧
          (29 = addr + 2 ∨ 29 = addr + 1026)) ∨
        (∃ r, 27 ≤ r ∧ r < 1024 ∧ 29 = 0 + r))) ∧
    patchBootParamsLoop ((initState strayHead 0).fileSize - 0 + 1) (initState strayHead 0)
      ≠ .error .loopBudget :=
  ⟨⟨by decide, by decide, by decide⟩,
    (patchBootParams_loop_terminates (initState strayHead 0) (by decide) (by decide)).1
      { fileData := strayHead, orPos := [2, 11, 20, 29], initTextOffs := 29 } (by decide),
    (patchBootParams_loop_terminates (initState strayHead 0) (by decide) (by decide)).2.2⟩

/-! ## The derived reference address -/

theorem disp32_eq (fd : List Byte) (pos : Nat) (b3 b4 b5 b6 : Byte)
    (h3 : fd[pos + 3]? = some b3) (h4 : fd[pos + 4]? = some b4) (h5 : fd[pos + 5]? = some b5)
    (h6 : fd[pos + 6]? = some b6) : disp32 fd pos = .ok (signedLE32 b3 b4 b5 b6) := by
  unfold disp32
  rw [rd_of_getElem h3, rd_of_getElem h4, rd_of_getElem h5, rd_of_getElem h6]
  simp only [bind, Except.bind, pure, Except.pure, Except.ok.injEq]
  unfold signedLE32
  have l3 := b3.isLt
  have l4 := b4.isLt
  have l5 := b5.isLt
  have l6 := b6.isLt
  split <;> split <;> omega

theorem signedLE32_encode (d : Int) (h1 : -2 ^ 31 ≤ d) (h2 : d < 2 ^ 31) :
    signedLE32 (encodeLE32 d 0) (encodeLE32 d 1) (encodeLE32 d 2) (encodeLE32 d 3) = d := by
  unfold signedLE32 encodeLE32
  simp only [Fin.ofNat, Fin.val_mk]
  generalize hm : (d % 2 ^ 32).toNat = m
  have hm1 : (m : Int) = d % 2 ^ 32 := by
    rw [← hm]; exact Int.toNat_of_nonneg (Int.emod_nonneg _ (by norm_num))
  have hm2 : m < 2 ^ 32 := by
    have := Int.emod_lt_of_pos d (show (0 : Int) < 2 ^ 32 by norm_num)
    omega
  norm_num at hm1 hm2 h1 h2 ⊢
  split <;> omega

/-- C19: the derived reference address of a match at `pos` is `(pos + d) mod 2^64` for the
signed 32-bit two's-complement integer `d` whose little-endian bytes are
`fileData[pos+3 .. pos+6]`; the bytes that encode a `d` between `-2^31` and `2^31 - 1` decode to
`d`; hence two matches whose displacements lead to the same target, negative or positive, have
equal derived addresses. In `bufSigned` the matches at 16 and 24 (displacements -6 and -14)
both give 10, the match at 32 (displacement +968) gives 1000, and a displacement of -968 at
offset 968 gives 0. -/
theorem newPtrOffset_sign_extends :
    (∀ (fd : List Byte) (pos : Nat) (b3 b4 b5 b6 : Byte),
      fd[pos + 3]? = some b3 → fd[pos + 4]? = some b4 → fd[pos + 5]? = some b5 →
      fd[pos + 6]? = some b6 →
        newPtrOffset fd pos = .ok (((pos : Int) + signedLE32 b3 b4 b5 b6) % 2 ^ 64).toNat) ∧
    (∀ d : Int, -2 ^ 31 ≤ d → d < 2 ^ 31 →
      signedLE32 (encodeLE32 d 0) (encodeLE32 d 1) (encodeLE32 d 2) (encodeLE32 d 3) = d) ∧
    (∀ (fd : List Byte) (pos1 pos2 : Nat) (d1 d2 : Int),
      -2 ^ 31 ≤ d1 → d1 < 2 ^ 31 → -2 ^ 31 ≤ d2 → d2 < 2 ^ 31 →
      (∀ k, k < 4 → fd[pos1 + 3 + k]? = some (encodeLE32 d1 k)) →
      (∀ k, k < 4 → fd[pos2 + 3 + k]? = some (encodeLE32 d2 k)) →
      (pos1 : Int) + d1 = pos2 + d2 → newPtrOffset fd pos1 = newPtrOffset fd pos2) ∧
    (newPtrOffset bufSigned 16 = .ok 10 ∧ newPtrOffset bufSigned 24 = .ok 10 ∧
      newPtrOffset bufSigned 32 = .ok 1000 ∧
      newPtrOffset (List.replicate 968 0x90 ++ lockOrDisp (-968) ++ lockOrDisp 0) 968 = .ok 0) := by
  have key : ∀ (fd : List Byte) (pos : Nat) (b3 b4 b5 b6 : Byte),
      fd[pos + 3]? = some b3 → fd[pos + 4]? = some b4 → fd[pos + 5]? = some b5 →
      fd[pos + 6]? = some b6 →
        newPtrOffset fd pos = .ok (((pos : Int) + signedLE32 b3 b4 b5 b6) % 2 ^ 64).toNat := by
    intro fd pos b3 b4 b5 b6 h3 h4 h5 h6
    unfold newPtrOffset
    rw [disp32_eq fd pos b3 b4 b5 b6 h3 h4 h5 h6]
    rfl
  refine ⟨key, signedLE32_encode, ?_, ?_⟩
  · intro fd pos1 pos2 d1 d2 a1 a2 c1 c2 e1 e2 hsum
    rw [key fd pos1 _ _ _ _ (e1 0 (by omega)) (e1 1 (by omega)) (e1 2 (by omega))
        (e1 3 (by omega)),
      key fd pos2 _ _ _ _ (e2 0 (by omega)) (e2 1 (by omega)) (e2 2 (by omega))
        (e2 3 (by omega)),
      signedLE32_encode d1 a1 a2, signedLE32_encode d2 c1 c2, hsum]
  · decide

/-- Witness for C19: in `bufSigned` the displacement bytes `FA FF FF FF` at 19..22 give the
derived address 16 - 6 = 10, and the matches at 16 and 24 agree. -/
theorem newPtrOffset_sign_extends_witness :
    (bufSigned[16 + 3]? = some 0xFA ∧ bufSigned[16 + 4]? = some 0xFF ∧
      bufSigned[16 + 5]? = some 0xFF ∧ bufSigned[16 + 6]? = some 0xFF ∧
      signedLE32 0xFA 0xFF 0xFF 0xFF = -6) ∧
    newPtrOffset bufSigned 16 =
      .ok ((((16 : Nat) : Int) + signedLE32 0xFA 0xFF 0xFF 0xFF) % 2 ^ 64).toNat ∧
    newPtrOffset bufSigned 16 = newPtrOffset bufSigned 24 :=
  ⟨by decide,
    newPtrOffset_sign_extends.1 bufSigned 16 0xFA 0xFF 0xFF 0xFF (by decide) (by decide)
      (by decide) (by decide),
    newPtrOffset_sign_extends.2.2.1 bufSigned 16 24 (-6) (-14) (by decide) (by decide)
      (by decide) (by decide) (by decide) (by decide) (by decide)⟩

/-! ## The prologue scan over the whole buffer -/

/-- No marker from `i` on, in a buffer whose last byte is not 0x41: the scan of the whole
buffer returns NotFound. -/
theorem findPUSHLoop_none (fd : List Byte) (hlast : ∀ k, k + 1 = fd.length → fd[k]? ≠ some 0x41) :
    ∀ (left i : Nat), (∀ j, i ≤ j → ¬ isPush fd j) →
      findPUSHLoop fd fd.length left i = .ok NotFound := by
  intro left
  induction left with
  | zero => intro i _; rfl
  | succ left ih =>
    intro i hno
    rw [findPUSHLoop]
    split
    · rename_i hi
      rw [rd_of_lt hi]
      simp only [bind, Except.bind]
      have hrec := ih (i + 1) (fun j hj => hno j (by omega))
      split
      · rename_i h41
        have hi1 : i + 1 < fd.length := by
          by_contra hc
          refine hlast i (by omega) ?_
          rw [List.getElem?_eq_getElem hi, h41]
        rw [rd_of_lt hi1]
        simp only
        split
        · rename_i hrange
          exfalso
          refine hno i (le_refl _) ⟨by rw [List.getElem?_eq_getElem hi, h41], ?_⟩
          rw [List.getElem?_eq_getElem hi1]
          have key : ∀ x : Byte, 0x54 ≤ x ∧ x ≤ 0x57 →
              (some x = some 0x54 ∨ some x = some 0x55 ∨ some x = some 0x56 ∨
                some x = some 0x57) := by decide
          exact key _ hrange
        · exact hrec
      · exact hrec
    · rfl

/-- C8: for a buffer shorter than `2^31` bytes scanned over its whole length from `start`:
the scan returns the first marker at or after `start` when there is one; it returns NotFound
when there is none and the last byte of the buffer is not 0x41 (the one case where the
lookahead at `i + 1` leaves the buffer), so it returns whenever the last byte is not 0x41;
whatever it returns is NotFound or an offset `r` with `start ≤ r < size`, byte `r` equal to 0x41,
byte `r + 1` in `54 .. 57`, and no offset `j` with `start ≤ j < r` of that shape; on a buffer
without any byte 0x41 it returns NotFound. -/
theorem findPUSH_returns_first_marker (fd : List Byte) (start : Nat)
    (hlen : fd.length < 2 ^ 31) :
    (∀ m, start ≤ m → isPush fd m → (∀ j, start ≤ j → j < m → ¬ isPush fd j) →
      findPUSH_R12_R15_SEQ fd (toInt32 fd.length) start = .ok m) ∧
    ((∀ j, start ≤ j → ¬ isPush fd j) → fd.getLast? ≠ some 0x41 →
      findPUSH_R12_R15_SEQ fd (toInt32 fd.length) start = .ok NotFound) ∧
    (fd.getLast? ≠ some 0x41 →
      ∃ r, findPUSH_R12_R15_SEQ fd (toInt32 fd.length) start = .ok r) ∧
    (∀ r, findPUSH_R12_R15_SEQ fd (toInt32 fd.length) start = .ok r →
      r = NotFound ∨
        (start ≤ r ∧ r < fd.length ∧ fd[r]? = some 0x41 ∧
          (∃ b : Byte, fd[r + 1]? = some b ∧ 0x54 ≤ b ∧ b ≤ 0x57) ∧
          ∀ j, start ≤ j → j < r → ¬ isPush fd j)) ∧
    ((∀ b ∈ fd, b ≠ 0x41) →
      findPUSH_R12_R15_SEQ fd (toInt32 fd.length) start = .ok NotFound) := by
  have hnone : (∀ j, start ≤ j → ¬ isPush fd j) → fd.getLast? ≠ some 0x41 →
      findPUSH_R12_R15_SEQ fd (toInt32 fd.length) start = .ok NotFound := by
    intro hno hlast
    unfold findPUSH_R12_R15_SEQ
    rw [toU64_toInt32 hlen]
    refine findPUSHLoop_none fd (fun k hk hget => hlast ?_) _ _ hno
    rw [List.getLast?_eq_getElem?, ← hk, Nat.add_sub_cancel, hget]
  refine ⟨fun m hm hp hno => findPUSH_first fd start m hlen hm hp hno, hnone, ?_, ?_,
    fun hno => findPUSH_no_marker_byte fd start hlen hno⟩
  · intro hlast
    by_cases hex : ∃ m, start ≤ m ∧ isPush fd m
    · obtain ⟨m, hm, hp⟩ := hex
      obtain ⟨r, hr, -⟩ := findPUSH_found fd start m hlen hm hp
      exact ⟨r, hr⟩
    · exact ⟨NotFound, hnone (fun j hj hp => hex ⟨j, hj, hp⟩) hlast⟩
  · intro r h
    by_cases hr : r = NotFound
    · exact Or.inl hr
    · obtain ⟨h1, h2, h3, h4⟩ := findPUSH_sound fd start r hlen h hr
      refine Or.inr ⟨h1, h2, h3.1, ?_, h4⟩
      have key : ∀ x : Option Byte,
          (x = some 0x54 ∨ x = some 0x55 ∨ x = some 0x56 ∨ x = some 0x57) →
            ∃ b : Byte, x = some b ∧ 0x54 ≤ b ∧ b ≤ 0x57 := by
        intro x hx
        rcases hx with hx | hx | hx | hx <;> exact ⟨_, hx, by decide, by decide⟩
      exact key _ h3.2

/-- Witness for C8: in `bufMarkers` (6 bytes) the scan from 0 passes over the `41` at 1, which
is followed by `41`, and returns the marker `41 55` at 2. -/
theorem findPUSH_returns_first_marker_witness :
    (bufMarkers.length < 2 ^ 31 ∧
      findPUSH_R12_R15_SEQ bufMarkers (toInt32 bufMarkers.length) 0 = .ok 2) ∧
    (2 = NotFound ∨
      (0 ≤ 2 ∧ 2 < bufMarkers.length ∧ bufMarkers[2]? = some 0x41 ∧
        (∃ b : Byte, bufMarkers[2 + 1]? = some b ∧ 0x54 ≤ b ∧ b ≤ 0x57) ∧
        ∀ j, 0 ≤ j → j < 2 → ¬ isPush bufMarkers j)) ∧
    (∃ r, findPUSH_R12_R15_SEQ bufMarkers (toInt32 bufMarkers.length) 5 = .ok r) :=
  ⟨⟨by decide, by decide⟩,
    (findPUSH_returns_first_marker bufMarkers 0 (by decide)).2.2.2.1 2 (by decide),
    (findPUSH_returns_first_marker bufMarkers 5 (by decide)).2.2.1 (by decide)⟩

/-! ## `patchBootParams` on back-to-back instructions -/

theorem bufBackToBack_low (j : Nat) (h : j < 34) : bufBackToBack[j]? = backHead[j]? := by
  unfold bufBackToBack
  rw [List.getElem?_append_left (by simpa [backHead, lockOr] using h)]

theorem bufBackToBack_mid (j : Nat) (h : j < 1100) : bufBackToBack[34 + j]? = some 0 := by
  unfold bufBackToBack
  rw [List.getElem?_append_right (by simp [backHead, lockOr])]
  have : 34 + j - backHead.length = j := by simp [backHead, lockOr]
  rw [this]
  exact getElem_pad_low 1100 _ j h

theorem bufBackToBack_high (j : Nat) :
    bufBackToBack[1134 + j]? = ([0x41, 0x54] : List Byte)[j]? := by
  unfold bufBackToBack
  rw [List.getElem?_append_right (by simp [backHead, lockOr]; omega)]
  have : 1134 + j - backHead.length = 1100 + j := by simp [backHead, lockOr]; omega
  rw [this]
  exact getElem_pad_high 1100 _ j

theorem bufBackToBack_length : bufBackToBack.length = 1136 := by
  unfold bufBackToBack
  rw [List.length_append, List.length_append, List.length_replicate]
  rfl

theorem bufBackToBack_isOR (j : Nat) (h : j < 27) : isOR bufBackToBack j ↔ isOR backHead j :=
  isOR_congr (bufBackToBack_low j (by omega)) (bufBackToBack_low _ (by omega))
    (bufBackToBack_low _ (by omega))

theorem bufBackToBack_newPtrOffset (j : Nat) (h : j < 27) :
    newPtrOffset bufBackToBack j = newPtrOffset backHead j :=
  newPtrOffset_congr (bufBackToBack_low _ (by omega)) (bufBackToBack_low _ (by omega))
    (bufBackToBack_low _ (by omega)) (bufBackToBack_low _ (by omega))

theorem bufBackToBack_not_isOR (j : Nat) (h : j < 1134) (h2 : j ≠ 2) (h10 : j ≠ 10)
    (h18 : j ≠ 18) (h26 : j ≠ 26) : ¬ isOR bufBackToBack j := by
  intro hp
  have hb := hp.1
  by_cases hj : j < 34
  · rw [bufBackToBack_low j hj] at hb
    have key : ∀ i, i < 34 → backHead[i]? = some 0xF0 → i = 2 ∨ i = 10 ∨ i = 18 ∨ i = 26 := by
      decide
    have := key j hj hb
    omega
  · obtain ⟨k, rfl⟩ : ∃ k, j = 34 + k := ⟨j - 34, by omega⟩
    rw [bufBackToBack_mid k (by omega)] at hb
    revert hb; decide

theorem bufBackToBack_not_isPush (j : Nat) (h1 : 1 ≤ j) (h2 : j < 1134) :
    ¬ isPush bufBackToBack j := by
  intro hp
  have h0 := hp.1
  by_cases hj : j < 34
  · rw [bufBackToBack_low j hj] at h0
    have : ∀ i, 1 ≤ i → i < 34 → backHead[i]? ≠ some 0x41 := by decide
    exact this j h1 hj h0
  · obtain ⟨k, rfl⟩ : ∃ k, j = 34 + k := ⟨j - 34, by omega⟩
    rw [bufBackToBack_mid k (by omega)] at h0
    revert h0; decide

/-- C1: in `bufBackToBack` with init-text offset 0 there is a prologue marker at 0, followed
within the next 1024 bytes by four locked ORs at 2, 10, 18 and 26 (`F0 80 0D`, displacement,
immediates 1, 2, 4, 8), one directly after the other, whose derived addresses are all 200.
The scan of the window examines offset `i + 9` after a hit at `i`, so it passes over the
instructions at 10 and 26 and returns 2 hits (2 and 18); the cursor moves to 2, the same two
hits are found again, the cursor moves past the marker at 1134 to the end of the buffer, and
the run ends in the failed outcome with no byte changed. -/
theorem patchBootParams_fails_on_back_to_back_cluster :
    isPush bufBackToBack 0 ∧
    (∀ p ∈ [2, 10, 18, 26],
      p < 0 + 1024 ∧ isOR bufBackToBack p ∧ bufBackToBack[p + 2]? = some 0x0D ∧
        newPtrOffset bufBackToBack p = .ok 200) ∧
    findORs bufBackToBack 0 1024 0 [0, 0, 0, 0] = .ok (2, [2, 18, 0, 0]) ∧
    patchBootParams (initState bufBackToBack 0) =
      .ok (.failed, { fileData := bufBackToBack, orPos := [0, 16, 0, 0], initTextOffs := 1136 }) := by
  have hlen := bufBackToBack_length
  have hpush0 : isPush bufBackToBack 0 := by
    unfold isPush
    rw [bufBackToBack_low 0 (by omega), bufBackToBack_low (0 + 1) (by omega)]
    decide
  have hpush2 : isPush bufBackToBack 1134 := by
    unfold isPush
    rw [bufBackToBack_high 0, bufBackToBack_high 1]
    decide
  have hor2 : isOR bufBackToBack 2 := by rw [bufBackToBack_isOR _ (by decide)]; decide
  have hor18 : isOR bufBackToBack 18 := by rw [bufBackToBack_isOR _ (by decide)]; decide
  -- first iteration: cursor 0, marker at 0, hits 2 and 18
  have hf1 : findPUSH_R12_R15_SEQ bufBackToBack (toInt32 bufBackToBack.length) 0 = .ok 0 :=
    findPUSH_first bufBackToBack 0 0 (by rw [hlen]; decide) (le_refl _) hpush0
      (fun j h1 h2 => by omega)
  have hs1 : findORs bufBackToBack 0 1024 0 [0, 0, 0, 0] = .ok (2, [2, 18, 0, 0]) := by
    unfold findORs
    rw [toU64_1024]
    rw [findORsLoop_next bufBackToBack 0 1024 2 (by decide) (by rw [hlen]; decide)
      (by rw [Nat.zero_add]; exact hor2) 2 _ 0 0 _ rfl (by decide) (by decide)
      (fun j h1 h2 => by
        rw [Nat.zero_add]
        exact bufBackToBack_not_isOR j (by omega) (by omega) (by omega) (by omega) (by omega))]
    rw [if_neg (by decide)]
    rw [findORsLoop_next bufBackToBack 0 1024 18 (by decide) (by rw [hlen]; decide)
      (by rw [Nat.zero_add]; exact hor18) 7 _ 11 1 _ rfl (by decide) (by decide)
      (fun j h1 h2 => by
        rw [Nat.zero_add]
        exact bufBackToBack_not_isOR j (by omega) (by omega) (by omega) (by omega) (by omega))]
    rw [if_neg (by decide)]
    rw [findORsLoop_none bufBackToBack 0 1024 (by rw [hlen]; decide) _ 27 2 _ (by decide)
      (fun j h1 h2 => by
        rw [Nat.zero_add]
        exact bufBackToBack_not_isOR j (by omega) (by omega) (by omega) (by omega) (by omega))]
    rfl
  -- second iteration: cursor 2, marker at 1134, the same two hits at relative offsets 0, 16
  have hf2 : findPUSH_R12_R15_SEQ bufBackToBack (toInt32 bufBackToBack.length) 2 = .ok 1134 :=
    findPUSH_first bufBackToBack 2 1134 (by rw [hlen]; decide) (by decide) hpush2
      (fun j h1 h2 => bufBackToBack_not_isPush j (by omega) h2)
  have hs2 : findORs bufBackToBack 2 1024 0 [2, 18, 0, 0] = .ok (2, [0, 16, 0, 0]) := by
    unfold findORs
    rw [toU64_1024]
    rw [findORsLoop_next bufBackToBack 2 1024 0 (by decide) (by rw [hlen]; decide) hor2 0 _ 0 0 _
      rfl (by decide) (by decide) (fun j h1 h2 => by omega)]
    rw [if_neg (by decide)]
    rw [findORsLoop_next bufBackToBack 2 1024 16 (by decide) (by rw [hlen]; decide) hor18 7 _ 9
      1 _ rfl (by decide) (by decide)
      (fun j h1 h2 =>
        bufBackToBack_not_isOR (2 + j) (by omega) (by omega) (by omega) (by omega) (by omega))]
    rw [if_neg (by decide)]
    rw [findORsLoop_none bufBackToBack 2 1024 (by rw [hlen]; decide) _ 25 2 _ (by decide)
      (fun j h1 h2 =>
        bufBackToBack_not_isOR (2 + j) (by omega) (by omega) (by omega) (by omega) (by omega))]
    rfl
  refine ⟨hpush0, ?_, hs1, ?_⟩
  · intro p hp
    have hp27 : p < 27 := by
      simp only [List.mem_cons, List.mem_singleton, List.not_mem_nil, or_false] at hp
      omega
    rw [bufBackToBack_isOR p hp27, bufBackToBack_low (p + 2) (by omega),
      bufBackToBack_newPtrOffset p hp27]
    revert p
    decide
  · have hloop : patchBootParamsLoop (bufBackToBack.length + 1) (initState bufBackToBack 0) =
        .ok { fileData := bufBackToBack, orPos := [0, 16, 0, 0], initTextOffs := 1136 } := by
      rw [patchBootParamsLoop_few bufBackToBack.length 0 2 (initState bufBackToBack 0)
        [2, 18, 0, 0] (by simp only [initState, State.fileSize]; rw [hlen]; decide) (by decide)
        hf1 hs1 (by decide) (by decide)]
      simp only [initState]
      rw [show (0 + 2) % 2 ^ 64 = 2 from rfl]
      rw [hlen]
      rw [patchBootParamsLoop_few 1135 1134 2
        { fileData := bufBackToBack, orPos := [2, 18, 0, 0], initTextOffs := 2 } [0, 16, 0, 0]
        (by simp only [State.fileSize]; rw [hlen]; decide) (by decide) hf2 hs2 (by decide)
        (by decide)]
      rw [show (1134 + 2) % 2 ^ 64 = 1136 from rfl]
      rw [patchBootParamsLoop_exit]
      simp only [State.fileSize]; rw [hlen]; decide
    unfold patchBootParams
    simp only [initState, State.fileSize] at hloop ⊢
    rw [hloop]
    simp only [bind, Except.bind]
    rw [if_pos (by rw [hlen])]
    rfl

end Kpatch
